import Mathlib

/-!
# das2go: service adapters and fetch engine

A shallow embedding of the record loaders of `services/rucio.go`,
`services/reqmgr.go`, `services/mcm.go`, `services/sitedb.go`, of the URL
fetcher of `src/utils/fetch.go`, of the token cache of `utils/rucio.go` and of
the lookup of configurations of `services/reqmgr.go`.

Modelling conventions.

* Go byte slices and Go strings are sequences of characters (`List Char`,
  `String`): payloads are taken to be UTF-8 text, in which the byte `0x0A`
  occurs only as the character `'\n'`.
* A Go `interface{}` is a `GoVal`; a `map[string]interface{}` is an
  association list with unique keys, kept in insertion order.  Go leaves the
  iteration order of a map unspecified; the embedding iterates in list order.
* A run-time panic of the Go program is the `Except.error` result.
* Calls of package `log` do not change what a function returns and are left
  out.  What the fetcher does to the outside (requests, sleeps, sends on the
  channel) is recorded in a trace of events.
* The clock, the environment variables and the answers of remote services are
  arguments of the functions that read them.
* The `encoding/json` and `regexp` packages are not part of the repository.
  The loaders take the JSON decoder as a parameter (`JSONLib`); `goJSON` is a
  reader for JSON texts used to evaluate the loaders on concrete payloads.
-/

namespace Das2go

/-! ## Values and records -/

/-- A finite binary64 number `(-1) ^ neg * mant * 2 ^ exp`, kept with `mant`
odd, or with `mant = 0` and `exp = 0`. -/
structure F64 where
  neg : Bool
  mant : Nat
  exp : Int
deriving DecidableEq, Repr

/-- The integer a binary64 number is, when it is one. -/
def F64.toInt? (x : F64) : Option Int :=
  if x.exp ≥ 0 then some ((if x.neg then -1 else 1) * (x.mant * 2 ^ x.exp.toNat)) else none

/-- The dynamic values a Go `interface{}` holds in this program. -/
inductive GoVal where
  /-- The nil interface (also the decoding of JSON `null`). -/
  | nil
  | bool (b : Bool)
  | str (s : String)
  /-- A Go `int`. -/
  | int (n : Int)
  /-- A Go `int64`. -/
  | int64 (n : Int)
  /-- A `json.Number`: the literal text of the number. -/
  | number (lit : String)
  | float64 (x : F64)
  /-- A `[]string`. -/
  | strs (l : List String)
  /-- A `[]interface{}`. -/
  | list (l : List GoVal)
  /-- A `map[string]interface{}`. -/
  | map (m : List (String × GoVal))
  /-- A `[]mongo.DASRecord`. -/
  | records (l : List (List (String × GoVal)))
  /-- A `mongo.DASRecord`. -/
  | record (m : List (String × GoVal))
  /-- A `map[string][]string`. -/
  | strsMap (m : List (String × List String))

/-- The entries of a non-nil Go map. -/
abbrev Fields := List (String × GoVal)

/-- Reading `m[k]`: the value stored under `k`, the nil interface when absent. -/
def Fields.get : Fields → String → GoVal
  | [], _ => .nil
  | (k', v) :: rest, k => if k' = k then v else Fields.get rest k

/-- Writing `m[k] = v` on a non-nil map. -/
def Fields.set : Fields → String → GoVal → Fields
  | [], k, v => [(k, v)]
  | (k', v') :: rest, k, v =>
    if k' = k then (k, v) :: rest else (k', v') :: Fields.set rest k v

/-- A `mongo.DASRecord` (`map[string]interface{}`); `none` is the nil map. -/
abbrev DASRecord := Option Fields

/-- Reading `rec[k]`; reading a nil map yields the nil interface. -/
def DASRecord.get (r : DASRecord) (k : String) : GoVal :=
  match r with
  | none => .nil
  | some m => Fields.get m k

/-- Go run-time panics. -/
inductive Panic where
  /-- A failed type assertion `v.(T)`. -/
  | typeAssertion (want : String)
  /-- An index outside the bounds of a slice. -/
  | indexOutOfRange (i len : Nat)
  /-- An assignment `m[k] = v` on a nil map. -/
  | nilMapWrite
  /-- A method call through a nil pointer. -/
  | nilDereference
deriving DecidableEq, Repr

/-- Writing `rec[k] = v`; panics on the nil map. -/
def DASRecord.set (r : DASRecord) (k : String) (v : GoVal) : Except Panic DASRecord :=
  match r with
  | none => .error .nilMapWrite
  | some m => .ok (some (Fields.set m k v))

/-- The type assertion `v.(string)`. -/
def GoVal.asString : GoVal → Except Panic String
  | .str s => .ok s
  | _ => .error (.typeAssertion "string")

/-- The type assertion `v.([]string)`. -/
def GoVal.asStrings : GoVal → Except Panic (List String)
  | .strs l => .ok l
  | _ => .error (.typeAssertion "[]string")

/-- The type assertion `v.([]interface{})`. -/
def GoVal.asList : GoVal → Except Panic (List GoVal)
  | .list l => .ok l
  | _ => .error (.typeAssertion "[]interface \x7b\x7d")

/-- The type assertion `v.(map[string]interface{})`. -/
def GoVal.asMap : GoVal → Except Panic Fields
  | .map m => .ok m
  | _ => .error (.typeAssertion "map[string]interface \x7b\x7d")

/-- The test `v != nil` on an interface value. -/
def GoVal.isNil : GoVal → Bool
  | .nil => true
  | _ => false

/-- Indexing `xs[i]` of a slice; panics outside the bounds. -/
def index {α : Type} (xs : List α) (i : Nat) : Except Panic α :=
  match xs.get? i with
  | some x => .ok x
  | none => .error (.indexOutOfRange i xs.length)

/-- The error-kind constants of package `utils` used by the loaders; their
declarations are not among the sources, so they are parameters. -/
structure ErrorKinds where
  RucioErrorName : String
  RucioError : Int
  ReqMgrErrorName : String
  ReqMgrError : Int
  /-- The kind the one-argument `mongo.DASErrorRecord(msg)` of `mcm.go` and
  `sitedb.go` attaches. -/
  DefaultErrorName : String
  DefaultError : Int

/-- Modelled from the spec: `mongo.DASErrorRecord` is not among the sources.
An error Record carries a fixed set of fields: the message, the
source-service name and the error-kind tag. -/
def DASErrorRecord (msg etype : String) (ecode : Int) : DASRecord :=
  some [("error", .str msg), ("type", .str etype), ("code", .int ecode)]

/-- A record is an error Record when it carries the three error fields. -/
def isErrorRecord (r : DASRecord) : Bool :=
  !(r.get "error").isNil && !(r.get "type").isNil && !(r.get "code").isNil

/-! ## The JSON decoder interface -/

/-- The value of a Go `error`: its text. -/
abbrev GoError := String

/-- The calls into `encoding/json` made by the loaders.  Each returns the value
of the destination variable after the call (which started as the zero value)
and the error, `none` for a nil error. -/
structure JSONLib where
  /-- Call `json.Unmarshal(data, &rec)` with `rec` a `mongo.DASRecord`. -/
  unmarshalRecord : List Char → DASRecord × Option GoError
  /-- Call `dec.UseNumber(); dec.Decode(&rec)` on a decoder reading `data`. -/
  decodeRecord : List Char → DASRecord × Option GoError
  /-- Call `json.Unmarshal(data, &datasets)` with `datasets` a `[]string`. -/
  unmarshalStrings : List Char → List String × Option GoError
  /-- Call `json.Unmarshal(data, &out)` with `out` a `[]mongo.DASRecord`. -/
  unmarshalRecords : List Char → List DASRecord × Option GoError

/-! ## services/rucio.go -/

/-- The message `fmt.Sprintf` builds in the loaders for a decoding failure. -/
def unmarshalMsg (srv api : String) (data : List Char) (err : GoError) : String :=
  srv ++ " unable to unmarshal the data into DAS record, api=" ++ api ++
    ", data=" ++ String.mk data ++ ", error=" ++ err

/-- The body shared by both decoding sites of `loadRucioData`: decode `row`,
append an error record on failure, then append `rec`. -/
def rucioDecodeRow (J : JSONLib) (K : ErrorKinds) (api : String)
    (out : List DASRecord) (row : List Char) : List DASRecord :=
  let (rec, err) := J.unmarshalRecord row
  let out :=
    match err with
    | some e =>
      out ++ [DASErrorRecord (unmarshalMsg "Rucio" api row e) K.RucioErrorName K.RucioError]
    | none => out
  out ++ [rec]

/-- The loop `for _, r := range data` of `loadRucioData`, on the state
`(out, row)`. -/
def rucioLoop (J : JSONLib) (K : ErrorKinds) (api : String) :
    List Char → List DASRecord → List Char → List DASRecord × List Char
  | [], out, row => (out, row)
  | r :: data, out, row =>
    if r = '\n' then rucioLoop J K api data (rucioDecodeRow J K api out row) []
    else rucioLoop J K api data out (row ++ [r])

/-- Function `loadRucioData` of `services/rucio.go`. -/
def loadRucioData (J : JSONLib) (K : ErrorKinds) (api : String) (data : List Char) :
    List DASRecord :=
  let (out, row) := rucioLoop J K api data [] []
  if row.length > 0 then rucioDecodeRow J K api out row else out

/-! ## A reader for JSON texts, after package `encoding/json`

`scan` follows the state machine of `scanner.go` (which validates the text
before anything is stored), the conversions follow `decode.go`. -/

/-- JSON syntax trees; a number keeps its literal text. -/
inductive JValue where
  | null
  | bool (b : Bool)
  | number (lit : List Char)
  | string (s : String)
  | array (l : List JValue)
  | object (l : List (String × JValue))

/-- Failures of the scanner. -/
inductive SyntaxError where
  /-- The text ends where more is expected and a space would be accepted. -/
  | unexpectedEnd
  /-- The text ends in a state that rejects the space the scanner feeds at
  the end of the input. -/
  | invalidAtEnd (context : String)
  | invalidChar (c : Char) (context : String)
  | maxDepth

/-- Function `quoteChar` of `scanner.go`, for the characters that
`strconv.Quote` leaves as they are or writes as a short escape. -/
def quoteChar (c : Char) : String :=
  if c = '\'' then "'\\''"
  else if c = '"' then "'\"'"
  else if c = '\\' then "'\\\\'"
  else if c = '\n' then "'\\n'"
  else if c = '\r' then "'\\r'"
  else if c = '\t' then "'\\t'"
  else "'" ++ String.singleton c ++ "'"

/-- The text of a syntax error returned by `json.Unmarshal`. -/
def SyntaxError.text : SyntaxError → GoError
  | .unexpectedEnd => "unexpected end of JSON input"
  | .invalidAtEnd ctx => "invalid character ' ' " ++ ctx
  | .invalidChar c ctx => "invalid character " ++ quoteChar c ++ " " ++ ctx
  | .maxDepth => "exceeded max depth"

/-- Function `isSpace` of `scanner.go`. -/
def isSpace (c : Char) : Bool :=
  c = ' ' || c = '\t' || c = '\r' || c = '\n'

/-- Drop leading JSON white space. -/
def skipSpace : List Char → List Char
  | [] => []
  | c :: cs => if isSpace c then skipSpace cs else c :: cs

/-- The rest of a literal `true`, `false` or `null` after its first letter. -/
def scanLiteral (name : String) : List Char → List Char → Except SyntaxError (List Char)
  | [], cs => .ok cs
  | w :: _, [] =>
    .error (.invalidAtEnd ("in literal " ++ name ++ " (expecting " ++ quoteChar w ++ ")"))
  | w :: ws, c :: cs =>
    if c = w then scanLiteral name ws cs
    else .error (.invalidChar c ("in literal " ++ name ++ " (expecting " ++ quoteChar w ++ ")"))

/-- At least one digit, then as many digits as follow. -/
def scanDigits (context : String) (cs : List Char) :
    Except SyntaxError (List Char × List Char) :=
  match cs with
  | [] => .error (.invalidAtEnd context)
  | c :: _ => if c.isDigit then .ok (cs.span Char.isDigit) else .error (.invalidChar c context)

/-- A JSON number at the head of the text: the literal and the rest. -/
def scanNumber (cs : List Char) : Except SyntaxError (List Char × List Char) :=
  let (sign, cs) :=
    match cs with
    | '-' :: r => (['-'], r)
    | r => ([], r)
  let intPart : Except SyntaxError (List Char × List Char) :=
    match cs with
    | '0' :: r => .ok (['0'], r)
    | _ => scanDigits "in numeric literal" cs
  match intPart with
  | .error e => .error e
  | .ok (ip, cs) =>
    let fracPart : Except SyntaxError (List Char × List Char) :=
      match cs with
      | '.' :: r =>
        match scanDigits "after decimal point in numeric literal" r with
        | .error e => .error e
        | .ok (ds, r) => .ok ('.' :: ds, r)
      | _ => .ok ([], cs)
    match fracPart with
    | .error e => .error e
    | .ok (fp, cs) =>
      let expPart : Except SyntaxError (List Char × List Char) :=
        match cs with
        | e :: r =>
          if e = 'e' || e = 'E' then
            let (sg, r) :=
              match r with
              | s :: r' => if s = '+' || s = '-' then ([s], r') else ([], r)
              | [] => ([], r)
            match scanDigits "in exponent of numeric literal" r with
            | .error err => .error err
            | .ok (ds, r) => .ok (e :: sg ++ ds, r)
          else .ok ([], cs)
        | [] => .ok ([], cs)
      match expPart with
      | .error e => .error e
      | .ok (ep, cs) => .ok (sign ++ ip ++ fp ++ ep, cs)

/-- The pieces of a scanned string literal: a character, or the number of a
`\uXXXX` escape. -/
inductive StrItem where
  | ch (c : Char)
  | u (n : Nat)

/-- The value of a hexadecimal digit. -/
def hexVal (c : Char) : Option Nat :=
  if '0' ≤ c ∧ c ≤ '9' then some (c.toNat - '0'.toNat)
  else if 'a' ≤ c ∧ c ≤ 'f' then some (c.toNat - 'a'.toNat + 10)
  else if 'A' ≤ c ∧ c ≤ 'F' then some (c.toNat - 'A'.toNat + 10)
  else none

/-- The four hexadecimal digits of a `\u` escape. -/
def scanHex4 : Nat → Nat → List Char → Except SyntaxError (Nat × List Char)
  | 0, acc, cs => .ok (acc, cs)
  | _ + 1, _, [] => .error (.invalidAtEnd "in \\u hexadecimal character escape")
  | k + 1, acc, c :: cs =>
    match hexVal c with
    | some d => scanHex4 k (16 * acc + d) cs
    | none => .error (.invalidChar c "in \\u hexadecimal character escape")

/-- The body of a string literal up to its closing quote. -/
def scanString : Nat → List Char → Except SyntaxError (List StrItem × List Char)
  | 0, _ => .error .unexpectedEnd
  | _ + 1, [] => .error .unexpectedEnd
  | fuel + 1, c :: cs =>
    if c = '"' then .ok ([], cs)
    else if c = '\\' then
      match cs with
      | [] => .error (.invalidAtEnd "in string escape code")
      | e :: cs' =>
        let simple (x : Char) : Except SyntaxError (List StrItem × List Char) :=
          match scanString fuel cs' with
          | .error err => .error err
          | .ok (items, rest) => .ok (.ch x :: items, rest)
        if e = '"' then simple '"'
        else if e = '\\' then simple '\\'
        else if e = '/' then simple '/'
        else if e = 'b' then simple (Char.ofNat 8)
        else if e = 'f' then simple (Char.ofNat 12)
        else if e = 'n' then simple '\n'
        else if e = 'r' then simple '\r'
        else if e = 't' then simple '\t'
        else if e = 'u' then
          match scanHex4 4 0 cs' with
          | .error err => .error err
          | .ok (n, rest) =>
            match scanString fuel rest with
            | .error err => .error err
            | .ok (items, rest') => .ok (.u n :: items, rest')
        else .error (.invalidChar e "in string escape code")
    else if c.toNat < 32 then .error (.invalidChar c "in string literal")
    else
      match scanString fuel cs with
      | .error err => .error err
      | .ok (items, rest) => .ok (.ch c :: items, rest)

/-- The Unicode replacement character. -/
def replacementChar : Char := Char.ofNat 0xFFFD

/-- Function `unquote` of `decode.go` on the scanned pieces: a high surrogate
directly followed by a low one is one character, any other surrogate is the
replacement character.  `pending` is a high surrogate read just before. -/
def unquote : Option Nat → List StrItem → List Char
  | none, [] => []
  | some _, [] => [replacementChar]
  | none, .ch c :: rest => c :: unquote none rest
  | some _, .ch c :: rest => replacementChar :: c :: unquote none rest
  | none, .u n :: rest =>
    if 0xD800 ≤ n ∧ n < 0xDC00 then unquote (some n) rest
    else if 0xDC00 ≤ n ∧ n < 0xE000 then replacementChar :: unquote none rest
    else Char.ofNat n :: unquote none rest
  | some hi, .u n :: rest =>
    if 0xDC00 ≤ n ∧ n < 0xE000 then
      Char.ofNat (0x10000 + (hi - 0xD800) * 0x400 + (n - 0xDC00)) :: unquote none rest
    else if 0xD800 ≤ n ∧ n < 0xDC00 then replacementChar :: unquote (some n) rest
    else replacementChar :: Char.ofNat n :: unquote none rest

/-- A string literal after its opening quote: its value and the rest. -/
def scanQuoted (cs : List Char) : Except SyntaxError (String × List Char) :=
  match scanString (cs.length + 1) cs with
  | .error e => .error e
  | .ok (items, rest) => .ok (String.mk (unquote none items), rest)

/-- What the scanner is reading: a value, the elements of an array after its
first bracket, or the members of an object. -/
inductive Task where
  | value
  | elements (acc : List JValue)
  | members (acc : List (String × JValue))

/-- Constant `maxNestingDepth` of `scanner.go`. -/
def maxNestingDepth : Nat := 10000

/-- The scanner: one JSON value at the head of the text, and the rest.
`depth` counts the arrays and objects that are open. -/
def scan : Nat → Nat → Task → List Char → Except SyntaxError (JValue × List Char)
  | 0, _, _, _ => .error .unexpectedEnd
  | fuel + 1, depth, .value, cs =>
    match skipSpace cs with
    | [] => .error .unexpectedEnd
    | c :: r =>
      if c = '\x7b' then
        if depth ≥ maxNestingDepth then .error .maxDepth
        else
          match skipSpace r with
          | [] => .error .unexpectedEnd
          | c' :: r' =>
            if c' = '\x7d' then .ok (.object [], r')
            else scan fuel (depth + 1) (.members []) (c' :: r')
      else if c = '[' then
        if depth ≥ maxNestingDepth then .error .maxDepth
        else
          match skipSpace r with
          | [] => .error .unexpectedEnd
          | c' :: r' =>
            if c' = ']' then .ok (.array [], r')
            else scan fuel (depth + 1) (.elements []) (c' :: r')
      else if c = '"' then
        match scanQuoted r with
        | .error e => .error e
        | .ok (s, r') => .ok (.string s, r')
      else if c = 't' then
        match scanLiteral "true" ['r', 'u', 'e'] r with
        | .error e => .error e
        | .ok r' => .ok (.bool true, r')
      else if c = 'f' then
        match scanLiteral "false" ['a', 'l', 's', 'e'] r with
        | .error e => .error e
        | .ok r' => .ok (.bool false, r')
      else if c = 'n' then
        match scanLiteral "null" ['u', 'l', 'l'] r with
        | .error e => .error e
        | .ok r' => .ok (.null, r')
      else if c = '-' ∨ c.isDigit then
        match scanNumber (c :: r) with
        | .error e => .error e
        | .ok (lit, r') => .ok (.number lit, r')
      else .error (.invalidChar c "looking for beginning of value")
  | fuel + 1, depth, .elements acc, cs =>
    match scan fuel depth .value cs with
    | .error e => .error e
    | .ok (v, r) =>
      match skipSpace r with
      | [] => .error .unexpectedEnd
      | c :: r' =>
        if c = ',' then scan fuel depth (.elements (acc ++ [v])) r'
        else if c = ']' then .ok (.array (acc ++ [v]), r')
        else .error (.invalidChar c "after array element")
  | fuel + 1, depth, .members acc, cs =>
    match skipSpace cs with
    | [] => .error .unexpectedEnd
    | q :: r =>
      if q = '"' then
        match scanQuoted r with
        | .error e => .error e
        | .ok (k, r1) =>
          match skipSpace r1 with
          | [] => .error .unexpectedEnd
          | c :: r2 =>
            if c = ':' then
              match scan fuel depth .value r2 with
              | .error e => .error e
              | .ok (v, r3) =>
                match skipSpace r3 with
                | [] => .error .unexpectedEnd
                | c' :: r4 =>
                  if c' = ',' then scan fuel depth (.members (acc ++ [(k, v)])) r4
                  else if c' = '\x7d' then .ok (.object (acc ++ [(k, v)]), r4)
                  else .error (.invalidChar c' "after object key:value pair")
            else .error (.invalidChar c "after object key")
      else .error (.invalidChar q "looking for beginning of object key string")

/-- One value at the head of `data`, with the text that follows it. -/
def scanValue (data : List Char) : Except SyntaxError (JValue × List Char) :=
  scan (data.length + 1) 0 .value data

/-- Function `checkValid` of `scanner.go` followed by the scan of the value:
`data` must be one JSON value, with white space around it only. -/
def scanDocument (data : List Char) : Except SyntaxError JValue :=
  match scanValue data with
  | .error e => .error e
  | .ok (v, rest) =>
    match skipSpace rest with
    | [] => .ok v
    | c :: _ => .error (.invalidChar c "after top-level value")

/-! ### Numbers: `strconv.ParseFloat(s, 64)` -/

/-- The number of binary digits of `n`. -/
def bitLenAux : Nat → Nat → Nat
  | 0, _ => 0
  | fuel + 1, n => if n = 0 then 0 else bitLenAux fuel (n / 2) + 1

/-- The number of binary digits of `n`. -/
def bitLen (n : Nat) : Nat := bitLenAux n n

/-- Remove the trailing zero bits of a mantissa. -/
def normalizeAux : Nat → Nat → Int → Nat × Int
  | 0, m, e => (m, e)
  | fuel + 1, m, e =>
    if m % 2 = 0 ∧ m ≠ 0 then normalizeAux fuel (m / 2) (e + 1) else (m, e)

/-- The binary64 number nearest to `n / d` (ties to even) for `0 < n` and
`0 < d`, as `(mant, exp)`; `none` when the result is out of range. -/
def roundRatio (n d : Nat) : Option (Nat × Int) :=
  let scaled (e : Int) : Nat × Nat :=
    if 0 ≤ e then (n, d * 2 ^ e.toNat) else (n * 2 ^ (-e).toNat, d)
  let e0 : Int := (bitLen n : Int) - (bitLen d : Int) - 53
  let s0 := scaled e0
  let e1 : Int := if s0.1 / s0.2 ≥ 2 ^ 53 then e0 + 1 else e0
  let e : Int := if e1 < -1074 then -1074 else e1
  if e > 971 then none
  else
    let s := scaled e
    let q := s.1 / s.2
    let r := s.1 % s.2
    let q' := if 2 * r > s.2 ∨ (2 * r = s.2 ∧ q % 2 = 1) then q + 1 else q
    if e = 971 ∧ q' ≥ 2 ^ 53 then none
    else if q' = 0 then some (0, 0)
    else some (normalizeAux 64 q' e)

/-- The decimal number written by a digit string. -/
def digitsToNat (ds : List Char) : Nat :=
  ds.foldl (fun n c => 10 * n + (c.toNat - '0'.toNat)) 0

/-- Function `strconv.ParseFloat(lit, 64)` on a JSON number literal; `none`
is the range error. -/
def parseFloat (lit : List Char) : Option F64 :=
  let (neg, cs) :=
    match lit with
    | '-' :: r => (true, r)
    | r => (false, r)
  let (ip, cs) := cs.span Char.isDigit
  let (fp, cs) :=
    match cs with
    | '.' :: r => r.span Char.isDigit
    | r => ([], r)
  let ex : Int :=
    match cs with
    | _ :: '-' :: ds => -(digitsToNat ds : Int)
    | _ :: '+' :: ds => (digitsToNat ds : Int)
    | _ :: ds => (digitsToNat ds : Int)
    | [] => 0
  let digits := digitsToNat (ip ++ fp)
  let e10 : Int := ex - fp.length
  if digits = 0 then some ⟨neg, 0, 0⟩
  else
    let ratio : Nat × Nat :=
      if 0 ≤ e10 then (digits * 10 ^ e10.toNat, 1) else (digits, 10 ^ (-e10).toNat)
    match roundRatio ratio.1 ratio.2 with
    | none => none
    | some (m, e) => some ⟨neg, m, e⟩

/-! ### Storing a value: `decode.go` -/

/-- The first error is the one `Unmarshal` reports (`saveError`). -/
def firstError (a b : Option GoError) : Option GoError :=
  match a with
  | some e => some e
  | none => b

/-- The word `UnmarshalTypeError` uses for the kind of a JSON value. -/
def JValue.kind : JValue → String
  | .null => "null"
  | .bool _ => "bool"
  | .number _ => "number"
  | .string _ => "string"
  | .array _ => "array"
  | .object _ => "object"

/-- The text of an `UnmarshalTypeError`. -/
def typeErrorText (value gotype : String) : GoError :=
  "json: cannot unmarshal " ++ value ++ " into Go value of type " ++ gotype

mutual
/-- Store a JSON value into an `interface{}`.  With `useNumber` a number is
kept as a `json.Number`, otherwise it becomes a `float64`. -/
def JValue.toInterface (useNumber : Bool) : JValue → GoVal × Option GoError
  | .null => (.nil, none)
  | .bool b => (.bool b, none)
  | .number lit =>
    if useNumber then (.number (String.mk lit), none)
    else
      match parseFloat lit with
      | some x => (.float64 x, none)
      | none => (.nil, some (typeErrorText ("number " ++ String.mk lit) "float64"))
  | .string s => (.str s, none)
  | .array l =>
    let r := toInterfaceList useNumber l
    (.list r.1, r.2)
  | .object l =>
    let r := toInterfaceFields useNumber [] l
    (.map r.1, r.2)
/-- Store the elements of a JSON array. -/
def toInterfaceList (useNumber : Bool) : List JValue → List GoVal × Option GoError
  | [] => ([], none)
  | v :: vs =>
    let a := JValue.toInterface useNumber v
    let b := toInterfaceList useNumber vs
    (a.1 :: b.1, firstError a.2 b.2)
/-- Store the members of a JSON object into the map `m`, in text order. -/
def toInterfaceFields (useNumber : Bool) (m : Fields) :
    List (String × JValue) → Fields × Option GoError
  | [] => (m, none)
  | (k, v) :: rest =>
    let a := JValue.toInterface useNumber v
    let b := toInterfaceFields useNumber (Fields.set m k a.1) rest
    (b.1, firstError a.2 b.2)
end

/-- Store a JSON value into a `mongo.DASRecord` that is nil. -/
def JValue.toRecord (useNumber : Bool) : JValue → DASRecord × Option GoError
  | .null => (none, none)
  | .object l =>
    let r := toInterfaceFields useNumber [] l
    (some r.1, r.2)
  | v => (none, some (typeErrorText v.kind "mongo.DASRecord"))

/-- Store a JSON value into a `string` that is empty. -/
def JValue.toStr : JValue → String × Option GoError
  | .null => ("", none)
  | .string s => (s, none)
  | v => ("", some (typeErrorText v.kind "string"))

/-- Store a JSON value into a `[]string` that is nil. -/
def JValue.toStrings : JValue → List String × Option GoError
  | .null => ([], none)
  | .array l =>
    l.foldr (fun v acc => let a := v.toStr; (a.1 :: acc.1, firstError a.2 acc.2)) ([], none)
  | v => ([], some (typeErrorText v.kind "[]string"))

/-- Store a JSON value into a `[]mongo.DASRecord` that is nil. -/
def JValue.toRecords (useNumber : Bool) : JValue → List DASRecord × Option GoError
  | .null => ([], none)
  | .array l =>
    l.foldr (fun v acc => let a := v.toRecord useNumber; (a.1 :: acc.1, firstError a.2 acc.2))
      ([], none)
  | v => ([], some (typeErrorText v.kind "[]mongo.DASRecord"))

/-- Function `json.Unmarshal(data, &v)`: the text is validated first, then
stored by `store`; `zero` is the value `v` keeps when validation fails. -/
def jsonUnmarshal {α : Type} (zero : α) (store : JValue → α × Option GoError)
    (data : List Char) : α × Option GoError :=
  match scanDocument data with
  | .error e => (zero, some e.text)
  | .ok v => store v

/-- Method `Decode` of a fresh `json.Decoder` reading `data`: the first value
of the stream is scanned and stored; what follows it is not looked at.  At
the end of the stream the error is `io.EOF` when nothing but white space was
read and `io.ErrUnexpectedEOF` otherwise. -/
def jsonDecode {α : Type} (zero : α) (store : JValue → α × Option GoError)
    (data : List Char) : α × Option GoError :=
  match scanValue data with
  | .error .unexpectedEnd | .error (.invalidAtEnd _) =>
    (zero, some (if (skipSpace data).isEmpty then "EOF" else "unexpected EOF"))
  | .error e => (zero, some e.text)
  | .ok (v, _) => store v

/-- The decoder of package `encoding/json`, as the loaders call it. -/
def goJSON : JSONLib where
  unmarshalRecord := jsonUnmarshal none (JValue.toRecord false)
  decodeRecord := jsonDecode none (JValue.toRecord true)
  unmarshalStrings := jsonUnmarshal [] JValue.toStrings
  unmarshalRecords := jsonUnmarshal [] (JValue.toRecords false)

/-! ## A matcher for regular expressions, after package `regexp`

The fragment of the RE2 syntax that is read: literal characters, `.`, the
classes `[...]` and `[^...]` with ranges, groups `(...)`, `|`, the
repetitions `*`, `+`, `?` (also in their lazy form), `^`, `$`, a backslash
before a punctuation character and the classes `\d`, `\s`, `\w` (with `\D`,
`\S`, `\W` outside brackets).  `regexpCompile` is `none` for a pattern
outside this fragment, as it is for a pattern that Go rejects. -/

/-- Regular expressions. -/
inductive Regex where
  /-- Matches nothing. -/
  | never
  /-- Matches the empty text. -/
  | empty
  /-- The assertion `^`: the beginning of the text. -/
  | bol
  /-- The assertion `$`: the end of the text. -/
  | eol
  | char (c : Char)
  /-- A class given by its ranges, negated when `neg`. -/
  | cls (neg : Bool) (ranges : List (Char × Char))
  | cat (a b : Regex)
  | alt (a b : Regex)
  | star (a : Regex)
deriving DecidableEq, Repr

/-- Any character at all. -/
def Regex.all : Regex := .cls true []

/-- The pattern `.`: any character but the newline. -/
def Regex.dot : Regex := .cls true [('\n', '\n')]

/-- Whether a character lies in one of the ranges. -/
def inRanges (ranges : List (Char × Char)) (c : Char) : Bool :=
  ranges.any (fun r => r.1 ≤ c && c ≤ r.2)

/-- Whether the expression matches the empty text at a position that is at
the start (`atStart`) or at the end (`atEnd`) of the text. -/
def Regex.nullable (atStart atEnd : Bool) : Regex → Bool
  | .never => false
  | .empty => true
  | .bol => atStart
  | .eol => atEnd
  | .char _ => false
  | .cls _ _ => false
  | .cat a b => a.nullable atStart atEnd && b.nullable atStart atEnd
  | .alt a b => a.nullable atStart atEnd || b.nullable atStart atEnd
  | .star _ => true

/-- Concatenation, with the trivial cases simplified. -/
def Regex.mkCat (a b : Regex) : Regex :=
  if a = .never ∨ b = .never then .never
  else if a = .empty then b
  else .cat a b

/-- Alternation, with the trivial cases simplified. -/
def Regex.mkAlt (a b : Regex) : Regex :=
  if a = .never then b
  else if b = .never then a
  else if a = b then a
  else .alt a b

/-- The expression for what may follow the character `c`, read at a position
that is at the start of the text when `atStart`. -/
def Regex.deriv (atStart : Bool) (c : Char) : Regex → Regex
  | .never => .never
  | .empty => .never
  | .bol => .never
  | .eol => .never
  | .char d => if c = d then .empty else .never
  | .cls neg ranges => if inRanges ranges c != neg then .empty else .never
  | .cat a b =>
    let da := Regex.mkCat (a.deriv atStart c) b
    if a.nullable atStart false then Regex.mkAlt da (b.deriv atStart c) else da
  | .alt a b => Regex.mkAlt (a.deriv atStart c) (b.deriv atStart c)
  | .star a => Regex.mkCat (a.deriv atStart c) (.star a)

/-- Whether the expression matches the whole of the remaining text. -/
def Regex.matchFrom : Bool → Regex → List Char → Bool
  | atStart, r, [] => r.nullable atStart true
  | atStart, r, c :: cs => Regex.matchFrom false (r.deriv atStart c) cs

/-- Whether some part of the text matches the expression. -/
def Regex.search (r : Regex) (text : List Char) : Bool :=
  Regex.matchFrom true (.cat (.star .all) (.cat r (.star .all))) text

/-- The characters that stand for themselves after a backslash: the ASCII
characters that are neither letters nor digits. -/
def isPunct (c : Char) : Bool :=
  c.toNat < 128 && !c.isAlphanum

/-- The ranges of the Perl classes `\d`, `\s` and `\w`. -/
def perlClass (c : Char) : Option (List (Char × Char)) :=
  if c = 'd' then some [('0', '9')]
  else if c = 's' then some [('\t', '\n'), (Char.ofNat 12, '\r'), (' ', ' ')]
  else if c = 'w' then some [('0', '9'), ('A', 'Z'), ('_', '_'), ('a', 'z')]
  else none

/-- The items of a class up to its closing bracket: the ranges and the rest of
the pattern.  `first` holds for the item right after the opening. -/
def parseClassItems : Nat → Bool → List (Char × Char) → List Char →
    Option (List (Char × Char) × List Char)
  | 0, _, _, _ => none
  | _ + 1, _, _, [] => none
  | fuel + 1, first, acc, c :: cs =>
    if c = ']' ∧ !first then some (acc, cs)
    else if c = '[' ∧ cs.head? = some ':' then none
    else if c = '\\' ∧ (cs.head?.bind perlClass).isSome then
      parseClassItems fuel false (acc ++ ((cs.head?.bind perlClass).getD [])) cs.tail
    else
      let lo : Option (Char × List Char) :=
        if c = '\\' then
          match cs with
          | e :: r => if isPunct e then some (e, r) else none
          | [] => none
        else some (c, cs)
      match lo with
      | none => none
      | some (lo, r) =>
        match r with
        | '-' :: h :: r' =>
          if h = ']' then parseClassItems fuel false (acc ++ [(lo, lo)]) r
          else
            let hi : Option (Char × List Char) :=
              if h = '\\' then
                match r' with
                | e :: r'' => if isPunct e then some (e, r'') else none
                | [] => none
              else some (h, r')
            match hi with
            | none => none
            | some (hi, r'') =>
              if hi < lo then none
              else parseClassItems fuel false (acc ++ [(lo, hi)]) r''
        | _ => parseClassItems fuel false (acc ++ [(lo, lo)]) r

/-- A class after its opening bracket. -/
def parseClass (cs : List Char) : Option (Regex × List Char) :=
  let (neg, cs) :=
    match cs with
    | '^' :: r => (true, r)
    | r => (false, r)
  match parseClassItems (cs.length + 1) true [] cs with
  | none => none
  | some (ranges, rest) => some (.cls neg ranges, rest)

/-- A group being read: the alternatives that are complete, and the items of
the alternative being read, last item first. -/
structure Frame where
  alts : List Regex
  items : List Regex

/-- The concatenation of items given last item first. -/
def catItems (items : List Regex) : Regex :=
  items.foldl (fun acc r => if acc = .empty then r else .cat r acc) .empty

/-- The expression of a group that is complete. -/
def Frame.close (f : Frame) : Regex :=
  match f.alts ++ [catItems f.items] with
  | [] => .empty
  | a :: rest => rest.foldl .alt a

/-- Add an item to the alternative being read. -/
def Frame.push (f : Frame) (r : Regex) : Frame :=
  { f with items := r :: f.items }

/-- Whether the character is a repetition operator. -/
def isRepeat (c : Char) : Bool :=
  c = '*' || c = '+' || c = '?'

/-- The pattern reader: `top` is the group being read and `stack` holds the
groups around it. -/
def parseLoop : Nat → Frame → List Frame → List Char → Option Regex
  | 0, _, _, _ => none
  | _ + 1, top, stack, [] =>
    match stack with
    | [] => some top.close
    | _ :: _ => none
  | fuel + 1, top, stack, c :: cs =>
    if c = '(' then
      if cs.head? = some '?' then none
      else parseLoop fuel ⟨[], []⟩ (top :: stack) cs
    else if c = ')' then
      match stack with
      | [] => none
      | parent :: stack' => parseLoop fuel (parent.push top.close) stack' cs
    else if c = '|' then
      parseLoop fuel ⟨top.alts ++ [catItems top.items], []⟩ stack cs
    else if isRepeat c then
      match top.items with
      | [] => none
      | r :: items =>
        let r' : Regex :=
          if c = '*' then .star r
          else if c = '+' then .cat r (.star r)
          else .alt r .empty
        let cs' :=
          match cs with
          | '?' :: rest => rest
          | _ => cs
        match cs'.head? with
        | some d => if isRepeat d then none else parseLoop fuel ⟨top.alts, r' :: items⟩ stack cs'
        | none => parseLoop fuel ⟨top.alts, r' :: items⟩ stack cs'
    else if c = '[' then
      match parseClass cs with
      | none => none
      | some (r, rest) => parseLoop fuel (top.push r) stack rest
    else if c = '\\' then
      match cs with
      | e :: rest =>
        if isPunct e then parseLoop fuel (top.push (.char e)) stack rest
        else
          match perlClass e.toLower with
          | some ranges => parseLoop fuel (top.push (.cls e.isUpper ranges)) stack rest
          | none => none
      | [] => none
    else if c = '\x7b' then none
    else if c = '.' then parseLoop fuel (top.push .dot) stack cs
    else if c = '^' then parseLoop fuel (top.push .bol) stack cs
    else if c = '$' then parseLoop fuel (top.push .eol) stack cs
    else parseLoop fuel (top.push (.char c)) stack cs

/-- Function `regexp.Compile`; `none` is a compilation error. -/
def regexpCompile (pattern : String) : Option Regex :=
  parseLoop (pattern.length + 1) ⟨[], []⟩ [] pattern.toList

/-- Function `regexp.MatchString(pattern, s)`: whether `s` contains a match of
the pattern; `none` is the error of a pattern that does not compile. -/
def regexpMatchString (pattern s : String) : Option Bool :=
  match regexpCompile pattern with
  | none => none
  | some r => some (r.search s.toList)

/-! ## services/rucio.go: `RucioUnmarshal` -/

/-- The lookup `val, ok := m[k]`: `none` when the key is absent. -/
def Fields.find : Fields → String → Option GoVal
  | [], _ => none
  | (k', v) :: rest, k => if k' = k then some v else Fields.find rest k

/-- The call `fmt.Sprintf("%s", val)`: a string is written as it is; what
package `fmt` writes for a value of another type is the parameter. -/
def sprintS (fmtOther : GoVal → String) : GoVal → String
  | .str s => s
  | v => fmtOther v

/-- The call `strings.Contains(s, "*")`. -/
def containsStar (s : String) : Bool :=
  s.toList.contains '*'

/-- The call `strings.Replace(s, "*", ".*", -1)`. -/
def replaceStar (s : String) : String :=
  String.mk (s.toList.flatMap (fun c => if c = '*' then ['.', '*'] else [c]))

/-- The first piece of `strings.Split(s, "#")`. -/
def beforeHash (s : String) : String :=
  String.mk (s.toList.takeWhile (fun c => c ≠ '#'))

/-- Function `InList` of `utils/utils.go`. -/
def InList (a : String) (list : List String) : Bool :=
  let check := list.foldl (fun n b => if b = a then n + 1 else n) 0
  if check ≠ 0 then true else false

/-- A copy of a map, built entry by entry. -/
def copyFields (m : Fields) : Fields :=
  m.foldl (fun acc kv => Fields.set acc kv.1 kv.2) []

/-- The regular expression `RucioUnmarshal` builds from the `site` value. -/
def sitePattern (site : String) : String :=
  if containsStar site then replaceStar site else site ++ ".*"

/-- One pass of the loop `for _, rec := range records` of `RucioUnmarshal`,
on the state `(out, rmap)`. -/
def rucioStep (fmtOther : GoVal → String) (specs : Fields) (api : String)
    (st : List DASRecord × Fields) (rec : DASRecord) :
    Except Panic (List DASRecord × Fields) :=
  let (out, rmap) := st
  if api = "rses" then
    match specs.find "site" with
    | some val =>
      if !(rec.get "rse").isNil then do
        let rse ← (rec.get "rse").asString
        let site := sitePattern (sprintS fmtOther val)
        let matched := (regexpMatchString site rse).getD false
        if matched then do
          let rec' ← rec.set "name" (.str rse)
          pure (out ++ [rec'], rmap)
        else pure (out, rmap)
      else pure (out, rmap)
    | none => pure (out, rmap)
  else if api = "site4dataset" ∨ api = "site4block" ∨ api = "site4file" then
    if !(rec.get "states").isNil then do
      let states ← (rec.get "states").asMap
      let news := states.map (fun kv =>
        some (Fields.set (copyFields (rec.getD [])) "name" (.str kv.1)))
      pure (out ++ news, rmap)
    else pure (out, rmap)
  else if api = "dataset4site" then
    if !(rec.get "name").isNil then do
      let blk ← (rec.get "name").asString
      pure (out, Fields.set rmap (beforeHash blk) (.int 1))
    else pure (out, rmap)
  else if api = "block4site" then
    if !(rec.get "name").isNil then pure (out ++ [rec], rmap) else pure (out, rmap)
  else if api = "rules4dataset" ∨ api = "rules4block" ∨ api = "rules4file" then
    pure (out ++ [rec], rmap)
  else if api = "block4dataset" then pure (out ++ [rec], rmap)
  else if api = "full_record" then pure (out ++ [rec], rmap)
  else if api = "file4dataset_site" ∨ api = "file4block_site" then
    match specs.find "site" with
    | some val =>
      let site := sprintS fmtOther val
      if !(rec.get "states").isNil then do
        let states ← (rec.get "states").asMap
        let sites := states.map Prod.fst
        if InList site sites then pure (out ++ [rec], rmap) else pure (out, rmap)
      else pure (out, rmap)
    | none => pure (out, rmap)
  else
    if !(rec.get "states").isNil then do
      let states ← (rec.get "states").asMap
      let replicas : List Fields :=
        states.map (fun kv => [("name", .str kv.1), ("state", kv.2)])
      let rec' ← rec.set "replicas" (.records replicas)
      pure (out ++ [rec'], rmap)
    else pure (out, rmap)

/-- Function `RucioUnmarshal` of `services/rucio.go`; `specs` is
`dasquery.Spec`. -/
def RucioUnmarshal (J : JSONLib) (K : ErrorKinds) (fmtOther : GoVal → String)
    (specs : Fields) (api : String) (data : List Char) : Except Panic (List DASRecord) := do
  let records := loadRucioData J K api data
  let (out, rmap) ← records.foldlM (rucioStep fmtOther specs api) ([], [])
  if api = "dataset4site" then
    pure (out ++ rmap.map (fun kv => some [("name", .str kv.1)]))
  else pure out

/-! ## services/reqmgr.go -/

/-- The records appended for a decoding error, in the ReqMgr loader. -/
def reqMgrError (K : ErrorKinds) (api : String) (data : List Char) :
    Option GoError → List DASRecord
  | some e =>
    [DASErrorRecord (unmarshalMsg "ReqMgr" api data e) K.ReqMgrErrorName K.ReqMgrError]
  | none => []

/-- Function `loadReqMgrData` of `services/reqmgr.go`. -/
def loadReqMgrData (J : JSONLib) (K : ErrorKinds) (api : String) (data : List Char) :
    List DASRecord :=
  if api = "configIDs" ∨ api = "datasetByPrepID" ∨ api = "outputdataset" ∨
      api = "inputdataset" then
    let (rec, err) := J.decodeRecord data
    reqMgrError K api data err ++ [rec]
  else if api = "recentDatasetByPrepID" then
    let (datasets, err) := J.unmarshalStrings data
    reqMgrError K api data err ++ datasets.map (fun d => some [("name", .str d)])
  else
    let (out, err) := J.unmarshalRecords data
    out ++ reqMgrError K api data err

/-- The body of the loops of `ReqMgrUnmarshal` for the apis `inputdataset`
and `outputdataset`: the first dataset of the field becomes `name`. -/
def promoteFirst (field : String) (rec : DASRecord) : Except Panic DASRecord :=
  let val := rec.get field
  if !val.isNil then do
    let datasets ← val.asStrings
    let first ← index datasets 0
    rec.set "name" (.str first)
  else pure rec

/-- The records `ReqMgrUnmarshal` makes of one record for api `configIDs`. -/
def configRecords (rec : DASRecord) : List DASRecord :=
  (rec.getD []).map (fun kv => some [("request_name", .str kv.1), ("config_files", kv.2)])

/-- The innermost loops of `ReqMgrUnmarshal` for api `datasetByPrepID`, on one
value `o` of a row. -/
def prepIDDatasets (o : GoVal) : Except Panic (List DASRecord) := do
  let a ← o.asMap
  match Fields.get a "OutputDatasets" with
  | .list datasets => pure (datasets.map (fun d => some [("name", d)]))
  | _ => pure []

/-- The loops of `ReqMgrUnmarshal` for api `datasetByPrepID`, on one record. -/
def prepIDRecords (rec : DASRecord) : Except Panic (List DASRecord) := do
  let perRows ← (rec.getD []).mapM (fun kv => do
    let rows ← kv.2.asList
    let perRow ← rows.mapM (fun rrr => do
      let m ← rrr.asMap
      let perValue ← m.mapM (fun ov => prepIDDatasets ov.2)
      pure perValue.flatten)
    pure perRow.flatten)
  pure perRows.flatten

/-- Function `ReqMgrUnmarshal` of `services/reqmgr.go`. -/
def ReqMgrUnmarshal (J : JSONLib) (K : ErrorKinds) (api : String) (data : List Char) :
    Except Panic (List DASRecord) :=
  let records := loadReqMgrData J K api data
  if api = "inputdataset" then records.mapM (promoteFirst "InputDatasets")
  else if api = "outputdataset" then records.mapM (promoteFirst "OutputDatasets")
  else if api = "configIDs" then pure (records.map configRecords).flatten
  else if api = "datasetByPrepID" then do
    let per ← records.mapM prepIDRecords
    pure per.flatten
  else pure records

/-! ## services/mcm.go -/

/-- Function `loadMcMData` of `services/mcm.go`. -/
def loadMcMData (J : JSONLib) (K : ErrorKinds) (api : String) (data : List Char) :
    List DASRecord :=
  let (rec, err) := J.decodeRecord data
  let out : List DASRecord :=
    match err with
    | some e =>
      [DASErrorRecord (unmarshalMsg "McM" api data e) K.DefaultErrorName K.DefaultError]
    | none => []
  out ++ [rec]

/-- Function `McMUnmarshal` of `services/mcm.go`. -/
def McMUnmarshal (J : JSONLib) (K : ErrorKinds) (api : String) (data : List Char) :
    List DASRecord :=
  (loadMcMData J K api data).map (fun rec => some [("mcm", rec.get "results")])

/-! ## services/sitedb.go -/

/-- The loop `for i, h := range headers` of `loadSiteDBData`, from column
`i` on, on the record `row`. -/
def siteDBRow (val : List GoVal) : List GoVal → Nat → Fields → Except Panic Fields
  | [], _, row => pure row
  | h :: headers, i, row => do
    let key ← h.asString
    let v ← index val i
    let row := Fields.set row key v
    let row := if key = "username" then Fields.set row "name" (Fields.get row key) else row
    siteDBRow val headers (i + 1) row

/-- Function `loadSiteDBData` of `services/sitedb.go`. -/
def loadSiteDBData (J : JSONLib) (K : ErrorKinds) (api : String) (data : List Char) :
    Except Panic (List DASRecord) :=
  let (rec, err) := J.decodeRecord data
  match err with
  | some e =>
    pure [DASErrorRecord (unmarshalMsg "SiteDB" api data e) K.DefaultErrorName K.DefaultError]
  | none => do
    let desc ← (rec.get "desc").asMap
    let headers ← (Fields.get desc "columns").asList
    let values ← (rec.get "result").asList
    values.mapM (fun item => do
      let val ← item.asList
      let row ← siteDBRow val headers 0 []
      pure (some row))

/-! ## src/utils/fetch.go -/

/-- Type `ResponseType` of `fetch.go`. -/
structure ResponseType where
  Url : String
  Data : List Char
  Error : Option GoError
deriving DecidableEq, Repr

/-- What the remote side does with one request: `client.Do` fails, or it
yields a response with a status code, whose body `ioutil.ReadAll` reads or
fails to read. -/
inductive HttpOutcome where
  | doError (err : GoError)
  | response (status : Nat) (body : List Char) (readError : Option GoError)
deriving DecidableEq, Repr

/-- What a run does that can be observed from outside. -/
inductive Event where
  /-- A request sent by `client.Do`. -/
  | request (url : String)
  /-- A call of `time.Sleep`, in seconds. -/
  | sleep (seconds : Nat)
  /-- A response sent on the channel. -/
  | send (resp : ResponseType)
deriving DecidableEq, Repr

/-- The environment of the fetcher: whether `http.NewRequest` accepts a url,
and the outcome of the `n`-th request sent (counted from 0). -/
structure Net where
  newRequestOk : String → Bool
  outcome : Nat → String → HttpOutcome

/-- The number of requests sent so far. -/
def requestCount (trace : List Event) : Nat :=
  trace.countP (fun e => match e with | .request _ => true | _ => false)

/-- The pattern of `validate_url`. -/
def urlPattern : String :=
  "(https|http)://[-A-Za-z0-9_+&@#/%?=~_|!:,.;]*[-A-Za-z0-9+&@#/%=~_|]"

/-- Function `validate_url` of `fetch.go`. -/
def validate_url (url : String) : Bool :=
  if url.length > 0 then
    match regexpMatchString urlPattern url with
    | some true => true
    | _ => false
  else false

/-- Function `FetchResponse` of `fetch.go`, on the trace of the events so far;
it returns the response and the extended trace. -/
def FetchResponse (N : Net) (url : String) (trace : List Event) :
    Except Panic (ResponseType × List Event) :=
  let response : ResponseType := { Url := url, Data := [], Error := none }
  if validate_url url = false then
    pure ({ response with Error := some "Invalid URL" }, trace)
  else if !N.newRequestOk url then
    .error .nilDereference
  else
    let trace' := trace ++ [.request url]
    match N.outcome (requestCount trace) url with
    | .doError err => pure ({ response with Error := some err }, trace')
    | .response _ _ (some err) => pure ({ response with Error := some err }, trace')
    | .response _ body none => pure ({ response with Data := body }, trace')

/-- The loop `for i := 1; i <= retry; i++` of `Fetch`, with `remaining` passes
left, the first of them for the value `i`; `r` is the variable `r`. -/
def fetchRetry (N : Net) (url : String) :
    Nat → Nat → ResponseType → List Event → Except Panic (ResponseType × List Event)
  | 0, _, r, trace => pure (r, trace)
  | remaining + 1, i, _, trace => do
    let (r, trace) ← FetchResponse N url (trace ++ [.sleep i])
    if r.Error = none then pure (r, trace)
    else fetchRetry N url remaining (i + 1) r trace

/-- Function `Fetch` of `fetch.go`: the trace after the response is sent on
the channel. -/
def Fetch (N : Net) (url : String) (trace : List Event) : Except Panic (List Event) := do
  let retry := 3
  let (resp, trace) ← FetchResponse N url trace
  let (resp, trace) ←
    if resp.Error ≠ none then
      fetchRetry N url retry 1 { Url := "", Data := [], Error := none } trace
    else pure (resp, trace)
  pure (trace ++ [.send resp])

/-- The error of an attempt that fails: the error of `client.Do`, or else the
error of reading the body. -/
def HttpOutcome.error : HttpOutcome → Option GoError
  | .doError err => some err
  | .response _ _ readError => readError

/-- The data of the response to an attempt: the body when it was read, and
nothing otherwise. -/
def HttpOutcome.data : HttpOutcome → List Char
  | .response _ body none => body
  | _ => []

/-! ## utils/utils.go: `GetEnv` -/

/-- The pieces of `strings.Split(s, sep)` for a separator that is not empty:
`cur` is the piece being read, and `skip` counts the characters of a separator
just found that are still to be dropped. -/
def splitAux (sep : List Char) : List Char → List Char → Nat → List (List Char)
  | [], cur, _ => [cur]
  | _ :: cs, cur, skip + 1 => splitAux sep cs cur skip
  | c :: cs, cur, 0 =>
    if sep.isPrefixOf (c :: cs) then cur :: splitAux sep cs [] (sep.length - 1)
    else splitAux sep cs (cur ++ [c]) 0

/-- Function `strings.Split(s, sep)` for a separator that is not empty. -/
def stringsSplit (s sep : String) : List String :=
  (splitAux sep.toList s.toList [] 0).map String.mk

/-- Function `strings.Contains(s, substr)` on character lists. -/
def hasSubstring (substr : List Char) : List Char → Bool
  | [] => substr.isEmpty
  | c :: cs => substr.isPrefixOf (c :: cs) || hasSubstring substr cs

/-- Function `strings.Contains(s, substr)`. -/
def stringsContains (s substr : String) : Bool :=
  hasSubstring substr.toList s.toList

/-- Function `strings.ToLower`, for the letters of the ASCII range. -/
def stringsToLower (s : String) : String :=
  String.mk (s.toList.map Char.toLower)

/-- Function `GetEnv` of `utils/utils.go`, on the entries of `os.Environ()`. -/
def GetEnv : List String → String → Except Panic String
  | [], _ => pure ""
  | item :: rest, key => do
    let value := stringsSplit item "="
    let name ← index value 0
    if name = key then index value 1 else GetEnv rest key

/-- Function `os.Getenv`: the text after the first `=` of the first entry
whose text before its first `=` is the key. -/
def osGetenv (environ : List String) (key : String) : String :=
  match environ.find? (fun item =>
      item.toList.contains '=' && item.toList.takeWhile (fun c => c != '=') == key.toList) with
  | some item => String.mk ((item.toList.dropWhile (fun c => c != '=')).drop 1)
  | none => ""

/-- An environment whose entries all have the form `KEY=VALUE`. -/
def WellFormedEnv (environ : List String) : Prop :=
  ∀ item ∈ environ, '=' ∈ item.toList

instance (environ : List String) : Decidable (WellFormedEnv environ) := by
  unfold WellFormedEnv
  infer_instance

/-! ## src/utils/fetch.go: `Certs` and `HttpClient` -/

/-- A value of `tls.Certificate`, by the name of what was loaded. -/
structure Certificate where
  name : String
deriving DecidableEq, Repr

/-- What `Certs` reads: the environment of the process, and the two loaders
`x509proxy.LoadX509Proxy(file)` and `tls.LoadX509KeyPair(certFile, keyFile)`. -/
structure CertWorld where
  environ : List String
  LoadX509Proxy : String → Except GoError Certificate
  LoadX509KeyPair : String → String → Except GoError Certificate

/-- The fields of `tls.Config` that `HttpClient` sets. -/
structure TLSConfig where
  Certificates : List Certificate
  InsecureSkipVerify : Bool
deriving DecidableEq, Repr

/-- A value of `http.Transport`, by its field `TLSClientConfig` (`none` is the
nil pointer). -/
structure HTTPTransport where
  TLSClientConfig : Option TLSConfig
deriving DecidableEq, Repr

/-- A value of `http.Client`, by its field `Transport` (`none` is the nil
value, with which the client uses `http.DefaultTransport`). -/
structure Client where
  Transport : Option HTTPTransport
deriving DecidableEq, Repr

/-- Function `Certs` of fetch.go. -/
def Certs (W : CertWorld) : List Certificate :=
  let uproxy := osGetenv W.environ "X509_USER_PROXY"
  let uckey := osGetenv W.environ "X509_USER_KEY"
  let ucert := osGetenv W.environ "X509_USER_CERT"
  if uproxy.utf8ByteSize > 0 then
    match W.LoadX509Proxy uproxy with
    | .error _ => []
    | .ok x509cert => [x509cert]
  else if uckey.utf8ByteSize > 0 then
    match W.LoadX509KeyPair ucert uckey with
    | .error _ => []
    | .ok x509cert => [x509cert]
  else []

/-- Function `HttpClient` of fetch.go. -/
def HttpClient (W : CertWorld) : Client :=
  let certs := Certs W
  if certs.length = 0 then { Transport := none }
  else
    { Transport := some
        { TLSClientConfig := some { Certificates := certs, InsecureSkipVerify := true } } }

/-- Whether a client verifies the certificate of the peer.  Package
`crypto/tls` verifies it unless the configuration in use has
`InsecureSkipVerify` set; a client without a transport uses
`http.DefaultTransport`, and a transport without a configuration the zero
configuration: in both the field is not set. -/
def Client.verifiesPeer (c : Client) : Bool :=
  match c.Transport with
  | none => true
  | some tr =>
    match tr.TLSClientConfig with
    | none => true
    | some cfg => !cfg.InsecureSkipVerify

/-! ## utils/rucio.go -/

/-- Type `RucioAuthModule` of `utils/rucio.go`.  The package has one module,
the variable `RucioAuth`; the methods below are read with it as receiver. -/
structure RucioAuthModule where
  account : String
  agent : String
  token : String
  url : String
  ts : Int
deriving DecidableEq, Repr

/-- Method `Account` of `RucioAuthModule`: the account and the module after
the call. -/
def RucioAuthModule.Account (environ : List String) (r : RucioAuthModule) :
    Except Panic (String × RucioAuthModule) :=
  if r.account = "" then do
    let r := { r with account := "das" }
    let v ← GetEnv environ "RUCIO_ACCOUNT"
    let r := if v ≠ "" then { r with account := v } else r
    pure (r.account, r)
  else pure (r.account, r)

/-- Method `Agent` of `RucioAuthModule`. -/
def RucioAuthModule.Agent (r : RucioAuthModule) : String × RucioAuthModule :=
  let r := if r.agent = "" then { r with agent := "dasgoserver" } else r
  (r.agent, r)

/-- Method `Url` of `RucioAuthModule`. -/
def RucioAuthModule.Url (environ : List String) (r : RucioAuthModule) :
    Except Panic (String × RucioAuthModule) :=
  if r.url = "" then do
    let v ← GetEnv environ "RUCIO_AUTH_URL"
    let r :=
      if v ≠ "" then { r with url := v ++ "/auth/x509" }
      else { r with url := "https://cms-rucio-auth.cern.ch/auth/x509" }
    pure (r.url, r)
  else pure (r.url, r)

/-- The request `FetchRucioToken` sends. -/
structure AuthRequest where
  url : String
  headers : List (String × String)
deriving DecidableEq, Repr

/-- What the auth endpoint does with a request: `client.Do` fails, or it
yields a response with a header, whose body `ioutil.ReadAll` reads or fails
to read. -/
inductive AuthOutcome where
  | doError (err : GoError)
  | response (header : List (String × List String)) (readError : Option GoError)
deriving DecidableEq, Repr

/-- The environment of the authentication module at the time of a call: the
entries of `os.Environ()`, the package variables `WEBSERVER` and
`RucioTokenCurl`, whether `http.NewRequest` accepts a url, the outcome of a
request to the auth endpoint, and the combined output and the error of a shell
command. -/
structure AuthWorld where
  environ : List String
  WEBSERVER : Int
  RucioTokenCurl : Bool
  newRequestOk : String → Bool
  direct : AuthRequest → AuthOutcome
  curl : String → String × Option GoError

/-- The three values a refresh strategy returns. -/
structure TokenFetch where
  token : String
  expire : Int
  err : Option GoError
deriving DecidableEq, Repr

/-- The call `v, ok := resp.Header[key]`. -/
def headerFind : List (String × List String) → String → Option (List String)
  | [], _ => none
  | (k, v) :: rest, key => if k = key then some v else headerFind rest key

/-- Function `FetchRucioToken` of `utils/rucio.go`; `t0` is the reading of
`time.Now().Unix()` at its start, `g` is the variable `RucioAuth`. -/
def FetchRucioToken (W : AuthWorld) (t0 : Int) (g : RucioAuthModule) (rurl : String) :
    Except Panic (TokenFetch × RucioAuthModule) := do
  let expire := t0 + 300
  if !W.newRequestOk rurl then throw .nilDereference
  let headers := [("Accept-Encoding", "identity")]
  let racc ← GetEnv W.environ "RUCIO_ACCOUNT"
  let (headers, g) ←
    if W.WEBSERVER > 0 then do
      let (headers, g) ←
        if racc ≠ "" then pure (headers ++ [("X-Rucio-Account", racc)], g)
        else do
          let (account, g) ← g.Account W.environ
          pure (headers ++ [("X-Rucio-Account", account)], g)
      let (agent, g) := g.Agent
      pure (headers ++ [("User-Agent", agent)], g)
    else
      let headers := if racc ≠ "" then headers ++ [("X-Rucio-Account", racc)] else headers
      pure (headers ++ [("User-Agent", "dasgoclient")], g)
  let headers := headers ++ [("Connection", "keep-alive")]
  match W.direct { url := rurl, headers := headers } with
  | .doError err => pure (⟨"", 0, some err⟩, g)
  | .response _ (some err) => pure (⟨"", 0, some err⟩, g)
  | .response header none =>
    match headerFind header "X-Rucio-Auth-Token" with
    | some v => do
      let token ← index v 0
      pure (⟨token, expire, none⟩, g)
    | none => pure (⟨"", 0, none⟩, g)

/-- The call `strings.Replace(s, old, "", -1)` for a one-character `old`. -/
def removeChar (c : Char) (s : String) : String :=
  String.mk (s.toList.filter (fun d => d != c))

/-- The loop over the lines of the output in `FetchRucioTokenViaCurl`: the
token of the first line that holds the header name, and the empty token when
there is none. -/
def curlToken : List String → Except Panic String
  | [] => pure ""
  | v :: rest =>
    if stringsContains (stringsToLower v) "x-rucio-auth-token:" then do
      let arr := stringsSplit v "X-Rucio-Auth-Token: "
      let last ← index arr (arr.length - 1)
      pure (removeChar '\r' (removeChar '\n' last))
    else curlToken rest

/-- Function `FetchRucioTokenViaCurl` of `utils/rucio.go`; `t0` is the reading
of `time.Now().Unix()` at its start, `g` is the variable `RucioAuth`. -/
def FetchRucioTokenViaCurl (W : AuthWorld) (t0 : Int) (g : RucioAuthModule) (rurl : String) :
    Except Panic (TokenFetch × RucioAuthModule) := do
  let expire := t0 + 300
  let proxy := osGetenv W.environ "X509_USER_PROXY"
  let account ← GetEnv W.environ "RUCIO_ACCOUNT"
  let (account, g) ←
    if account = "" then do
      let (a, g) ← g.Account W.environ
      pure ("X-Rucio-Account: " ++ a, g)
    else pure (account, g)
  let (agent, g) := g.Agent
  let cmd :=
    if W.WEBSERVER = 0 then
      "curl -q -I --key " ++ proxy ++ " --cert " ++ proxy ++ " -A " ++ agent ++ " " ++ rurl
    else
      "curl -q -I --key " ++ proxy ++ " --cert " ++ proxy ++ " -H \"" ++ account ++
        "\" -A " ++ agent ++ " " ++ rurl
  match W.curl cmd with
  | (_, some err) => pure (⟨"", 0, some err⟩, g)
  | (out, none) => do
    let token ← curlToken (stringsSplit out "\n")
    pure (⟨token, expire, none⟩, g)

/-- The two refresh strategies. -/
inductive Strategy where
  | direct
  | curl
deriving DecidableEq, Repr

/-- A call of a refresh strategy. -/
structure Refresh where
  strategy : Strategy
  url : String
deriving DecidableEq, Repr

/-- The test of `Token` for a cached token that has not expired at time `t`. -/
def tokenCached (t : Int) (r : RucioAuthModule) : Bool :=
  r.token ≠ "" && t < r.ts

/-- The refresh of `Token` (the call `r.Url()` and the call of the strategy
that `RucioTokenCurl` selects): the calls of a strategy that were made, and
the values returned with the module after the call. -/
def tokenFetch (W : AuthWorld) (t0 : Int) (r : RucioAuthModule) :
    List Refresh × Except Panic (TokenFetch × RucioAuthModule) :=
  match r.Url W.environ with
  | .error p => ([], .error p)
  | .ok (url, r) =>
    if W.RucioTokenCurl then ([⟨.curl, url⟩], FetchRucioTokenViaCurl W t0 r url)
    else ([⟨.direct, url⟩], FetchRucioToken W t0 r url)

/-- The end of `Token`: on an error nothing is stored, otherwise the expiry
and the token are stored and the token is returned. -/
def tokenStore (f : TokenFetch) (r : RucioAuthModule) :
    (String × Option GoError) × RucioAuthModule :=
  match f.err with
  | some err => (("", some err), r)
  | none =>
    let r := { r with ts := f.expire, token := f.token }
    ((r.token, none), r)

/-- A run of `Token`: the calls of a refresh strategy it made, and the token
and error it returned with the module after the call. -/
structure TokenRun where
  refreshes : List Refresh
  result : Except Panic ((String × Option GoError) × RucioAuthModule)

/-- Method `Token` of `RucioAuthModule`; `t` is the reading of
`time.Now().Unix()` by `Token` and `t0` the one by the refresh strategy. -/
def RucioAuthModule.Token (W : AuthWorld) (t t0 : Int) (r : RucioAuthModule) : TokenRun :=
  if tokenCached t r then ⟨[], .ok ((r.token, none), r)⟩
  else
    let fetched := tokenFetch W t0 r
    ⟨fetched.1,
      match fetched.2 with
      | .error p => .error p
      | .ok (f, r) => .ok (tokenStore f r)⟩

/-! ### Callers of `Token` that overlap

`Token` holds no lock.  A caller reads the clock and the cache, calls the
refresh strategy, and stores what the strategy returned; between two of these
steps other callers may take theirs. -/

/-- Where a caller of `Token` stands. -/
inductive Caller where
  /-- The call has not started; `t` and `t0` are the readings of the clock that
  `Token` and the refresh strategy will make. -/
  | waiting (t t0 : Int)
  /-- The refresh strategy has returned `f`; nothing is stored yet. -/
  | fetched (f : TokenFetch)
  /-- The call has returned. -/
  | returned (token : String) (err : Option GoError)
  /-- The call has ended in a panic. -/
  | panicked (p : Panic)
deriving DecidableEq, Repr

/-- The module shared by the callers, where each caller stands, and the calls
of a refresh strategy made so far. -/
structure TokenSystem where
  module : RucioAuthModule
  callers : List Caller
  refreshes : List Refresh

/-- The next step of caller `i`: a caller that has not started tests the
cache and, when the test fails, calls the refresh strategy; a caller whose
strategy has returned stores the result and returns. -/
def TokenSystem.step (W : AuthWorld) (s : TokenSystem) (i : Nat) : TokenSystem :=
  match s.callers.get? i with
  | some (.waiting t t0) =>
    if tokenCached t s.module then
      { s with callers := s.callers.set i (.returned s.module.token none) }
    else
      let fetched := tokenFetch W t0 s.module
      match fetched.2 with
      | .error p =>
        { s with callers := s.callers.set i (.panicked p),
                 refreshes := s.refreshes ++ fetched.1 }
      | .ok (f, r) =>
        { module := r, callers := s.callers.set i (.fetched f),
          refreshes := s.refreshes ++ fetched.1 }
  | some (.fetched f) =>
    let stored := tokenStore f s.module
    { s with module := stored.2,
             callers := s.callers.set i (.returned stored.1.1 stored.1.2) }
  | _ => s

/-- The steps of the callers in the order of a schedule. -/
def TokenSystem.run (W : AuthWorld) (s : TokenSystem) (schedule : List Nat) : TokenSystem :=
  schedule.foldl (TokenSystem.step W) s

/-- Calls of `Token` made one after the other, each with its environment and
its readings of the clock; the calls stop at a panic. -/
def tokenSequence : RucioAuthModule → List (AuthWorld × Int × Int) → List TokenRun
  | _, [] => []
  | r, (W, t, t0) :: rest =>
    let run := r.Token W t t0
    run ::
      (match run.result with
       | .ok (_, r') => tokenSequence r' rest
       | .error _ => [])

/-! ## services/reqmgr.go: the lookup of configurations

The responses come over a channel from the calls `go utils.Fetch(...)`; the
functions below take the responses in the order in which the loop receives
them.  A loop that waits for a response that never comes does not return:
this is the result `none`.  The sleeps of the polling loop are left out. -/

/-- Function `List2Set` of `utils/utils.go`. -/
def List2Set (arr : List String) : List String :=
  arr.foldl (fun out key => if !InList key out then out ++ [key] else out) []

/-- Writing `m[k] = v` on a Go map. -/
def assocSet {α : Type} : List (String × α) → String → α → List (String × α)
  | [], k, v => [(k, v)]
  | (k', v') :: rest, k, v =>
    if k' = k then (k, v) :: rest else (k', v') :: assocSet rest k v

/-- The call `delete(m, k)` on a Go map. -/
def assocDelete {α : Type} (m : List (String × α)) (k : String) : List (String × α) :=
  m.filter (fun kv => kv.1 != k)

/-- Reading `m[k]` on a `map[string][]string`: the nil slice when absent. -/
def strsGet (m : List (String × List String)) (k : String) : List String :=
  match m.find? (fun kv => kv.1 == k) with
  | some kv => kv.2
  | none => []

/-- The lists `inputOut`, `outputOut` and `ids` of `findReqMgrIds`. -/
structure IdLists where
  inputOut : List String
  outputOut : List String
  ids : List String
deriving DecidableEq, Repr

/-- What `findReqMgrIds` does with a string value `val` found under a key that
holds `ConfigCacheID`. -/
def addId (view : String) (st : IdLists) (val : String) : IdLists :=
  if val.utf8ByteSize = 32 then
    let st :=
      if view = "input" ∧ !InList val st.inputOut then
        { st with inputOut := st.inputOut ++ [val] }
      else st
    let st :=
      if view = "output" ∧ !InList val st.outputOut then
        { st with outputOut := st.outputOut ++ [val] }
      else st
    if !InList val st.ids then { st with ids := st.ids ++ [val] } else st
  else st

/-- The loop `for kkk, vvv := range data` of `findReqMgrIds`. -/
def scanData (view : String) (st : IdLists) (data : Fields) : IdLists :=
  data.foldl (fun st kv =>
    if stringsContains kv.1 "ConfigCacheID" then
      match kv.2 with
      | .str val => addId view st val
      | _ => st
    else st) st

/-- The loop `for _, d := range row` of `findReqMgrIds`. -/
def scanRow (view : String) (st : IdLists) (row : Fields) : Except Panic IdLists :=
  row.foldlM (fun st kd => do
    let data ← kd.2.asMap
    pure (scanData view st data)) st

/-- The loop `for _, rec := range rows` of `findReqMgrIds`. -/
def scanRows (view : String) (st : IdLists) (rows : List GoVal) : Except Panic IdLists :=
  rows.foldlM (fun st rec => do
    let row ← rec.asMap
    scanRow view st row) st

/-- The view `findReqMgrIds` gives to a response, from its url. -/
def viewOf (url : String) : String :=
  let view := if stringsContains (stringsToLower url) "inputdataset" then "input" else ""
  if stringsContains (stringsToLower url) "outputdataset" then "output" else view

/-- What `findReqMgrIds` does to its three lists with a response it receives. -/
def collectIds (J : JSONLib) (st : IdLists) (r : ResponseType) : Except Panic IdLists :=
  let view := viewOf r.Url
  let (data, err) := J.unmarshalRecord r.Data
  match err with
  | none =>
    let result := data.get "result"
    if !result.isNil then do
      let rows ← result.asList
      scanRows view st rows
    else pure st
  | some _ => pure st

/-- The state of the receiving loop of `findReqMgrIds`. -/
structure FindState where
  lists : IdLists
  idict : List (String × List String)
  umap : List (String × Int)

/-- The case `r := <-ch` of the loop of `findReqMgrIds`. -/
def findRecv (J : JSONLib) (s : FindState) (r : ResponseType) : Except Panic FindState := do
  let lists ← collectIds J s.lists r
  let idict := assocSet s.idict "byinputdataset" lists.inputOut
  let idict := assocSet idict "byoutputdataset" lists.outputOut
  pure { lists := lists, idict := idict, umap := assocDelete s.umap r.Url }

/-- A receiving loop `for { select { case r := <-ch: ... default: ... } }`:
every response that arrives is received; when none is left the loop ends if
the map of pending urls, given by `pending`, is empty, and does not return
otherwise. -/
def fanIn {σ : Type} (recv : σ → ResponseType → Except Panic σ) (pending : σ → Nat) :
    List ResponseType → σ → Except Panic (Option σ)
  | [], s => pure (if pending s = 0 then some s else none)
  | r :: arrivals, s => do
    let s ← recv s r
    fanIn recv pending arrivals s

/-- The pattern a dataset has to match in `findReqMgrIds`. -/
def datasetPattern : String := "/[\\w-]+/[\\w-]+/[A-Z-]+"

/-- The check of the dataset in `findReqMgrIds`. -/
def validDataset (dataset : String) : Bool :=
  match regexpMatchString datasetPattern dataset with
  | some true => true
  | _ => false

/-- The url of the lookup by output dataset. -/
def outputUrl (base dataset : String) : String :=
  base ++ "/reqmgr2/data/request?outputdataset=" ++ dataset

/-- The url of the lookup by input dataset. -/
def inputUrl (base dataset : String) : String :=
  base ++ "/reqmgr2/data/request?inputdataset=" ++ dataset

/-- The urls for which `findReqMgrIds` calls `go utils.Fetch`, in the order of
the calls: none for a dataset that fails the check, else every url of the
list `urls`. -/
def findDispatched (base dataset : String) : List String :=
  if !validDataset dataset then []
  else [outputUrl base dataset, inputUrl base dataset]

/-- What a round of lookups returns: the values returned and the urls for
which a fetch was dispatched, in the order of the dispatch. -/
structure FindResult where
  ids : List String
  idict : List (String × List String)
  dispatched : List String

/-- Function `findReqMgrIds` of `services/reqmgr.go`; `arrivals` holds the
responses in the order in which the loop receives them. -/
def findReqMgrIds (J : JSONLib) (base dataset : String) (arrivals : List ResponseType) :
    Except Panic (Option FindResult) :=
  if !validDataset dataset then pure (some ⟨[], [], []⟩)
  else
    let urls := [outputUrl base dataset, inputUrl base dataset]
    let umap : List (String × Int) := urls.foldl (fun m u => assocSet m u 1) []
    match fanIn (findRecv J) (fun s => s.umap.length) arrivals ⟨⟨[], [], []⟩, [], umap⟩ with
    | .error p => .error p
    | .ok none => pure none
    | .ok (some s) => pure (some ⟨List2Set s.lists.ids, s.idict, urls⟩)

/-- The state of the receiving loop of `reqmgrConfigs`. -/
structure ConfigState where
  urls : List String
  uids : List String
  umap : List (String × Int)

/-- The url of a configuration file. -/
def configFileUrl (base id : String) : String :=
  base ++ "/couchdb/reqmgr_config_cache/" ++ id ++ "/configFile"

/-- The url of the lookup of an identifier that is not resolved directly. -/
def lookupUrl (base id : String) : String :=
  base ++ "/couchdb/reqmgr_config_cache/" ++ id

/-- The loop `for _, v := range ids` of `reqmgrConfigs`: the lists `urls` and
`rurls` it builds. -/
def partitionIds (base : String) (ids : List String) : List String × List String :=
  ids.foldl (fun (st : List String × List String) (v : String) =>
    if v.utf8ByteSize = 32 then (st.1 ++ [configFileUrl base v], st.2)
    else (st.1, st.2 ++ [lookupUrl base v])) ([], [])

/-- The case `r := <-ch` of the loop of `reqmgrConfigs`. -/
def configRecv (J : JSONLib) (fmtOther : GoVal → String) (base : String) (s : ConfigState)
    (r : ResponseType) : Except Panic ConfigState :=
  let (data, err) := J.unmarshalRecord r.Data
  let s :=
    match err with
    | none =>
      (data.getD []).foldl (fun (s : ConfigState) (kv : String × GoVal) =>
        if stringsContains kv.1 "ConfigCacheID" then
          let rurl := configFileUrl base (sprintS fmtOther kv.2)
          if !InList rurl s.urls then
            { s with urls := s.urls ++ [rurl], uids := s.uids ++ [sprintS fmtOther kv.2] }
          else s
        else s) s
    | some _ => s
  pure { s with umap := assocDelete s.umap r.Url }

/-- The urls of `urls` that hold one of the identifiers, identifier by
identifier. -/
def urlsOf (uids urls : List String) : List String :=
  uids.flatMap (fun uid => urls.filter (fun rurl => stringsContains rurl uid))

/-- What `reqmgrConfigs` returns, with the urls for which a fetch was
dispatched in the first and in the second round. -/
structure ConfigsResult where
  records : List DASRecord
  round1 : List String
  round2 : List String

/-- Function `reqmgrConfigs` of `services/reqmgr.go`; `spec` is
`dasquery.Spec`, `arrivals1` and `arrivals2` hold the responses of the two
rounds in the order in which the loops receive them. -/
def reqmgrConfigs (J : JSONLib) (fmtOther : GoVal → String) (spec : Fields)
    (arrivals1 arrivals2 : List ResponseType) : Except Panic (Option ConfigsResult) := do
  let base := "https://cmsweb.cern.ch:8443"
  let dataset ← (spec.get "dataset").asString
  match ← findReqMgrIds J base dataset arrivals1 with
  | none => pure none
  | some found =>
    let urls := (partitionIds base found.ids).1
    let rurls := (partitionIds base found.ids).2
    let umap : List (String × Int) := rurls.foldl (fun m u => assocSet m u 1) []
    match ← fanIn (configRecv J fmtOther base) (fun s => s.umap.length) arrivals2
        ⟨urls, [], umap⟩ with
    | none => pure none
    | some s =>
      let inputUrls := urlsOf (strsGet found.idict "byinputdataset") s.urls
      let outputUrls := urlsOf (strsGet found.idict "byoutputdataset") s.urls
      let summary : Fields :=
        [("dataset", .str dataset), ("name", .str "ReqMgr2"), ("ids", .strs found.ids),
          ("idict", .strsMap found.idict),
          ("urls", .record [("output", .strs outputUrls), ("input", .strs inputUrls)])]
      pure (some ⟨[some summary], found.dispatched, rurls⟩)

/-- The shape `findReqMgrIds` expects of the `result` field of a response: nil,
or a list of maps whose values are maps. -/
def rowsShaped (v : GoVal) : Bool :=
  match v with
  | .nil => true
  | .list rows =>
    rows.all (fun row =>
      match row with
      | .map m =>
        m.all (fun kd =>
          match kd.2 with
          | .map _ => true
          | _ => false)
      | _ => false)
  | _ => false

/-- A response that `findReqMgrIds` can read: its data does not decode, or it
decodes to a record whose `result` field has the expected shape. -/
def responseShaped (J : JSONLib) (r : ResponseType) : Bool :=
  match J.unmarshalRecord r.Data with
  | (data, none) => rowsShaped (data.get "result")
  | (_, some _) => true

/-- The three lists of `findReqMgrIds` have no duplicates. -/
def IdLists.Nodup (st : IdLists) : Prop :=
  st.inputOut.Nodup ∧ st.outputOut.Nodup ∧ st.ids.Nodup

/-- The lists of the state of the loop of `findReqMgrIds`, and the lists
stored in `idict`, have no duplicates. -/
def FindState.Nodup (s : FindState) : Prop :=
  s.lists.Nodup ∧ (strsGet s.idict "byinputdataset").Nodup ∧
    (strsGet s.idict "byoutputdataset").Nodup

/-- The lists of `findReqMgrIds` hold identifiers of 32 bytes only, and the
identifiers of the two views are in the list `ids`. -/
def IdLists.Sized (st : IdLists) : Prop :=
  (∀ x ∈ st.inputOut, x ∈ st.ids) ∧ (∀ x ∈ st.outputOut, x ∈ st.ids) ∧
    ∀ x ∈ st.ids, x.utf8ByteSize = 32

/-- The property `IdLists.Sized` of the lists of the loop of `findReqMgrIds`,
with the lists stored in `idict` among the identifiers of `ids`. -/
def FindState.Sized (s : FindState) : Prop :=
  s.lists.Sized ∧ (∀ x ∈ strsGet s.idict "byinputdataset", x ∈ s.lists.ids) ∧
    ∀ x ∈ strsGet s.idict "byoutputdataset", x ∈ s.lists.ids

/-! ## utils/utils.go: lists of strings -/

/-- The loop of `EqualLists` over `list1`: the count of its elements found in
`list2`, or `none` once the loop has returned `false`. -/
def equalListsCount (list2 : List String) : List String → Nat → Option Nat
  | [], count => some count
  | k :: rest, count =>
    if InList k list2 then equalListsCount list2 rest (count + 1) else none

/-- The function `EqualLists` of utils.go. -/
def EqualLists (list1 list2 : List String) : Bool :=
  match equalListsCount list2 list1 0 with
  | none => false
  | some count => if list2.length = count then true else false

/-- The elements of a list, each once, in the order of their first
occurrence: the words of the specification for `List2Set`. -/
def firstOccurrences : List String → List String
  | [] => []
  | a :: l => a :: (firstOccurrences l).filter (fun x => x != a)

/-! ## utils/utils.go: `Median` -/

/-- A value of type `float64` that is not a NaN: a finite number or an
infinity. -/
inductive Float64 where
  | finite (x : F64)
  | inf (neg : Bool)
deriving DecidableEq, Repr

/-- The integer `x * 2 ^ (-e)` for a binary64 number `x` of an exponent that is
not below `e`. -/
def F64.scaled (x : F64) (e : Int) : Int :=
  (if x.neg then -1 else 1) * ((x.mant * 2 ^ (x.exp - e).toNat : Nat) : Int)

/-- The comparison `x < y` of two binary64 numbers. -/
def F64.lt (x y : F64) : Bool :=
  decide (x.scaled (min x.exp y.exp) < y.scaled (min x.exp y.exp))

/-- The sum `x + y` of two binary64 numbers, rounded to nearest, ties to
even. -/
def F64.add (x y : F64) : Float64 :=
  let e := min x.exp y.exp
  let s := x.scaled e + y.scaled e
  if s = 0 then .finite ⟨x.neg && y.neg, 0, 0⟩
  else
    let ratio : Nat × Nat :=
      if 0 ≤ e then (s.natAbs * 2 ^ e.toNat, 1) else (s.natAbs, 2 ^ (-e).toNat)
    match roundRatio ratio.1 ratio.2 with
    | none => .inf (decide (s < 0))
    | some (m, e') => .finite ⟨decide (s < 0), m, e'⟩

/-- The quotient `x / 2.` of a `float64` that is not a NaN. -/
def Float64.half : Float64 → Float64
  | .inf neg => .inf neg
  | .finite x =>
    if x.mant = 0 then .finite x
    else
      let ratio : Nat × Nat :=
        if 0 ≤ x.exp then (x.mant * 2 ^ x.exp.toNat, 2) else (x.mant, 2 ^ (-x.exp).toNat * 2)
      match roundRatio ratio.1 ratio.2 with
      | none => .inf x.neg
      | some (m, e) => .finite ⟨x.neg, m, e⟩

/-- The conversion `float64(val)` of an `int64`. -/
def F64.ofInt (n : Int) : F64 :=
  if n = 0 then ⟨false, 0, 0⟩
  else
    match roundRatio n.natAbs 1 with
    | none => ⟨decide (n < 0), 0, 0⟩
    | some (m, e) => ⟨decide (n < 0), m, e⟩

/-- Method `Float64` of `json.Number`, for the literals of JSON numbers, which
are what the decoder stores in a `json.Number`; `none` is an error (the
literal is out of range, or it is no JSON number). -/
def numberFloat64 (lit : String) : Option F64 :=
  match scanNumber lit.toList with
  | .ok (_, []) => parseFloat lit.toList
  | _ => none

/-- The loop `for _, v := range data` of `Median`: the slice `input`. -/
def medianInput : List GoVal → List F64
  | [] => []
  | v :: rest =>
    match v with
    | .float64 val => val :: medianInput rest
    | .number val =>
      match numberFloat64 val with
      | some vv => vv :: medianInput rest
      | none => medianInput rest
    | .int64 val => F64.ofInt val :: medianInput rest
    | _ => medianInput rest

/-- The call `input.Sort()` on a `sort.Float64Slice` without NaNs: the numbers
in increasing order. -/
def sortFloat64s (input : List F64) : List F64 :=
  input.insertionSort (fun x y => F64.lt y x = false)

/-- Function `Median` of utils.go. -/
def Median (data : List GoVal) : Except Panic Float64 := do
  let input := sortFloat64s (medianInput data)
  let l := input.length
  if l = 0 then pure (.finite ⟨false, 0, 0⟩)
  else if l % 2 = 0 then do
    let a ← index input (l / 2 - 1)
    let b ← index input (l / 2 + 1)
    pure (F64.add a b).half
  else do
    let m ← index input (l / 2)
    pure (.finite m)

/-! ## utils/utils.go: `SizeFormat` -/

/-- The quotient `x / y` of two binary64 numbers, for a `y` that is not zero,
rounded to nearest, ties to even. -/
def F64.div (x y : F64) : Float64 :=
  if x.mant = 0 then .finite ⟨xor x.neg y.neg, 0, 0⟩
  else
    let e := x.exp - y.exp
    let ratio : Nat × Nat :=
      if 0 ≤ e then (x.mant * 2 ^ e.toNat, y.mant) else (x.mant, y.mant * 2 ^ (-e).toNat)
    match roundRatio ratio.1 ratio.2 with
    | none => .inf (xor x.neg y.neg)
    | some (m, e') => .finite ⟨xor x.neg y.neg, m, e'⟩

/-- The quotient `x / y` of a `float64` that is not a NaN by a binary64 number
that is not zero. -/
def Float64.div (x : Float64) (y : F64) : Float64 :=
  match x with
  | .inf neg => .inf (xor neg y.neg)
  | .finite x => F64.div x y

/-- The comparison `x < y` of a `float64` that is not a NaN with a binary64
number. -/
def Float64.lt (x : Float64) (y : F64) : Bool :=
  match x with
  | .inf neg => neg
  | .finite x => F64.lt x y

/-- The text of `fmt.Sprintf("%3.1f", x)`: the number of tenths nearest to the
exact value of `x` (ties to even), written with one digit after the point. -/
def formatF1 (x : Float64) : String :=
  match x with
  | .inf false => "+Inf"
  | .inf true => "-Inf"
  | .finite x =>
    let ratio : Nat × Nat :=
      if 0 ≤ x.exp then (x.mant * 2 ^ x.exp.toNat * 10, 1)
      else (x.mant * 10, 2 ^ (-x.exp).toNat)
    let q := ratio.1 / ratio.2
    let r := ratio.1 % ratio.2
    let tenths := if 2 * r > ratio.2 ∨ (2 * r = ratio.2 ∧ q % 2 = 1) then q + 1 else q
    (if x.neg then "-" else "") ++ toString (tenths / 10) ++ "." ++ toString (tenths % 10)

/-- The loop `for _, vvv := range xlist` of `SizeFormat`: the text returned
from inside the loop, or the value of `size` when the loop ends. -/
def sizeFormatLoop (fmtV : GoVal → String) (val : GoVal) (base : F64) :
    List String → Float64 → String ⊕ Float64
  | [], size => .inr size
  | vvv :: rest, size =>
    if size.lt base then .inl (fmtV val ++ " (" ++ formatF1 size ++ vvv ++ ")")
    else sizeFormatLoop fmtV val base rest (size.div base)

/-- Function `SizeFormat` of utils.go.  `fmtV` is the text of a value under
the verb `%v`, and `ParseFloat` is `strconv.ParseFloat(v, 64)`, for the
strings of which it does not make a NaN.  (No value of `GoVal` is an
`int32`.) -/
def SizeFormat (fmtV : GoVal → String) (ParseFloat : String → Float64 × Option GoError)
    (val : GoVal) : Except Panic String :=
  let parsed : Option Float64 :=
    match val with
    | .int v => some (.finite (F64.ofInt v))
    | .int64 v => some (.finite (F64.ofInt v))
    | .float64 v => some (.finite v)
    | .str v =>
      match ParseFloat v with
      | (size, none) => some size
      | (_, some _) => none
    | _ => none
  match parsed with
  | none => pure (fmtV val)
  | some size =>
    let base : F64 := ⟨false, 125, 3⟩
    let xlist := ["", "KB", "MB", "GB", "TB", "PB"]
    match sizeFormatLoop fmtV val base xlist size with
    | .inl text => pure text
    | .inr size => do
      let unit ← index xlist xlist.length
      pure (fmtV val ++ " (" ++ formatF1 size ++ unit ++ ")")

/-! ## Newline-delimited payloads -/

/-- The payload `s_1\n...\ns_k` made of the segments `s_1 .. s_k`, with no
newline after the last one. -/
def joinLines : List (List Char) → List Char
  | [] => []
  | [s] => s
  | s :: t :: rest => s ++ '\n' :: joinLines (t :: rest)

/-- The records `loadRucioData` appends for one segment. -/
def rowRecords (J : JSONLib) (K : ErrorKinds) (api : String) (row : List Char) :
    List DASRecord :=
  rucioDecodeRow J K api [] row

/-! ## Sample inputs -/

/-- Sample values for the error-kind constants. -/
def sampleKinds : ErrorKinds where
  RucioErrorName := "Rucio error"
  RucioError := 1
  ReqMgrErrorName := "ReqMgr error"
  ReqMgrError := 2
  DefaultErrorName := "DAS error"
  DefaultError := 3

/-- The record `{a:1}` as `json.Unmarshal` stores it. -/
def recordA : DASRecord := some [("a", .float64 ⟨false, 1, 0⟩)]

/-- The record `{b:2}` as `json.Unmarshal` stores it. -/
def recordB : DASRecord := some [("b", .float64 ⟨false, 1, 1⟩)]

/-- A sample environment of the fetcher: every request is answered with
status 200 and an empty body. -/
def sampleNet : Net where
  newRequestOk := fun _ => true
  outcome := fun _ _ => .response 200 [] none

/-- The tabular payload of the spec: columns `username` and `forename`, rows
`alice, Alice` and `bob, Bob`. -/
def peoplePayload : List Char :=
  ("\x7b\"desc\":\x7b\"columns\":[\"username\",\"forename\"]\x7d," ++
    "\"result\":[[\"alice\",\"Alice\"],[\"bob\",\"Bob\"]]\x7d").toList

/-- The description object of `peoplePayload`. -/
def peopleDesc : Fields :=
  [("columns", .list [.str "username", .str "forename"])]

/-- The decoding of `peoplePayload`. -/
def peopleRecord : DASRecord :=
  some [("desc", .map peopleDesc),
    ("result", .list [.list [.str "alice", .str "Alice"], .list [.str "bob", .str "Bob"]])]

/-- A tabular payload with a column `name` after the column `username`. -/
def namedPayload : List Char :=
  ("\x7b\"desc\":\x7b\"columns\":[\"username\",\"name\"]\x7d," ++
    "\"result\":[[\"alice\",\"bob\"]]\x7d").toList

/-- The record `loadSiteDBData` makes of the row of `namedPayload`. -/
def namedRow : DASRecord :=
  some [("username", .str "alice"), ("name", .str "bob")]

/-- A sample environment of the fetcher: every request is refused. -/
def refusingNet : Net where
  newRequestOk := fun _ => true
  outcome := fun _ _ => .doError "connection refused"

/-- A sample environment of the fetcher: every request is answered with
status 500 and the body `oops`. -/
def serverErrorNet : Net where
  newRequestOk := fun _ => true
  outcome := fun _ _ => .response 500 "oops".toList none

/-- A sample environment of the fetcher: every request is answered with
status 404 and an empty body. -/
def notFoundNet : Net where
  newRequestOk := fun _ => true
  outcome := fun _ _ => .response 404 [] none

/-- A module on which no method has been called yet. -/
def freshModule : RucioAuthModule :=
  { account := "", agent := "", token := "", url := "", ts := 0 }

/-- A sample environment of the authentication module: the auth endpoint
answers with the token `tok-1` in the header `X-Rucio-Auth-Token`, the helper
prints that header with the token `tok-2`. -/
def sampleAuthWorld : AuthWorld where
  environ := ["RUCIO_ACCOUNT=alice", "RUCIO_AUTH_URL=https://auth.example"]
  WEBSERVER := 1
  RucioTokenCurl := false
  newRequestOk := fun _ => true
  direct := fun _ => .response [("X-Rucio-Auth-Token", ["tok-1"])] none
  curl := fun _ => ("HTTP/1.1 200 OK\r\nX-Rucio-Auth-Token: tok-2\r\n", none)

/-- A sample environment of the authentication module in which the answer of
the auth endpoint and the output of the helper hold no header
`X-Rucio-Auth-Token`. -/
def noTokenWorld (viaCurl : Bool) : AuthWorld where
  environ := ["RUCIO_ACCOUNT=alice", "RUCIO_AUTH_URL=https://auth.example"]
  WEBSERVER := 1
  RucioTokenCurl := viaCurl
  newRequestOk := fun _ => true
  direct := fun _ => .response [("Content-Length", ["0"])] none
  curl := fun _ => ("HTTP/1.1 401 Unauthorized\r\nContent-Length: 0\r\n", none)

/-- The module after a refresh in the sample environments that stored `token`
with the expiry `ts`. -/
def refreshedModule (token : String) (ts : Int) : RucioAuthModule :=
  { account := "", agent := "dasgoserver", token := token,
    url := "https://auth.example/auth/x509", ts := ts }

/-- The base url of `reqmgrConfigs`. -/
def sampleBase : String := "https://cmsweb.cern.ch:8443"

/-- A sample identifier of 32 characters. -/
def sampleIdA : String := "0123456789abcdef0123456789abcdef"

/-- A second sample identifier of 32 characters. -/
def sampleIdB : String := "fedcba9876543210fedcba9876543210"

/-- The body of a response of ReqMgr with one request, whose `ConfigCacheID`
and `StepOneConfigCacheID` fields both hold the identifier `id`. -/
def lookupBody (id : String) : List Char :=
  ("\x7b\"result\":[\x7b\"req1\":\x7b\"ConfigCacheID\":\"" ++ id ++
    "\",\"StepOneConfigCacheID\":\"" ++ id ++ "\"\x7d\x7d]\x7d").toList

/-- The body of a response of ReqMgr without a request. -/
def emptyBody : List Char := "\x7b\"result\":[]\x7d".toList

/-- The summary record of `reqmgrConfigs` for a dataset without identifiers. -/
def emptySummary (dataset : String) : DASRecord :=
  some [("dataset", .str dataset), ("name", .str "ReqMgr2"), ("ids", .strs []),
    ("idict", .strsMap []),
    ("urls", .record [("output", .strs []), ("input", .strs [])])]

/-- A sample identifier of 32 characters that ends as the url of the
configuration file of `overlapIdB` goes on before its last 20 characters. -/
def overlapIdA : String := "reqmgr_config_cache/0123456789ab"

/-- A sample identifier of 32 characters that starts with the last 12
characters of `overlapIdA`. -/
def overlapIdB : String := "0123456789abcdefghijklmnopqrstuv"

/-- The body of a response of ReqMgr with one request, whose `ConfigCacheID`
field holds `overlapIdA` and whose `StepOneConfigCacheID` field holds
`overlapIdB`. -/
def overlapBody : List Char :=
  ("\x7b\"result\":[\x7b\"req1\":\x7b\"ConfigCacheID\":\"" ++ overlapIdA ++
    "\",\"StepOneConfigCacheID\":\"" ++ overlapIdB ++ "\"\x7d\x7d]\x7d").toList

/-- A sample environment of `Certs`: the process environment holds none of
the three variables, and every file loads. -/
def noCertWorld : CertWorld where
  environ := ["HOME=/root"]
  LoadX509Proxy := fun file => .ok ⟨file⟩
  LoadX509KeyPair := fun cert _ => .ok ⟨cert⟩

/-- A sample environment of `Certs`: the variable `X509_USER_PROXY` names a
file, and the loader of proxies fails. -/
def badProxyWorld : CertWorld where
  environ := ["X509_USER_PROXY=/tmp/x509up"]
  LoadX509Proxy := fun _ => .error "no such file"
  LoadX509KeyPair := fun cert _ => .ok ⟨cert⟩

/-- A sample environment of `Certs`: the variable `X509_USER_PROXY` names a
file that loads. -/
def proxyWorld : CertWorld where
  environ := ["X509_USER_PROXY=/tmp/x509up"]
  LoadX509Proxy := fun file => .ok ⟨file⟩
  LoadX509KeyPair := fun cert _ => .ok ⟨cert⟩

/-- A payload with the integer `2^53 + 1`. -/
def bigIntPayload : List Char := "\x7b\"id\":9007199254740993\x7d".toList

/-- A sample environment of the authentication module in which the helper
prints the header with its name in lower case, as it is sent over HTTP/2. -/
def lowerCaseCurlWorld : AuthWorld where
  environ := ["RUCIO_ACCOUNT=alice", "RUCIO_AUTH_URL=https://auth.example"]
  WEBSERVER := 1
  RucioTokenCurl := true
  newRequestOk := fun _ => true
  direct := fun _ => .response [("Content-Length", ["0"])] none
  curl := fun _ => ("HTTP/2 200 \r\nx-rucio-auth-token: tok-2\r\n", none)

/-- A sample environment of the fetcher: the first two requests are refused,
every later one is answered with status 200 and the body `ok`. -/
def flakyNet : Net where
  newRequestOk := fun _ => true
  outcome := fun n _ =>
    if n < 2 then .doError "connection refused" else .response 200 "ok".toList none

/-- A sample environment of the authentication module whose auth endpoint
refuses every request. -/
def refusedAuthWorld : AuthWorld where
  environ := ["RUCIO_ACCOUNT=alice", "RUCIO_AUTH_URL=https://auth.example"]
  WEBSERVER := 1
  RucioTokenCurl := false
  newRequestOk := fun _ => true
  direct := fun _ => .doError "connection refused"
  curl := fun _ => ("", some "exit status 7")

/-- A sample of the verb `%v`: the decimal digits of an integer, the text of
a string. -/
def sampleFmtV : GoVal → String
  | .int n => toString n
  | .int64 n => toString n
  | .str s => s
  | _ => ""

/-- A sample of `strconv.ParseFloat`: every string is refused. -/
def refusingParseFloat : String → Float64 × Option GoError :=
  fun _ => (.finite ⟨false, 0, 0⟩, some "invalid syntax")

/-- A sample environment of the fetcher: `http.NewRequest` makes no request of
a url that holds a space, and every request sent is refused. -/
def strictRefusingNet : Net where
  newRequestOk := fun url => !url.toList.contains ' '
  outcome := fun _ _ => .doError "connection refused"

/-- A sample environment of the fetcher: `http.NewRequest` makes no request of
a url that holds a space, and every request sent is answered with status 200
and the body `ok`. -/
def strictNet : Net where
  newRequestOk := fun url => !url.toList.contains ' '
  outcome := fun _ _ => .response 200 "ok".toList none

/-- A payload of one segment, a JSON object whose number is beyond the range
of `float64`. -/
def hugeNumberPayload : List Char := "\x7b\"a\":1e400\x7d".toList

/-- An environment whose entries for `RUCIO_ACCOUNT` and `RUCIO_AUTH_URL` have
values that hold a `=`. -/
def equalsEnviron : List String :=
  ["RUCIO_ACCOUNT=cms=prod", "RUCIO_AUTH_URL=https://auth.example/x?a=b"]

/-! # Theorems -/

theorem rucioDecodeRow_append (J : JSONLib) (K : ErrorKinds) (api : String)
    (out : List DASRecord) (row : List Char) :
    rucioDecodeRow J K api out row = out ++ rowRecords J K api row := by
  unfold rowRecords rucioDecodeRow
  rcases J.unmarshalRecord row with ⟨r, _ | e⟩ <;> simp

theorem rowRecords_of_ok (J : JSONLib) (K : ErrorKinds) (api : String) (row : List Char)
    (h : (J.unmarshalRecord row).2 = none) :
    rowRecords J K api row = [(J.unmarshalRecord row).1] := by
  unfold rowRecords rucioDecodeRow
  rcases hj : J.unmarshalRecord row with ⟨r, e⟩
  rw [hj] at h
  simp only at h
  subst h
  simp

theorem rowRecords_of_error (J : JSONLib) (K : ErrorKinds) (api : String) (row : List Char)
    (e : GoError) (h : (J.unmarshalRecord row).2 = some e) :
    rowRecords J K api row =
      [DASErrorRecord (unmarshalMsg "Rucio" api row e) K.RucioErrorName K.RucioError,
        (J.unmarshalRecord row).1] := by
  unfold rowRecords rucioDecodeRow
  rcases hj : J.unmarshalRecord row with ⟨r, e'⟩
  rw [hj] at h
  simp only at h
  subst h
  simp

theorem rucioLoop_noNewline (J : JSONLib) (K : ErrorKinds) (api : String)
    (s rest : List Char) (out : List DASRecord) (row : List Char) (h : '\n' ∉ s) :
    rucioLoop J K api (s ++ rest) out row = rucioLoop J K api rest out (row ++ s) := by
  induction s generalizing row with
  | nil => simp
  | cons c s ih =>
    have hc : c ≠ '\n' := fun hc => h (by simp [hc])
    have hs : '\n' ∉ s := fun hs => h (by simp [hs])
    show rucioLoop J K api (c :: (s ++ rest)) out row = _
    rw [rucioLoop, if_neg hc, ih _ hs]
    simp

theorem rucioLoop_segment (J : JSONLib) (K : ErrorKinds) (api : String)
    (s rest : List Char) (out : List DASRecord) (h : '\n' ∉ s) :
    rucioLoop J K api (s ++ '\n' :: rest) out [] =
      rucioLoop J K api rest (out ++ rowRecords J K api s) [] := by
  rw [rucioLoop_noNewline J K api s _ out [] h]
  simp [rucioLoop, rucioDecodeRow_append]

theorem rucioLoop_joinLines (J : JSONLib) (K : ErrorKinds) (api : String)
    (segs : List (List Char)) (last : List Char) (out : List DASRecord)
    (h : ∀ s ∈ segs ++ [last], '\n' ∉ s) :
    rucioLoop J K api (joinLines (segs ++ [last])) out [] =
      (out ++ segs.flatMap (rowRecords J K api), last) := by
  induction segs generalizing out with
  | nil =>
    have hl : '\n' ∉ last := h last (by simp)
    have := rucioLoop_noNewline J K api last [] out [] hl
    simpa [joinLines, rucioLoop] using this
  | cons s segs ih =>
    have hs : '\n' ∉ s := h s (by simp)
    have hrest : ∀ t ∈ segs ++ [last], '\n' ∉ t := fun t ht => h t (by simp at ht ⊢; tauto)
    have hjoin : joinLines (s :: (segs ++ [last])) =
        s ++ '\n' :: joinLines (segs ++ [last]) := by
      cases segs <;> simp [joinLines]
    rw [List.cons_append, hjoin, rucioLoop_segment J K api s _ out hs, ih _ hrest]
    simp

/-- What `loadRucioData` returns on `s_1\n...\ns_k` when the last segment is
not empty: the records of the segments, in segment order. -/
theorem loadRucioData_joinLines (J : JSONLib) (K : ErrorKinds) (api : String)
    (segs : List (List Char)) (last : List Char)
    (h : ∀ s ∈ segs ++ [last], '\n' ∉ s) (hlast : last ≠ []) :
    loadRucioData J K api (joinLines (segs ++ [last])) =
      (segs ++ [last]).flatMap (rowRecords J K api) := by
  unfold loadRucioData
  rw [rucioLoop_joinLines J K api segs last [] h]
  have : last.length > 0 := List.length_pos.mpr hlast
  simp [this, rucioDecodeRow_append]

/-- One segment adds one record, and one more when its decoding fails. -/
theorem rowRecords_length (J : JSONLib) (K : ErrorKinds) (api : String) (row : List Char) :
    (rowRecords J K api row).length =
      1 + (if (J.unmarshalRecord row).2.isSome then 1 else 0) := by
  rcases h : (J.unmarshalRecord row).2 with _ | e
  · rw [rowRecords_of_ok J K api row h]
    rfl
  · rw [rowRecords_of_error J K api row e h]
    rfl

/-- The number of records `loadRucioData` returns on `s_1\n...\ns_k` when the
last segment is not empty: `k` plus the number of segments whose decoding
fails. -/
theorem loadRucioData_length (J : JSONLib) (K : ErrorKinds) (api : String)
    (segs : List (List Char)) (last : List Char)
    (h : ∀ s ∈ segs ++ [last], '\n' ∉ s) (hlast : last ≠ []) :
    (loadRucioData J K api (joinLines (segs ++ [last]))).length =
      (segs ++ [last]).length +
        (segs ++ [last]).countP (fun s => (J.unmarshalRecord s).2.isSome) := by
  rw [loadRucioData_joinLines J K api segs last h hlast]
  generalize segs ++ [last] = l
  induction l with
  | nil => rfl
  | cons s l ih =>
    rw [List.flatMap_cons, List.length_append, ih, rowRecords_length, List.countP_cons,
      List.length_cons]
    by_cases hs : (J.unmarshalRecord s).2.isSome <;> simp [hs] <;> omega

/-! ## C1, C2: the newline-delimited loader -/

/-- C1 (evaluation at the failing input): on the three segments `{"a":1}`,
`bad` and `{"b":2}` the loader `loadRucioData` returns four records: the
malformed middle segment contributes an error Record and, after it, the nil
record that the failed decoding left in `rec`. -/
theorem loadRucioData_malformed_segment (K : ErrorKinds) (api : String) :
    loadRucioData goJSON K api "\x7b\"a\":1\x7d\nbad\n\x7b\"b\":2\x7d".toList =
      [recordA,
        DASErrorRecord
          (unmarshalMsg "Rucio" api "bad".toList
            "invalid character 'b' looking for beginning of value")
          K.RucioErrorName K.RucioError,
        none,
        recordB] := by
  rfl

/-- The part of C2 that holds: on a payload made of `n` segments without
newline bytes, none of them empty, each of which `json.Unmarshal` decodes
without error, joined by single newline bytes with no trailing newline,
`loadRucioData` returns exactly `n` records, the `i`-th one being the decoding
of the `i`-th segment. -/
theorem loadRucioData_wellformed (J : JSONLib) (K : ErrorKinds) (api : String)
    (segs : List (List Char))
    (hnl : ∀ s ∈ segs, '\n' ∉ s) (hne : ∀ s ∈ segs, s ≠ [])
    (hok : ∀ s ∈ segs, (J.unmarshalRecord s).2 = none) :
    loadRucioData J K api (joinLines segs) =
      segs.map (fun s => (J.unmarshalRecord s).1) := by
  rcases List.eq_nil_or_concat segs with rfl | ⟨init, last, h⟩
  · rfl
  · rw [List.concat_eq_append] at h
    subst h
    rw [loadRucioData_joinLines J K api init last hnl (hne last (by simp))]
    have hall : ∀ s ∈ init ++ [last],
        rowRecords J K api s = [(J.unmarshalRecord s).1] :=
      fun s hs => rowRecords_of_ok J K api s (hok s hs)
    generalize init ++ [last] = l at hall
    induction l with
    | nil => rfl
    | cons s l ih =>
      simp only [List.flatMap_cons, List.map_cons]
      rw [hall s (by simp), ih (fun t ht => hall t (by simp [ht]))]
      rfl

/-- The example of C2: the payload `{"a":1}\n{"b":2}` yields exactly the two
records `{a:1}` and `{b:2}`. -/
theorem loadRucioData_wellformed_witness :
    loadRucioData goJSON sampleKinds "rses" "\x7b\"a\":1\x7d\n\x7b\"b\":2\x7d".toList =
      [recordA, recordB] :=
  loadRucioData_wellformed goJSON sampleKinds "rses"
    ["\x7b\"a\":1\x7d".toList, "\x7b\"b\":2\x7d".toList]
    (by decide) (by decide)
    (by
      intro s hs
      simp only [List.mem_cons, List.mem_singleton, List.not_mem_nil, or_false] at hs
      rcases hs with rfl | rfl <;> rfl)

/-! ## C3, C4, C5: the single-object loaders -/

/-- C3 (evaluation at the failing input): on the malformed payload `bad`,
`ReqMgrUnmarshal` returns for api `configIDs` three records made of the
fields of the error Record, panics for api `datasetByPrepID`, and returns for
the apis `outputdataset` and `inputdataset` the error Record followed by the
nil record: never the error Record alone. -/
theorem ReqMgrUnmarshal_malformed (K : ErrorKinds) :
    ReqMgrUnmarshal goJSON K "configIDs" "bad".toList =
        .ok [some [("request_name", .str "error"),
                ("config_files", .str (unmarshalMsg "ReqMgr" "configIDs" "bad".toList
                  "invalid character 'b' looking for beginning of value"))],
             some [("request_name", .str "type"), ("config_files", .str K.ReqMgrErrorName)],
             some [("request_name", .str "code"), ("config_files", .int K.ReqMgrError)]] ∧
      ReqMgrUnmarshal goJSON K "datasetByPrepID" "bad".toList =
        .error (.typeAssertion "[]interface \x7b\x7d") ∧
      ReqMgrUnmarshal goJSON K "outputdataset" "bad".toList =
        .ok [DASErrorRecord (unmarshalMsg "ReqMgr" "outputdataset" "bad".toList
              "invalid character 'b' looking for beginning of value")
              K.ReqMgrErrorName K.ReqMgrError,
             none] ∧
      ReqMgrUnmarshal goJSON K "inputdataset" "bad".toList =
        .ok [DASErrorRecord (unmarshalMsg "ReqMgr" "inputdataset" "bad".toList
              "invalid character 'b' looking for beginning of value")
              K.ReqMgrErrorName K.ReqMgrError,
             none] :=
  ⟨rfl, rfl, rfl, rfl⟩

/-- C4 (evaluation at the failing input): on the malformed payload `bad`,
`McMUnmarshal` returns two records that hold nothing but a nil `mcm` field;
the message and the error kind of the error Record are in neither. -/
theorem McMUnmarshal_malformed (K : ErrorKinds) (api : String) :
    McMUnmarshal goJSON K api "bad".toList =
      [some [("mcm", .nil)], some [("mcm", .nil)]] :=
  rfl

/-- C5 (evaluation at the failing input): for a payload whose `OutputDatasets`
(respectively `InputDatasets`) field is the JSON array `["/a/b/c"]`,
`ReqMgrUnmarshal` panics on the type assertion `val.([]string)`, because the
decoder stores a JSON array as a `[]interface{}`. -/
theorem ReqMgrUnmarshal_datasets_panic (K : ErrorKinds) :
    ReqMgrUnmarshal goJSON K "outputdataset"
        "\x7b\"OutputDatasets\":[\"/a/b/c\"]\x7d".toList =
        .error (.typeAssertion "[]string") ∧
      ReqMgrUnmarshal goJSON K "inputdataset"
        "\x7b\"InputDatasets\":[\"/a/b/c\"]\x7d".toList =
        .error (.typeAssertion "[]string") :=
  ⟨rfl, rfl⟩

/-! ## C6, C7: the tabular loader -/

theorem Fields.get_set_same (m : Fields) (k : String) (v : GoVal) :
    Fields.get (Fields.set m k v) k = v := by
  induction m with
  | nil => simp [Fields.set, Fields.get]
  | cons kv m ih =>
    obtain ⟨k', v'⟩ := kv
    by_cases h : k' = k
    · simp [Fields.set, Fields.get, h]
    · simp [Fields.set, Fields.get, h, ih]

theorem Fields.get_set_other (m : Fields) (k k' : String) (v : GoVal) (h : k' ≠ k) :
    Fields.get (Fields.set m k v) k' = Fields.get m k' := by
  induction m with
  | nil => simp [Fields.set, Fields.get, Ne.symm h]
  | cons kv m ih =>
    obtain ⟨k₀, v₀⟩ := kv
    by_cases h₀ : k₀ = k
    · subst h₀
      simp [Fields.set, Fields.get, Ne.symm h]
    · by_cases h₁ : k₀ = k'
      · subst h₁
        simp [Fields.set, Fields.get, h₀]
      · simp [Fields.set, Fields.get, h₀, h₁, ih]

theorem index_of_lt {α : Type} (xs : List α) (i : Nat) (h : i < xs.length) :
    index xs i = .ok (xs.get ⟨i, h⟩) := by
  unfold index
  rw [List.get?_eq_get h]

/-- One pass of the column loop of `loadSiteDBData`. -/
theorem siteDBRow_cons (val : List GoVal) (c : String) (headers : List GoVal) (i : Nat)
    (row : Fields) (h : i < val.length) :
    siteDBRow val (.str c :: headers) i row =
      siteDBRow val headers (i + 1)
        (if c = "username" then
          Fields.set (Fields.set row c (val.get ⟨i, h⟩)) "name"
            (Fields.get (Fields.set row c (val.get ⟨i, h⟩)) c)
        else Fields.set row c (val.get ⟨i, h⟩)) := by
  rw [siteDBRow]
  simp only [GoVal.asString, index_of_lt val i h]
  rfl

/-- The column loop ends without a panic when the row is long enough; it
leaves unchanged every key that is not a column, `name` included when
`username` is not a column; and under a column that occurs once it stores the
value of the row at the position of the column, `name` excepted. -/
theorem siteDBRow_spec (val : List GoVal) (cols : List String) :
    ∀ (i : Nat) (row : Fields), i + cols.length ≤ val.length →
      ∃ row', siteDBRow val (cols.map GoVal.str) i row = .ok row' ∧
        (∀ c, c ∉ cols → (c = "name" → "username" ∉ cols) →
          Fields.get row' c = Fields.get row c) ∧
        (cols.Nodup → "name" ∉ cols → ∀ k c, cols.get? k = some c →
          some (Fields.get row' c) = val.get? (i + k)) := by
  induction cols with
  | nil =>
    intro i row _
    exact ⟨row, rfl, fun _ _ _ => rfl, fun _ _ k c hk => by simp at hk⟩
  | cons c cols ih =>
    intro i row hlen
    have hi : i < val.length := by
      simp only [List.length_cons] at hlen
      omega
    have hlen' : (i + 1) + cols.length ≤ val.length := by
      simp only [List.length_cons] at hlen
      omega
    rw [List.map_cons, siteDBRow_cons val c _ i row hi]
    obtain ⟨row', hrow', hkeep, hcol⟩ := ih (i + 1) _ hlen'
    refine ⟨row', hrow', ?_, ?_⟩
    · intro d hd hname
      have hdc : d ≠ c := fun h => hd (by simp [h])
      have hdcols : d ∉ cols := fun h => hd (by simp [h])
      rw [hkeep d hdcols (fun h hu => hname h (by simp [hu]))]
      by_cases hcu : c = "username"
      · have hdn : d ≠ "name" := fun h => hname h (by simp [hcu])
        rw [if_pos hcu, Fields.get_set_other _ _ _ _ hdn, Fields.get_set_other _ _ _ _ hdc]
      · rw [if_neg hcu, Fields.get_set_other _ _ _ _ hdc]
    · intro hnodup hnn k d hk
      have hccols : c ∉ cols := (List.nodup_cons.mp hnodup).1
      have hcn : c ≠ "name" := fun h => hnn (by simp [h])
      have hnn' : "name" ∉ cols := fun h => hnn (by simp [h])
      cases k with
      | zero =>
        simp only [List.get?_cons_zero, Option.some.injEq] at hk
        subst hk
        rw [hkeep c hccols (fun h => absurd h hcn)]
        have hget : val.get? (i + 0) = some (val.get ⟨i, hi⟩) := by
          rw [Nat.add_zero, List.get?_eq_get hi]
        rw [hget]
        by_cases hcu : c = "username"
        · rw [if_pos hcu, Fields.get_set_other _ _ _ _ hcn, Fields.get_set_same]
        · rw [if_neg hcu, Fields.get_set_same]
      | succ k =>
        simp only [List.get?_cons_succ] at hk
        have := hcol (List.nodup_cons.mp hnodup).2 hnn' k d hk
        rw [this]
        congr 1
        omega

/-- The column loop on a column list cut in two. -/
theorem siteDBRow_append (val : List GoVal) (pre post : List GoVal) :
    ∀ (i : Nat) (row : Fields),
      siteDBRow val (pre ++ post) i row =
        (siteDBRow val pre i row).bind (siteDBRow val post (i + pre.length)) := by
  induction pre with
  | nil => intro i row; rfl
  | cons h pre ih =>
    intro i row
    rw [List.cons_append, siteDBRow, siteDBRow]
    cases h.asString with
    | error e => rfl
    | ok key =>
      cases index val i with
      | error e => rfl
      | ok v =>
        simp only [bind, Except.bind]
        have := ih (i + 1)
        simp only [bind, Except.bind] at this
        rw [this]
        simp only [List.length_cons]
        rw [show i + (pre.length + 1) = i + 1 + pre.length by omega]

/-- In the record of a row, `name` equals `username` when `username` is a
column and no column after its last occurrence is `username` or `name`. -/
theorem siteDBRow_alias (val : List GoVal) (pre post : List String) (row : Fields)
    (hlen : (pre ++ "username" :: post).length ≤ val.length)
    (hu : "username" ∉ post) (hn : "name" ∉ post) :
    ∃ row', siteDBRow val ((pre ++ "username" :: post).map GoVal.str) 0 row = .ok row' ∧
      Fields.get row' "name" = Fields.get row' "username" := by
  have hlen' : pre.length + (post.length + 1) ≤ val.length := by
    simpa using hlen
  obtain ⟨row₁, h₁, -, -⟩ := siteDBRow_spec val pre 0 row (by omega)
  have hi : 0 + pre.length < val.length := by omega
  obtain ⟨row₂, h₂, hkeep, -⟩ := siteDBRow_spec val post (0 + pre.length + 1)
    (Fields.set (Fields.set row₁ "username" (val.get ⟨0 + pre.length, hi⟩)) "name"
      (Fields.get (Fields.set row₁ "username" (val.get ⟨0 + pre.length, hi⟩)) "username"))
    (by omega)
  refine ⟨row₂, ?_, ?_⟩
  · rw [List.map_append, siteDBRow_append, h₁, List.map_cons]
    show siteDBRow val (GoVal.str "username" :: post.map GoVal.str)
      (0 + (pre.map GoVal.str).length) row₁ = _
    rw [List.length_map, siteDBRow_cons val "username" _ _ row₁ hi, if_pos rfl]
    exact h₂
  · have hne : "username" ≠ "name" := by decide
    have e₁ : Fields.get row₂ "name" = val.get ⟨0 + pre.length, hi⟩ := by
      rw [hkeep "name" hn (fun _ => hu), Fields.get_set_same, Fields.get_set_same]
    have e₂ : Fields.get row₂ "username" = val.get ⟨0 + pre.length, hi⟩ := by
      rw [hkeep "username" hu (fun h => absurd h hne),
        Fields.get_set_other _ _ _ _ hne, Fields.get_set_same]
    rw [e₁, e₂]

/-- A loop that never fails returns one result per element, in order. -/
theorem mapM_ok_of_forall {α β : Type} (f : α → Except Panic β) (P : α → β → Prop)
    (l : List α) (h : ∀ x ∈ l, ∃ y, f x = .ok y ∧ P x y) :
    ∃ ys, l.mapM f = .ok ys ∧ List.Forall₂ P l ys := by
  induction l with
  | nil => exact ⟨[], rfl, List.Forall₂.nil⟩
  | cons x l ih =>
    obtain ⟨y, hy, hP⟩ := h x (by simp)
    obtain ⟨ys, hys, hall⟩ := ih (fun z hz => h z (by simp [hz]))
    refine ⟨y :: ys, ?_, List.Forall₂.cons hP hall⟩
    rw [List.mapM_cons, hy, hys]
    rfl

/-- A property of the results alone holds for every result. -/
theorem forall₂_right {α β : Type} {Q : β → Prop} {l : List α} {ys : List β}
    (h : List.Forall₂ (fun _ y => Q y) l ys) : ∀ y ∈ ys, Q y := by
  induction h with
  | nil => intro y hy; simp at hy
  | cons hq _ ih =>
    intro y hy
    rcases List.mem_cons.mp hy with rfl | hy
    · exact hq
    · exact ih y hy

/-- What `loadSiteDBData` does after a decoding without error. -/
theorem loadSiteDBData_of_decoded (J : JSONLib) (K : ErrorKinds) (api : String)
    (data : List Char) (rec : DASRecord) (desc : Fields) (headers values : List GoVal)
    (hdec : J.decodeRecord data = (rec, none))
    (hdesc : rec.get "desc" = .map desc)
    (hcols : Fields.get desc "columns" = .list headers)
    (hres : rec.get "result" = .list values) :
    loadSiteDBData J K api data =
      values.mapM (fun item => do
        let val ← item.asList
        let row ← siteDBRow val headers 0 []
        pure (some row)) := by
  unfold loadSiteDBData
  rw [hdec]
  simp only [hdesc, hres, GoVal.asMap, GoVal.asList, bind, Except.bind, hcols]

/-- C6: for a payload decoded without error whose columns `c_1 .. c_m` are
pairwise distinct strings, none of them `name`, and whose rows hold at least
`m` values each, `loadSiteDBData` returns without a panic one record per row,
in row order, and the record of a row maps every column `c_i` to the `i`-th
value of the row. -/
theorem loadSiteDBData_table (J : JSONLib) (K : ErrorKinds) (api : String)
    (data : List Char) (rec : DASRecord) (desc : Fields) (cols : List String)
    (rows : List (List GoVal))
    (hdec : J.decodeRecord data = (rec, none))
    (hdesc : rec.get "desc" = .map desc)
    (hcols : Fields.get desc "columns" = .list (cols.map GoVal.str))
    (hres : rec.get "result" = .list (rows.map GoVal.list))
    (hnodup : cols.Nodup) (hname : "name" ∉ cols)
    (hlen : ∀ r ∈ rows, cols.length ≤ r.length) :
    ∃ recs, loadSiteDBData J K api data = .ok recs ∧
      List.Forall₂
        (fun r out => ∀ i c, cols.get? i = some c → some (DASRecord.get out c) = r.get? i)
        rows recs := by
  rw [loadSiteDBData_of_decoded J K api data rec desc _ _ hdec hdesc hcols hres]
  obtain ⟨recs, hrecs, hall⟩ := mapM_ok_of_forall
    (fun item => do
      let val ← item.asList
      let row ← siteDBRow val (cols.map GoVal.str) 0 []
      pure (some row))
    (fun item out => ∀ r, item = GoVal.list r →
      ∀ i c, cols.get? i = some c → some (DASRecord.get out c) = r.get? i)
    (rows.map GoVal.list)
    (by
      intro item hitem
      obtain ⟨r, hr, rfl⟩ := List.mem_map.mp hitem
      obtain ⟨row', hrow', -, hcol⟩ := siteDBRow_spec r cols 0 [] (by
        have := hlen r hr
        omega)
      refine ⟨some row', ?_, ?_⟩
      · simp only [GoVal.asList, bind, Except.bind, hrow']
        rfl
      · intro r' hr' i c hc
        cases hr'
        have := hcol hnodup hname i c hc
        rw [Nat.zero_add] at this
        exact this)
  refine ⟨recs, hrecs, ?_⟩
  rw [List.forall₂_map_left_iff] at hall
  exact hall.imp (fun r out h => h r rfl)

/-- C6 (witness): the tabular payload of the spec. -/
theorem loadSiteDBData_table_witness :
    ∃ recs, loadSiteDBData goJSON sampleKinds "people" peoplePayload = .ok recs ∧
      List.Forall₂
        (fun r out => ∀ i c, ["username", "forename"].get? i = some c →
          some (DASRecord.get out c) = r.get? i)
        [[GoVal.str "alice", GoVal.str "Alice"], [GoVal.str "bob", GoVal.str "Bob"]] recs :=
  loadSiteDBData_table goJSON sampleKinds "people" peoplePayload peopleRecord peopleDesc
    ["username", "forename"]
    [[GoVal.str "alice", GoVal.str "Alice"], [GoVal.str "bob", GoVal.str "Bob"]]
    rfl rfl rfl rfl (by decide) (by decide) (by decide)

/-- C7 (counterexample): with the columns `username, name` and the row
`alice, bob`, the record returned has `name = bob` and `username = alice`. -/
theorem loadSiteDBData_name_column_differs :
    loadSiteDBData goJSON sampleKinds "people" namedPayload = .ok [namedRow] ∧
      DASRecord.get namedRow "name" ≠ DASRecord.get namedRow "username" := by
  refine ⟨rfl, ?_⟩
  intro h
  have h' : GoVal.str "bob" = GoVal.str "alice" := h
  injection h' with h''
  exact absurd h'' (by decide)

/-- C7 (amended): for a payload decoded without error whose column sequence
contains `username`, has no column `name` after the last `username` column,
and whose rows hold at least as many values as there are columns,
`loadSiteDBData` returns without a panic one record per row, and in every
record returned the `name` field equals the `username` field. -/
theorem loadSiteDBData_alias (J : JSONLib) (K : ErrorKinds) (api : String)
    (data : List Char) (rec : DASRecord) (desc : Fields) (pre post : List String)
    (rows : List (List GoVal))
    (hdec : J.decodeRecord data = (rec, none))
    (hdesc : rec.get "desc" = .map desc)
    (hcols : Fields.get desc "columns" =
      .list ((pre ++ "username" :: post).map GoVal.str))
    (hres : rec.get "result" = .list (rows.map GoVal.list))
    (hu : "username" ∉ post) (hn : "name" ∉ post)
    (hlen : ∀ r ∈ rows, (pre ++ "username" :: post).length ≤ r.length) :
    ∃ recs, loadSiteDBData J K api data = .ok recs ∧ recs.length = rows.length ∧
      ∀ out ∈ recs, DASRecord.get out "name" = DASRecord.get out "username" := by
  rw [loadSiteDBData_of_decoded J K api data rec desc _ _ hdec hdesc hcols hres]
  obtain ⟨recs, hrecs, hall⟩ := mapM_ok_of_forall
    (fun item => do
      let val ← item.asList
      let row ← siteDBRow val ((pre ++ "username" :: post).map GoVal.str) 0 []
      pure (some row))
    (fun _ out => DASRecord.get out "name" = DASRecord.get out "username")
    (rows.map GoVal.list)
    (by
      intro item hitem
      obtain ⟨r, hr, rfl⟩ := List.mem_map.mp hitem
      obtain ⟨row', hrow', halias⟩ := siteDBRow_alias r pre post [] (hlen r hr) hu hn
      refine ⟨some row', ?_, halias⟩
      simp only [GoVal.asList, bind, Except.bind, hrow']
      rfl)
  refine ⟨recs, hrecs, ?_, ?_⟩
  · rw [← hall.length_eq, List.length_map]
  · exact forall₂_right hall

/-- C7 (witness): the tabular payload of the spec, whose columns are
`username` and `forename`. -/
theorem loadSiteDBData_alias_witness :
    ∃ recs, loadSiteDBData goJSON sampleKinds "people" peoplePayload = .ok recs ∧
      recs.length = 2 ∧
      ∀ out ∈ recs, DASRecord.get out "name" = DASRecord.get out "username" :=
  loadSiteDBData_alias goJSON sampleKinds "people" peoplePayload peopleRecord peopleDesc
    [] ["forename"]
    [[GoVal.str "alice", GoVal.str "Alice"], [GoVal.str "bob", GoVal.str "Bob"]]
    rfl rfl rfl rfl (by decide) (by decide) (by decide)

/-! ## C8: the wildcard filter of `RucioUnmarshal` -/

/-- C8 (evaluation at the failing input): with the site value `cms*`, api
`rses` keeps the record whose rse is `T2_cms_x`, although `cms` is not at the
beginning of that value. -/
theorem RucioUnmarshal_keeps_inner_match (K : ErrorKinds) (fmtOther : GoVal → String) :
    RucioUnmarshal goJSON K fmtOther [("site", .str "cms*")] "rses"
        "\x7b\"rse\":\"T2_cms_x\"\x7d".toList =
      .ok [some [("rse", .str "T2_cms_x"), ("name", .str "T2_cms_x")]] :=
  rfl

/-! ## C9, C10: the URL check of the fetcher -/

/-- C9: for every url that `validate_url` rejects, `FetchResponse` returns a
response with that url, empty data and the error `Invalid URL`, and the trace
of events is unchanged: no request is sent. -/
theorem FetchResponse_invalid_url (N : Net) (url : String) (trace : List Event)
    (h : validate_url url = false) :
    FetchResponse N url trace =
      .ok ({ Url := url, Data := [], Error := some "Invalid URL" }, trace) := by
  unfold FetchResponse
  simp [h]
  rfl

/-- C9 (witness): the empty url. -/
theorem FetchResponse_invalid_url_witness :
    validate_url "" = false ∧
      FetchResponse sampleNet "" [] =
        .ok ({ Url := "", Data := [], Error := some "Invalid URL" }, []) :=
  ⟨by decide, FetchResponse_invalid_url sampleNet "" [] (by decide)⟩

/-- C10 (evaluation at the failing input): `validate_url` accepts a text that
does not begin with a scheme and holds characters outside the URL class,
because a part of it matches the pattern. -/
theorem validate_url_accepts_inner_match :
    validate_url "x http://a <b>" = true := by
  decide

/-! ## C11, C12: the retries of `Fetch` -/

theorem requestCount_append_request (trace : List Event) (url : String) :
    requestCount (trace ++ [.request url]) = requestCount trace + 1 := by
  simp [requestCount, List.countP_append]

theorem requestCount_append_sleep (trace : List Event) (i : Nat) :
    requestCount (trace ++ [.sleep i]) = requestCount trace := by
  simp [requestCount, List.countP_append]

/-- What `FetchResponse` does for a url that `validate_url` accepts and of
which `http.NewRequest` makes a request: one request is sent, and the
response holds the body or the error of that attempt. -/
theorem FetchResponse_of_valid (N : Net) (url : String) (trace : List Event)
    (hvalid : validate_url url = true) (hreq : N.newRequestOk url = true) :
    FetchResponse N url trace =
      .ok ({ Url := url, Data := (N.outcome (requestCount trace) url).data,
             Error := (N.outcome (requestCount trace) url).error },
           trace ++ [.request url]) := by
  unfold FetchResponse
  simp only [hvalid, hreq]
  rcases N.outcome (requestCount trace) url with e | ⟨status, body, _ | e⟩ <;> rfl

/-- One pass of the retry loop for a url that `validate_url` accepts and of
which `http.NewRequest` makes a request. -/
theorem fetchRetry_step (N : Net) (url : String) (hvalid : validate_url url = true)
    (hreq : N.newRequestOk url = true) (k i : Nat) (r : ResponseType) (trace : List Event) :
    fetchRetry N url (k + 1) i r trace =
      if (N.outcome (requestCount trace) url).error = none then
        .ok ({ Url := url, Data := (N.outcome (requestCount trace) url).data,
               Error := (N.outcome (requestCount trace) url).error },
             trace ++ [.sleep i, .request url])
      else
        fetchRetry N url k (i + 1)
          { Url := url, Data := (N.outcome (requestCount trace) url).data,
            Error := (N.outcome (requestCount trace) url).error }
          (trace ++ [.sleep i, .request url]) := by
  rw [fetchRetry, FetchResponse_of_valid N url _ hvalid hreq, requestCount_append_sleep]
  simp only [bind, Except.bind, List.append_assoc, List.singleton_append]
  split <;> rfl

theorem requestCount_append_sleep_request (trace : List Event) (i : Nat) (url : String) :
    requestCount (trace ++ [.sleep i, .request url]) = requestCount trace + 1 := by
  simp [requestCount, List.countP_append, List.countP_cons]

/-- What `Fetch` does for a url that `validate_url` accepts and of which
`http.NewRequest` makes no request: `FetchResponse` calls `req.Header.Add` on
the nil request, and the panic ends `Fetch` before any request is sent and
before anything is sent on the channel. -/
theorem Fetch_of_rejected_request (N : Net) (url : String) (trace : List Event)
    (hvalid : validate_url url = true) (hrej : N.newRequestOk url = false) :
    FetchResponse N url trace = .error .nilDereference ∧
      Fetch N url trace = .error .nilDereference := by
  have h : FetchResponse N url trace = .error .nilDereference := by
    unfold FetchResponse
    simp [hvalid, hrej]
  refine ⟨h, ?_⟩
  unfold Fetch
  rw [h]
  rfl

/-- C11 (evaluation at the failing input): the url `http://a b` passes
`validate_url`; `http.NewRequest` makes no request of it, and with every
attempt bound to fail `Fetch` makes no attempt, sleeps never and sends no
response: it ends in the panic of a call through the nil request. -/
theorem Fetch_rejected_request_no_attempt :
    validate_url "http://a b" = true ∧
      strictRefusingNet.newRequestOk "http://a b" = false ∧
      Fetch strictRefusingNet "http://a b" [] = .error .nilDereference :=
  ⟨by decide, rfl,
    (Fetch_of_rejected_request strictRefusingNet "http://a b" [] (by decide) rfl).2⟩

/-- The part of C11 that holds: for a url that `validate_url` accepts and of
which `http.NewRequest` makes a request, when every attempt fails, `Fetch` sends exactly four
requests, sleeps 1, 2 and 3 seconds before the second, third and fourth one,
and then sends on the channel one response, which carries the error of the
fourth attempt; it does not panic. -/
theorem Fetch_all_attempts_fail (N : Net) (url : String) (trace : List Event)
    (hvalid : validate_url url = true) (hreq : N.newRequestOk url = true)
    (hfail : ∀ n, (N.outcome n url).error ≠ none) :
    Fetch N url trace =
      .ok (trace ++
        [.request url, .sleep 1, .request url, .sleep 2, .request url, .sleep 3,
          .request url,
          .send { Url := url, Data := (N.outcome (requestCount trace + 3) url).data,
                  Error := (N.outcome (requestCount trace + 3) url).error }]) := by
  unfold Fetch
  rw [FetchResponse_of_valid N url trace hvalid hreq]
  simp only [bind, Except.bind, hfail (requestCount trace), ne_eq, not_false_eq_true, if_true]
  rw [fetchRetry_step N url hvalid hreq, requestCount_append_request,
    if_neg (hfail _), fetchRetry_step N url hvalid hreq, requestCount_append_sleep_request,
    if_neg (hfail _), fetchRetry_step N url hvalid hreq, requestCount_append_sleep_request,
    if_neg (hfail _), fetchRetry]
  have hc : requestCount (trace ++ [.request url, .sleep 1, .request url]) + 1 =
      requestCount trace + 3 := by
    simp [requestCount, List.countP_append, List.countP_cons]
  simp [pure, Except.pure, hc]

/-- The four attempts of C11 for the url `http://a`, whose every attempt is
refused. -/
theorem Fetch_all_attempts_fail_witness :
    Fetch refusingNet "http://a" [] =
      .ok [.request "http://a", .sleep 1, .request "http://a", .sleep 2,
        .request "http://a", .sleep 3, .request "http://a",
        .send { Url := "http://a", Data := [], Error := some "connection refused" }] :=
  Fetch_all_attempts_fail refusingNet "http://a" [] (by decide) rfl
    (fun _ h => Option.noConfusion h)

/-- C12 (counterexample): the server answers the valid url `http://a` with
status 500 and a body; `FetchResponse` returns the body with a nil error, and
`Fetch` sends that response after one request, without a retry. -/
theorem FetchResponse_status_500 :
    validate_url "http://a" = true ∧
      FetchResponse serverErrorNet "http://a" [] =
        .ok ({ Url := "http://a", Data := "oops".toList, Error := none },
          [.request "http://a"]) ∧
      Fetch serverErrorNet "http://a" [] =
        .ok [.request "http://a",
          .send { Url := "http://a", Data := "oops".toList, Error := none }] :=
  ⟨by decide, rfl, rfl⟩

/-- C12 (amended): for a url that `validate_url` accepts and of which
`http.NewRequest` makes a request, when the server answers, with whatever
status code, and the body is read, `FetchResponse` reports no failure (a nil
error, the body as data), and `Fetch` sends that response after this one
request, without a retry. -/
theorem FetchResponse_ignores_status (N : Net) (url : String) (trace : List Event)
    (status : Nat) (body : List Char)
    (hvalid : validate_url url = true) (hreq : N.newRequestOk url = true)
    (hout : N.outcome (requestCount trace) url = .response status body none) :
    FetchResponse N url trace =
        .ok ({ Url := url, Data := body, Error := none }, trace ++ [.request url]) ∧
      Fetch N url trace =
        .ok (trace ++ [.request url, .send { Url := url, Data := body, Error := none }]) := by
  have h : FetchResponse N url trace =
      .ok ({ Url := url, Data := body, Error := none }, trace ++ [.request url]) := by
    rw [FetchResponse_of_valid N url trace hvalid hreq, hout]
    rfl
  refine ⟨h, ?_⟩
  unfold Fetch
  rw [h]
  simp [bind, Except.bind, pure, Except.pure]

/-- C12 (witness): status 404 with an empty body. -/
theorem FetchResponse_ignores_status_witness :
    FetchResponse notFoundNet "http://a" [] =
        .ok ({ Url := "http://a", Data := [], Error := none }, [.request "http://a"]) ∧
      Fetch notFoundNet "http://a" [] =
        .ok [.request "http://a", .send { Url := "http://a", Data := [], Error := none }] :=
  FetchResponse_ignores_status notFoundNet "http://a" [] 404 [] (by decide) rfl rfl

/-! ## C13 .. C17: the token cache -/

theorem splitAux_length_pos (sep cs cur : List Char) (skip : Nat) :
    1 ≤ (splitAux sep cs cur skip).length := by
  induction cs generalizing cur skip with
  | nil => simp [splitAux]
  | cons c cs ih =>
    cases skip with
    | succ k => simpa [splitAux] using ih cur k
    | zero =>
      rw [splitAux]
      split
      · simp
      · exact ih _ _

theorem splitAux_eq_length (cs cur : List Char) (h : '=' ∈ cs) :
    2 ≤ (splitAux ['='] cs cur 0).length := by
  induction cs generalizing cur with
  | nil => simp at h
  | cons c cs ih =>
    rw [splitAux]
    split
    · rw [List.length_cons]
      exact Nat.succ_le_succ (splitAux_length_pos ['='] cs [] (['='].length - 1))
    · rename_i hpre
      have hc : c ≠ '=' := by
        intro hc
        apply hpre
        simp [hc, List.isPrefixOf]
      rcases List.mem_cons.mp h with h | h
      · exact absurd h.symm hc
      · exact ih _ h

/-- On an environment of `KEY=VALUE` entries `GetEnv` does not panic. -/
theorem GetEnv_ok (environ : List String) (key : String) (h : WellFormedEnv environ) :
    ∃ v, GetEnv environ key = .ok v := by
  induction environ with
  | nil => exact ⟨"", rfl⟩
  | cons item rest ih =>
    have hitem : '=' ∈ item.toList := h item (by simp)
    have hlen : 2 ≤ (stringsSplit item "=").length := by
      unfold stringsSplit
      rw [List.length_map]
      exact splitAux_eq_length item.toList [] hitem
    obtain ⟨v, hv⟩ := ih (fun i hi => h i (by simp [hi]))
    have h0 : 0 < (stringsSplit item "=").length := by omega
    have h1 : 1 < (stringsSplit item "=").length := by omega
    rw [GetEnv]
    simp only [bind, Except.bind, index_of_lt _ 0 h0, index_of_lt _ 1 h1]
    split
    · exact ⟨_, rfl⟩
    · exact ⟨v, hv⟩

/-- On an environment of `KEY=VALUE` entries the method `Url` returns. -/
theorem Url_ok (environ : List String) (r : RucioAuthModule) (h : WellFormedEnv environ) :
    ∃ u r', r.Url environ = .ok (u, r') := by
  unfold RucioAuthModule.Url
  split
  · obtain ⟨v, hv⟩ := GetEnv_ok environ "RUCIO_AUTH_URL" h
    rw [hv]
    exact ⟨_, _, rfl⟩
  · exact ⟨_, _, rfl⟩

/-- C13: when the cached token is not empty and the time `t` is before the
expiry `ts`, `Token` returns the cached token with a nil error, calls no
refresh strategy and leaves the module unchanged; when the token is empty or
`t >= ts` (the environment being a list of `KEY=VALUE` entries) it calls
exactly one refresh strategy, the one that `RucioTokenCurl` selects. -/
theorem Token_cached_or_one_refresh (W : AuthWorld) (t t0 : Int) (r : RucioAuthModule) :
    (r.token ≠ "" → t < r.ts →
        r.Token W t t0 = ⟨[], .ok ((r.token, none), r)⟩) ∧
      (r.token = "" ∨ r.ts ≤ t → WellFormedEnv W.environ →
        ∃ url, (r.Token W t t0).refreshes =
          [⟨if W.RucioTokenCurl then .curl else .direct, url⟩]) := by
  constructor
  · intro htok ht
    unfold RucioAuthModule.Token tokenCached
    simp [htok, ht]
  · intro hexp henv
    have hc : tokenCached t r = false := by
      unfold tokenCached
      rcases hexp with h | h
      · simp [h]
      · simp [Int.not_lt.mpr h]
    obtain ⟨u, r', hu⟩ := Url_ok W.environ r henv
    refine ⟨u, ?_⟩
    unfold RucioAuthModule.Token tokenFetch
    simp only [hc, hu]
    cases W.RucioTokenCurl <;> simp

/-- C13 (witness): a module caching the token `tok` until time 400, read at
time 100, and a module without a token. -/
theorem Token_cached_or_one_refresh_witness :
    ({ freshModule with token := "tok", ts := 400 } : RucioAuthModule).Token
        sampleAuthWorld 100 100 =
        ⟨[], .ok (("tok", none), { freshModule with token := "tok", ts := 400 })⟩ ∧
      ∃ url, (freshModule.Token sampleAuthWorld 100 100).refreshes = [⟨.direct, url⟩] :=
  ⟨(Token_cached_or_one_refresh sampleAuthWorld 100 100
      { freshModule with token := "tok", ts := 400 }).1 (by decide) (by decide),
    (Token_cached_or_one_refresh sampleAuthWorld 100 100 freshModule).2 (Or.inl rfl)
      (by decide)⟩

/-- A token that is not empty and comes without an error from
`FetchRucioToken` comes with the expiry `t0 + 300`. -/
theorem FetchRucioToken_expire (W : AuthWorld) (t0 : Int) (g g' : RucioAuthModule)
    (rurl : String) (f : TokenFetch)
    (h : FetchRucioToken W t0 g rurl = .ok (f, g')) (herr : f.err = none)
    (htok : f.token ≠ "") : f.expire = t0 + 300 := by
  unfold FetchRucioToken at h
  simp only [bind, Except.bind, pure, Except.pure] at h
  repeat' split at h
  all_goals first
    | (cases h; done)
    | (cases h; simp_all)

/-- What comes without an error from `FetchRucioTokenViaCurl` comes with the
expiry `t0 + 300`. -/
theorem FetchRucioTokenViaCurl_expire (W : AuthWorld) (t0 : Int) (g g' : RucioAuthModule)
    (rurl : String) (f : TokenFetch)
    (h : FetchRucioTokenViaCurl W t0 g rurl = .ok (f, g')) (herr : f.err = none) :
    f.expire = t0 + 300 := by
  unfold FetchRucioTokenViaCurl at h
  simp only [bind, Except.bind, pure, Except.pure] at h
  repeat' split at h
  all_goals first
    | (cases h; done)
    | (cases h; simp_all)

/-- A refresh that returns without a panic called one strategy, and what it
returns with a token that is not empty and no error has the expiry
`t0 + 300`. -/
theorem tokenFetch_expire (W : AuthWorld) (t0 : Int) (r r₁ : RucioAuthModule)
    (f : TokenFetch) (h : (tokenFetch W t0 r).2 = .ok (f, r₁)) :
    (tokenFetch W t0 r).1.length = 1 ∧
      (f.err = none → f.token ≠ "" → f.expire = t0 + 300) := by
  unfold tokenFetch at h ⊢
  rcases hu : r.Url W.environ with p | ⟨u, r'⟩
  · rw [hu] at h
    cases h
  · rw [hu] at h
    simp only at h ⊢
    cases hc : W.RucioTokenCurl
    · rw [hc] at h
      simp only [Bool.false_eq_true, if_false] at h ⊢
      exact ⟨rfl, FetchRucioToken_expire W t0 r' r₁ u f h⟩
    · rw [hc] at h
      simp only [if_true] at h ⊢
      exact ⟨rfl, fun herr _ => FetchRucioTokenViaCurl_expire W t0 r' r₁ u f h herr⟩

/-- C14: whatever the strategy and the answer of the server, when `Token`,
called with an empty or expired cache, refreshes at time `t0` and returns a
token that is not empty, it has called one strategy and stored that token with
the expiry `t0 + 300`; and every later call of `Token` at a time `t'` with
`t0 <= t' < t0 + 300` returns the same token with a nil error, calls no
strategy and leaves the module unchanged. -/
theorem Token_validity_window (W : AuthWorld) (t t0 : Int) (r r' : RucioAuthModule)
    (tok : String) (hexp : r.token = "" ∨ r.ts ≤ t)
    (hres : (r.Token W t t0).result = .ok ((tok, none), r')) (htok : tok ≠ "") :
    (r.Token W t t0).refreshes.length = 1 ∧ r'.token = tok ∧ r'.ts = t0 + 300 ∧
      ∀ (W' : AuthWorld) (t' t0' : Int), t0 ≤ t' → t' < t0 + 300 →
        r'.Token W' t' t0' = ⟨[], .ok ((tok, none), r')⟩ := by
  have hc : tokenCached t r = false := by
    unfold tokenCached
    rcases hexp with h | h
    · simp [h]
    · simp [Int.not_lt.mpr h]
  unfold RucioAuthModule.Token at hres ⊢
  simp only [hc, Bool.false_eq_true, if_false] at hres ⊢
  rcases hf : (tokenFetch W t0 r).2 with p | ⟨f, r₁⟩
  · rw [hf] at hres
    cases hres
  · rw [hf] at hres
    simp only [Except.ok.injEq] at hres
    obtain ⟨hlen, hexpire⟩ := tokenFetch_expire W t0 r r₁ f hf
    unfold tokenStore at hres
    rcases hferr : f.err with _ | e
    · rw [hferr] at hres
      simp only [Prod.mk.injEq, true_and] at hres
      obtain ⟨⟨htoken, -⟩, hr'⟩ := hres
      subst hr'
      subst htoken
      have hfe := hexpire hferr htok
      refine ⟨hlen, rfl, hfe, ?_⟩
      intro W' t' t0' _ hlt
      have hc' : tokenCached t' { r₁ with ts := f.expire, token := f.token } = true := by
        unfold tokenCached
        simp only [hfe]
        simp [htok, hlt]
      simp only [hc', if_true]
    · rw [hferr] at hres
      simp at hres

/-- C14 (witness): a first call at time 100 that fetches the token `tok-1`. -/
theorem Token_validity_window_witness :
    (freshModule.Token sampleAuthWorld 100 100).refreshes.length = 1 ∧
      ∀ (W' : AuthWorld) (t' t0' : Int), 100 ≤ t' → t' < 100 + 300 →
        (refreshedModule "tok-1" 400).Token W' t' t0' =
          ⟨[], .ok (("tok-1", none), refreshedModule "tok-1" 400)⟩ :=
  have h := Token_validity_window sampleAuthWorld 100 100 freshModule
    (refreshedModule "tok-1" 400) "tok-1" (Or.inl rfl) rfl (by decide)
  ⟨h.1, h.2.2.2⟩

/-- C15 (evaluation at the failing input): when the answer of the auth
endpoint (direct strategy) or the output of the helper (curl strategy) holds
no header `X-Rucio-Auth-Token`, `Token` returns the empty token with a nil
error, and stores the empty token. -/
theorem Token_empty_without_error :
    (freshModule.Token (noTokenWorld false) 100 100).result =
        .ok (("", none), refreshedModule "" 0) ∧
      (freshModule.Token (noTokenWorld true) 100 100).result =
        .ok (("", none), refreshedModule "" 400) :=
  ⟨rfl, rfl⟩

/-- C17 (evaluation at the failing input): in the environment with the
entries `RUCIO_ACCOUNT=cms=prod` and `RUCIO_AUTH_URL=https://auth.example/x?a=b`
the first call of `Account` returns `cms`, where the value of the variable is
`cms=prod`, and the first call of `Url` returns
`https://auth.example/x?a/auth/x509`, where the value of the variable followed
by `/auth/x509` is `https://auth.example/x?a=b/auth/x509`; both store what
they return. -/
theorem accessors_cut_value :
    osGetenv equalsEnviron "RUCIO_ACCOUNT" = "cms=prod" ∧
      freshModule.Account equalsEnviron =
        .ok ("cms", { freshModule with account := "cms" }) ∧
      osGetenv equalsEnviron "RUCIO_AUTH_URL" ++ "/auth/x509" =
        "https://auth.example/x?a=b/auth/x509" ∧
      freshModule.Url equalsEnviron =
        .ok ("https://auth.example/x?a/auth/x509",
          { freshModule with url := "https://auth.example/x?a/auth/x509" }) :=
  ⟨by decide, rfl, by decide, rfl⟩

/-- The part of C17 that holds, with the value of a variable read as what
`GetEnv` returns for it: on a module whose account, agent and url are not
resolved yet, in an
environment where `GetEnv` reads `a` for `RUCIO_ACCOUNT` and `u` for
`RUCIO_AUTH_URL`: the first call of `Account` returns `a` if it is not empty
and `das` otherwise, the first call of `Url` returns `u` followed by
`/auth/x509` if `u` is not empty and the default url otherwise, `Agent`
returns `dasgoserver`, and each call stores what it returns; and on every
module that holds such a stored value the accessor returns that value again
and changes nothing, whatever the environment has become. -/
theorem accessors_resolved_once (environ : List String) (r : RucioAuthModule)
    (a u : String)
    (ha : GetEnv environ "RUCIO_ACCOUNT" = .ok a)
    (hu : GetEnv environ "RUCIO_AUTH_URL" = .ok u)
    (hacc : r.account = "") (hag : r.agent = "") (hurl : r.url = "") :
    r.Account environ =
        .ok (if a ≠ "" then a else "das",
          { r with account := if a ≠ "" then a else "das" }) ∧
      r.Url environ =
        .ok (if u ≠ "" then u ++ "/auth/x509" else "https://cms-rucio-auth.cern.ch/auth/x509",
          { r with url := if u ≠ "" then u ++ "/auth/x509"
                          else "https://cms-rucio-auth.cern.ch/auth/x509" }) ∧
      r.Agent = ("dasgoserver", { r with agent := "dasgoserver" }) ∧
      (∀ (environ' : List String) (r' : RucioAuthModule),
        r'.account = (if a ≠ "" then a else "das") →
          r'.Account environ' = .ok (if a ≠ "" then a else "das", r')) ∧
      (∀ (environ' : List String) (r' : RucioAuthModule),
        r'.url = (if u ≠ "" then u ++ "/auth/x509"
                  else "https://cms-rucio-auth.cern.ch/auth/x509") →
          r'.Url environ' =
            .ok (if u ≠ "" then u ++ "/auth/x509"
                 else "https://cms-rucio-auth.cern.ch/auth/x509", r')) ∧
      (∀ r' : RucioAuthModule, r'.agent = "dasgoserver" →
        r'.Agent = ("dasgoserver", r')) := by
  have hacct : (if a ≠ "" then a else "das") ≠ "" := by
    split
    · assumption
    · decide
  have hurl' : (if u ≠ "" then u ++ "/auth/x509"
      else "https://cms-rucio-auth.cern.ch/auth/x509") ≠ "" := by
    split
    · intro h
      have := congrArg String.length h
      simp only [String.length_append] at this
      have h10 : "/auth/x509".length = 10 := by decide
      have h0 : "".length = 0 := by decide
      omega
    · decide
  refine ⟨?_, ?_, ?_, ?_, ?_, ?_⟩
  · unfold RucioAuthModule.Account
    simp only [hacc, ha, if_true, bind, Except.bind, pure, Except.pure]
    by_cases h : a = "" <;> simp [h]
  · unfold RucioAuthModule.Url
    simp only [hurl, hu, if_true, bind, Except.bind, pure, Except.pure]
    by_cases h : u = "" <;> simp [h]
  · unfold RucioAuthModule.Agent
    simp [hag]
  · intro environ' r' h
    unfold RucioAuthModule.Account
    rw [if_neg (by rw [h]; exact hacct), h]
    rfl
  · intro environ' r' h
    unfold RucioAuthModule.Url
    rw [if_neg (by rw [h]; exact hurl'), h]
    rfl
  · intro r' h
    unfold RucioAuthModule.Agent
    rw [if_neg (by rw [h]; decide)]
    simp [h]

/-- The accessors of C17 in an environment that sets `RUCIO_ACCOUNT` and
leaves `RUCIO_AUTH_URL` unset. -/
theorem accessors_resolved_once_witness :
    freshModule.Account ["RUCIO_ACCOUNT=alice"] =
        .ok ("alice", { freshModule with account := "alice" }) ∧
      freshModule.Url ["RUCIO_ACCOUNT=alice"] =
        .ok ("https://cms-rucio-auth.cern.ch/auth/x509",
          { freshModule with url := "https://cms-rucio-auth.cern.ch/auth/x509" }) ∧
      (∀ (environ' : List String) (r' : RucioAuthModule), r'.account = "alice" →
        r'.Account environ' = .ok ("alice", r')) :=
  have h := accessors_resolved_once ["RUCIO_ACCOUNT=alice"] freshModule "alice" ""
    rfl rfl rfl rfl rfl
  ⟨h.1, h.2.1, h.2.2.2.1⟩

/-- The steps of a single caller, taken one after the other, are a run of
`Token`: the same calls of a strategy, the same value returned, the same
module after the call. -/
theorem TokenSystem_single_caller (W : AuthWorld) (t t0 : Int) (r : RucioAuthModule) :
    (TokenSystem.run W ⟨r, [.waiting t t0], []⟩ [0, 0]).refreshes =
        (r.Token W t t0).refreshes ∧
      match (r.Token W t t0).result with
      | .ok ((token, err), r') =>
        (TokenSystem.run W ⟨r, [.waiting t t0], []⟩ [0, 0]).module = r' ∧
          (TokenSystem.run W ⟨r, [.waiting t t0], []⟩ [0, 0]).callers = [.returned token err]
      | .error p =>
        (TokenSystem.run W ⟨r, [.waiting t t0], []⟩ [0, 0]).callers = [.panicked p] := by
  unfold RucioAuthModule.Token
  by_cases hc : tokenCached t r = true
  · simp [TokenSystem.run, TokenSystem.step, hc]
  · rcases hf : (tokenFetch W t0 r).2 with p | ⟨f, r₁⟩
    · simp [TokenSystem.run, TokenSystem.step, hc, hf]
    · simp [TokenSystem.run, TokenSystem.step, hc, hf]

/-- C16 (counterexample): two callers find the cache empty before either of
them has stored a token; each of them calls the refresh strategy, so two
refreshes are executed. -/
theorem Token_overlapping_callers_refresh_twice :
    (TokenSystem.run sampleAuthWorld
        ⟨freshModule, [.waiting 100 100, .waiting 100 100], []⟩ [0, 1, 0, 1]).refreshes =
        [⟨.direct, "https://auth.example/auth/x509"⟩,
          ⟨.direct, "https://auth.example/auth/x509"⟩] ∧
      (TokenSystem.run sampleAuthWorld
        ⟨freshModule, [.waiting 100 100, .waiting 100 100], []⟩ [0, 1, 0, 1]).callers =
        [.returned "tok-1" none, .returned "tok-1" none] :=
  ⟨rfl, rfl⟩

/-- C16 (amended): when callers invoke `Token` one after the other, the first
with an empty or expired cache, the refresh of the first call at time `t0`
returns a token that is not empty, and the later calls read a time `t'` with
`t0 <= t' < t0 + 300`, then the first call executes exactly one refresh, no
later call executes a refresh, and every later call returns the token of the
first with a nil error. -/
theorem Token_sequential_callers (W : AuthWorld) (t t0 : Int) (r r' : RucioAuthModule)
    (tok : String) (later : List (AuthWorld × Int × Int))
    (hexp : r.token = "" ∨ r.ts ≤ t)
    (hres : (r.Token W t t0).result = .ok ((tok, none), r')) (htok : tok ≠ "")
    (hwin : ∀ c ∈ later, t0 ≤ c.2.1 ∧ c.2.1 < t0 + 300) :
    (r.Token W t t0).refreshes.length = 1 ∧
      tokenSequence r ((W, t, t0) :: later) =
        r.Token W t t0 :: later.map (fun _ => ⟨[], .ok ((tok, none), r')⟩) := by
  obtain ⟨hlen, -, -, hlater⟩ := Token_validity_window W t t0 r r' tok hexp hres htok
  refine ⟨hlen, ?_⟩
  rw [tokenSequence]
  simp only [hres]
  congr 1
  induction later with
  | nil => rfl
  | cons c later ih =>
    obtain ⟨W', t', t0'⟩ := c
    have hc := hwin (W', t', t0') (by simp)
    rw [tokenSequence, hlater W' t' t0' hc.1 hc.2]
    simp only [List.map_cons]
    rw [ih (fun c hc' => hwin c (by simp [hc']))]

/-- C16 (witness): three callers, one after the other, at the times 100, 150
and 399. -/
theorem Token_sequential_callers_witness :
    (freshModule.Token sampleAuthWorld 100 100).refreshes.length = 1 ∧
      tokenSequence freshModule
          [(sampleAuthWorld, 100, 100), (sampleAuthWorld, 150, 150),
            (sampleAuthWorld, 399, 399)] =
        [freshModule.Token sampleAuthWorld 100 100,
          ⟨[], .ok (("tok-1", none), refreshedModule "tok-1" 400)⟩,
          ⟨[], .ok (("tok-1", none), refreshedModule "tok-1" 400)⟩] :=
  Token_sequential_callers sampleAuthWorld 100 100 freshModule
    (refreshedModule "tok-1" 400) "tok-1"
    [(sampleAuthWorld, 150, 150), (sampleAuthWorld, 399, 399)]
    (Or.inl rfl) rfl (by decide) (by decide)

/-! ## C18, C19, C20: the first round of the lookup of configurations -/

theorem InList_foldl (a : String) (l : List String) (n : Nat) :
    l.foldl (fun n b => if b = a then n + 1 else n) n = n + l.count a := by
  induction l generalizing n with
  | nil => simp
  | cons b l ih =>
    rw [List.foldl_cons, ih, List.count_cons]
    by_cases h : b = a
    · simp [h]; omega
    · simp [h]

/-- The test `InList` is the membership in the list. -/
theorem InList_iff (a : String) (l : List String) : InList a l = true ↔ a ∈ l := by
  unfold InList
  simp only [InList_foldl, Nat.zero_add]
  by_cases h : a ∈ l
  · have := List.count_pos_iff.mpr h
    simp [h]
    omega
  · have := List.count_eq_zero_of_not_mem h
    simp [h, this]

theorem nodup_append_new (l : List String) (a : String) (hl : l.Nodup)
    (ha : (!InList a l) = true) : (l ++ [a]).Nodup := by
  have hmem : a ∉ l := by
    intro h
    rw [(InList_iff a l).mpr h] at ha
    simp at ha
  rw [List.nodup_append]
  refine ⟨hl, List.nodup_singleton a, ?_⟩
  intro x hx hy
  simp only [List.mem_singleton] at hy
  subst hy
  exact hmem hx

/-- The output of `List2Set` has no duplicates. -/
theorem List2Set_nodup (arr : List String) : (List2Set arr).Nodup := by
  unfold List2Set
  suffices h : ∀ out : List String, out.Nodup →
      (arr.foldl (fun out key => if (!InList key out) = true then out ++ [key] else out)
        out).Nodup from h [] List.nodup_nil
  induction arr with
  | nil => intro out h; exact h
  | cons a arr ih =>
    intro out h
    rw [List.foldl_cons]
    apply ih
    split
    · rename_i hin
      exact nodup_append_new out a h hin
    · exact h

theorem addId_nodup (view : String) (st : IdLists) (val : String) (h : st.Nodup) :
    (addId view st val).Nodup := by
  obtain ⟨hi, ho, hd⟩ := h
  unfold addId
  split
  · dsimp only
    repeat' split
    all_goals
      refine ⟨?_, ?_, ?_⟩ <;>
        first
          | assumption
          | (apply nodup_append_new <;> first | assumption | simp_all)
  · exact ⟨hi, ho, hd⟩

theorem scanData_nodup (view : String) (data : Fields) (st : IdLists) (h : st.Nodup) :
    (scanData view st data).Nodup := by
  unfold scanData
  induction data generalizing st with
  | nil => exact h
  | cons kv data ih =>
    rw [List.foldl_cons]
    apply ih
    split
    · split
      · exact addId_nodup view st _ h
      · exact h
    · exact h

/-- A property kept by every pass of a loop that ends without a panic holds
at its end. -/
theorem foldlM_invariant {σ α : Type} (P : σ → Prop) (f : σ → α → Except Panic σ)
    (hf : ∀ s x s', f s x = .ok s' → P s → P s') (l : List α) (s s' : σ)
    (h : l.foldlM f s = .ok s') (hs : P s) : P s' := by
  induction l generalizing s with
  | nil =>
    cases h
    exact hs
  | cons x l ih =>
    rw [List.foldlM_cons] at h
    rcases hx : f s x with p | s₁
    · rw [hx] at h
      cases h
    · rw [hx] at h
      exact ih s₁ h (hf s x s₁ hx hs)

/-- A loop whose passes never panic ends without a panic. -/
theorem foldlM_total {σ α : Type} (f : σ → α → Except Panic σ) (l : List α)
    (hf : ∀ x ∈ l, ∀ s, ∃ s', f s x = .ok s') (s : σ) :
    ∃ s', l.foldlM f s = .ok s' := by
  induction l generalizing s with
  | nil => exact ⟨s, rfl⟩
  | cons x l ih =>
    obtain ⟨s₁, h₁⟩ := hf x (by simp) s
    obtain ⟨s₂, h₂⟩ := ih (fun y hy => hf y (by simp [hy])) s₁
    refine ⟨s₂, ?_⟩
    rw [List.foldlM_cons, h₁]
    exact h₂

theorem scanRow_nodup (view : String) (row : Fields) (st st' : IdLists)
    (h : scanRow view st row = .ok st') (hs : st.Nodup) : st'.Nodup := by
  unfold scanRow at h
  refine foldlM_invariant IdLists.Nodup _ ?_ row st st' h hs
  intro s kd s' hstep hP
  rcases hm : kd.2.asMap with p | data
  · simp [hm, bind, Except.bind] at hstep
  · simp only [hm, bind, Except.bind, pure, Except.pure, Except.ok.injEq] at hstep
    subst hstep
    exact scanData_nodup view data s hP

theorem scanRows_nodup (view : String) (rows : List GoVal) (st st' : IdLists)
    (h : scanRows view st rows = .ok st') (hs : st.Nodup) : st'.Nodup := by
  unfold scanRows at h
  refine foldlM_invariant IdLists.Nodup _ ?_ rows st st' h hs
  intro s rec s' hstep hP
  rcases hm : rec.asMap with p | row
  · simp [hm, bind, Except.bind] at hstep
  · simp only [hm, bind, Except.bind] at hstep
    exact scanRow_nodup view row s s' hstep hP

/-- Whatever the response, what `findReqMgrIds` makes of its three lists has
no duplicates. -/
theorem collectIds_nodup (J : JSONLib) (st st' : IdLists) (r : ResponseType)
    (h : collectIds J st r = .ok st') (hs : st.Nodup) : st'.Nodup := by
  unfold collectIds at h
  rcases hj : J.unmarshalRecord r.Data with ⟨data, _ | e⟩
  · rw [hj] at h
    simp only at h
    split at h
    · rcases hl : (data.get "result").asList with p | rows
      · simp [hl, bind, Except.bind] at h
      · simp only [hl, bind, Except.bind] at h
        exact scanRows_nodup _ rows st st' h hs
    · cases h
      exact hs
  · rw [hj] at h
    cases h
    exact hs

/-- A response of the expected shape is read without a panic. -/
theorem collectIds_total (J : JSONLib) (st : IdLists) (r : ResponseType)
    (h : responseShaped J r = true) : ∃ st', collectIds J st r = .ok st' := by
  unfold responseShaped at h
  unfold collectIds
  rcases hj : J.unmarshalRecord r.Data with ⟨data, _ | e⟩
  · rw [hj] at h
    simp only at h ⊢
    unfold rowsShaped at h
    split at h
    · rename_i hnil
      simp [hnil, GoVal.isNil]
      exact ⟨st, rfl⟩
    · rename_i rows hrows
      simp only [hrows, GoVal.isNil, GoVal.asList, bind, Except.bind]
      simp only [Bool.not_false, if_true]
      unfold scanRows
      apply foldlM_total
      intro row hrow s
      have hr := List.all_eq_true.mp h row hrow
      split at hr
      · rename_i m
        simp only [GoVal.asMap, bind, Except.bind]
        unfold scanRow
        apply foldlM_total
        intro kd hkd s₁
        have hk := List.all_eq_true.mp hr kd hkd
        split at hk
        · rename_i d hd
          rw [hd]
          exact ⟨_, rfl⟩
        · cases hk
      · cases hr
    · cases h
  · exact ⟨st, rfl⟩

theorem strsGet_assocSet_same (m : List (String × List String)) (k : String)
    (v : List String) : strsGet (assocSet m k v) k = v := by
  induction m with
  | nil => simp [assocSet, strsGet]
  | cons kv m ih =>
    obtain ⟨k', v'⟩ := kv
    by_cases h : k' = k
    · simp [assocSet, strsGet, h]
    · unfold strsGet at ih ⊢
      simp [assocSet, h, ih]

theorem strsGet_assocSet_other (m : List (String × List String)) (k k' : String)
    (v : List String) (h : k' ≠ k) : strsGet (assocSet m k v) k' = strsGet m k' := by
  induction m with
  | nil => simp [assocSet, strsGet, Ne.symm h]
  | cons kv m ih =>
    obtain ⟨k₀, v₀⟩ := kv
    by_cases h₀ : k₀ = k
    · subst h₀
      simp [assocSet, strsGet, Ne.symm h]
    · by_cases h₁ : k₀ = k'
      · subst h₁
        simp [assocSet, strsGet, h₀]
      · unfold strsGet at ih ⊢
        simp [assocSet, h₀, h₁, ih]

/-- The case `r := <-ch` keeps the lists free of duplicates, and removes the
url of the response from the pending urls. -/
theorem findRecv_spec (J : JSONLib) (s s' : FindState) (r : ResponseType)
    (h : findRecv J s r = .ok s') (hs : s.Nodup) :
    s'.Nodup ∧ s'.umap = assocDelete s.umap r.Url := by
  unfold findRecv at h
  rcases hc : collectIds J s.lists r with p | lists
  · simp [hc, bind, Except.bind] at h
  · simp only [hc, bind, Except.bind, pure, Except.pure, Except.ok.injEq] at h
    subst h
    have hl := collectIds_nodup J s.lists lists r hc hs.1
    refine ⟨⟨hl, ?_, ?_⟩, rfl⟩
    · simp only
      rw [strsGet_assocSet_other _ _ _ _ (by decide), strsGet_assocSet_same]
      exact hl.1
    · simp only
      rw [strsGet_assocSet_same]
      exact hl.2.1

theorem fanIn_findRecv_nodup (J : JSONLib) (arrivals : List ResponseType)
    (s s' : FindState)
    (h : fanIn (findRecv J) (fun s => s.umap.length) arrivals s = .ok (some s'))
    (hs : s.Nodup) : s'.Nodup := by
  induction arrivals generalizing s with
  | nil =>
    simp only [fanIn, pure, Except.pure, Except.ok.injEq] at h
    split at h
    · cases h
      exact hs
    · cases h
  | cons r arrivals ih =>
    rw [fanIn] at h
    rcases hr : findRecv J s r with p | s₁
    · simp [hr, bind, Except.bind] at h
    · simp only [hr, bind, Except.bind] at h
      exact ih s₁ h (findRecv_spec J s s₁ r hr hs).1

/-- Whatever arrives, in whatever order: the lists that `findReqMgrIds`
returns have no duplicates. -/
theorem findReqMgrIds_nodup_of_returned (J : JSONLib) (base dataset : String)
    (arrivals : List ResponseType) (res : FindResult)
    (h : findReqMgrIds J base dataset arrivals = .ok (some res)) :
    res.ids.Nodup ∧ (strsGet res.idict "byinputdataset").Nodup ∧
      (strsGet res.idict "byoutputdataset").Nodup := by
  unfold findReqMgrIds at h
  split at h
  · simp only [pure, Except.pure, Except.ok.injEq, Option.some.injEq] at h
    subst h
    exact ⟨List.nodup_nil, List.nodup_nil, List.nodup_nil⟩
  · dsimp only at h
    split at h
    · cases h
    · cases h
    · rename_i s hs
      simp only [pure, Except.pure, Except.ok.injEq, Option.some.injEq] at h
      subst h
      have hinit : FindState.Nodup ⟨⟨[], [], []⟩, [],
          [outputUrl base dataset, inputUrl base dataset].foldl
            (fun m u => assocSet m u (1 : Int)) []⟩ :=
        ⟨⟨List.nodup_nil, List.nodup_nil, List.nodup_nil⟩, List.nodup_nil, List.nodup_nil⟩
      have := fanIn_findRecv_nodup J arrivals _ s hs hinit
      exact ⟨List2Set_nodup _, this.2.1, this.2.2⟩

theorem umap_emptied (a b : String) :
    assocDelete (assocDelete ([a, b].foldl (fun m u => assocSet m u (1 : Int)) []) a) b = [] ∧
      assocDelete (assocDelete ([a, b].foldl (fun m u => assocSet m u (1 : Int)) []) b) a
        = [] := by
  by_cases h : a = b
  · subst h
    simp [assocSet, assocDelete]
  · have h' : ¬ b = a := fun e => h e.symm
    simp [assocSet, assocDelete, h, h']

/-- Two responses of the expected shape, one for each url of the round, are
received without a panic in either order, and the loop ends after them. -/
theorem fanIn_two_responses (J : JSONLib) (a b : String) (r₁ r₂ : ResponseType)
    (lists : IdLists) (idict : List (String × List String))
    (h₁ : responseShaped J r₁ = true) (h₂ : responseShaped J r₂ = true)
    (hurls : (r₁.Url = a ∧ r₂.Url = b) ∨ (r₁.Url = b ∧ r₂.Url = a)) :
    ∃ s', fanIn (findRecv J) (fun s => s.umap.length) [r₁, r₂]
      ⟨lists, idict, [a, b].foldl (fun m u => assocSet m u (1 : Int)) []⟩ = .ok (some s') := by
  obtain ⟨l₁, hl₁⟩ := collectIds_total J lists r₁ h₁
  obtain ⟨l₂, hl₂⟩ := collectIds_total J l₁ r₂ h₂
  have hempty : assocDelete (assocDelete
      ([a, b].foldl (fun m u => assocSet m u (1 : Int)) []) r₁.Url) r₂.Url = [] := by
    rcases hurls with ⟨e₁, e₂⟩ | ⟨e₁, e₂⟩
    · rw [e₁, e₂]
      exact (umap_emptied a b).1
    · rw [e₁, e₂]
      exact (umap_emptied a b).2
  simp only [fanIn, findRecv, hl₁, hl₂, bind, Except.bind, pure, Except.pure, hempty,
    List.length_nil, if_true]
  exact ⟨_, rfl⟩

/-- C20: for a dataset that passes the check and two responses of the expected
shape, one for the output-side url and one for the input-side url, received
in either order, `findReqMgrIds` returns, and the identifier list it returns
and the two lists `idict["byinputdataset"]` and `idict["byoutputdataset"]`
have no duplicates. -/
theorem findReqMgrIds_no_duplicates (J : JSONLib) (base dataset : String)
    (rOut rIn : ResponseType) (arrivals : List ResponseType)
    (hvalid : validDataset dataset = true)
    (hOut : rOut.Url = outputUrl base dataset) (hIn : rIn.Url = inputUrl base dataset)
    (hsOut : responseShaped J rOut = true) (hsIn : responseShaped J rIn = true)
    (horder : arrivals = [rOut, rIn] ∨ arrivals = [rIn, rOut]) :
    ∃ res, findReqMgrIds J base dataset arrivals = .ok (some res) ∧
      res.ids.Nodup ∧ (strsGet res.idict "byinputdataset").Nodup ∧
      (strsGet res.idict "byoutputdataset").Nodup := by
  have hret : ∃ res, findReqMgrIds J base dataset arrivals = .ok (some res) := by
    obtain ⟨s', hs'⟩ : ∃ s', fanIn (findRecv J) (fun s => s.umap.length) arrivals
        ⟨⟨[], [], []⟩, [], [outputUrl base dataset, inputUrl base dataset].foldl
          (fun m u => assocSet m u (1 : Int)) []⟩ = .ok (some s') := by
      rcases horder with rfl | rfl
      · exact fanIn_two_responses J _ _ rOut rIn _ _ hsOut hsIn (Or.inl ⟨hOut, hIn⟩)
      · exact fanIn_two_responses J _ _ rIn rOut _ _ hsIn hsOut (Or.inr ⟨hIn, hOut⟩)
    refine ⟨⟨List2Set s'.lists.ids, s'.idict,
      [outputUrl base dataset, inputUrl base dataset]⟩, ?_⟩
    unfold findReqMgrIds
    simp only [hvalid, Bool.not_true, Bool.false_eq_true, if_false, hs']
    rfl
  obtain ⟨res, hres⟩ := hret
  exact ⟨res, hres, findReqMgrIds_nodup_of_returned J base dataset arrivals res hres⟩

set_option maxRecDepth 100000

/-- C20 (witness): the dataset `/a/b/RAW`, with the input-side response
received first; each response holds its identifier twice. -/
theorem findReqMgrIds_no_duplicates_witness :
    ∃ res, findReqMgrIds goJSON sampleBase "/a/b/RAW"
        [⟨inputUrl sampleBase "/a/b/RAW", lookupBody sampleIdB, none⟩,
          ⟨outputUrl sampleBase "/a/b/RAW", lookupBody sampleIdA, none⟩] = .ok (some res) ∧
      res.ids.Nodup ∧ (strsGet res.idict "byinputdataset").Nodup ∧
      (strsGet res.idict "byoutputdataset").Nodup :=
  findReqMgrIds_no_duplicates goJSON sampleBase "/a/b/RAW"
    ⟨outputUrl sampleBase "/a/b/RAW", lookupBody sampleIdA, none⟩
    ⟨inputUrl sampleBase "/a/b/RAW", lookupBody sampleIdB, none⟩ _
    (by decide) rfl rfl rfl rfl (Or.inr rfl)

/-- C19 (evaluation at the failing input): for the dataset
`/a_outputdataset/b/RAW`, which passes the check, the identifier found in the
response to the input-side url (the response to the output-side url holds
none) is listed under `idict["byoutputdataset"]` and not under
`idict["byinputdataset"]`. -/
theorem findReqMgrIds_view_from_dataset_name :
    validDataset "/a_outputdataset/b/RAW" = true ∧
      findReqMgrIds goJSON sampleBase "/a_outputdataset/b/RAW"
          [⟨outputUrl sampleBase "/a_outputdataset/b/RAW", emptyBody, none⟩,
            ⟨inputUrl sampleBase "/a_outputdataset/b/RAW", lookupBody sampleIdB, none⟩] =
        .ok (some ⟨[sampleIdB],
          [("byinputdataset", []), ("byoutputdataset", [sampleIdB])],
          [outputUrl sampleBase "/a_outputdataset/b/RAW",
            inputUrl sampleBase "/a_outputdataset/b/RAW"]⟩) :=
  ⟨by decide, rfl⟩

/-- C18 (counterexample): for the dataset key `bad`, which fails the check,
`reqmgrConfigs` returns one record, not an empty sequence. -/
theorem reqmgrConfigs_invalid_key_one_record :
    validDataset "bad" = false ∧
      ∃ records, reqmgrConfigs goJSON (fun _ => "") [("dataset", .str "bad")] [] [] =
          .ok (some ⟨records, [], []⟩) ∧ records.length = 1 :=
  ⟨by decide, [emptySummary "bad"], rfl, rfl⟩

/-- C18 (amended): for a dataset key that fails the check, `reqmgrConfigs`
dispatches no fetch in either round and returns exactly one record, the
summary record with the key, an empty identifier list, an empty `idict` and
empty url lists. -/
theorem reqmgrConfigs_invalid_key (J : JSONLib) (fmtOther : GoVal → String) (spec : Fields)
    (dataset : String) (arrivals : List ResponseType)
    (hkey : spec.get "dataset" = .str dataset) (hbad : validDataset dataset = false) :
    reqmgrConfigs J fmtOther spec arrivals [] =
      .ok (some ⟨[emptySummary dataset], [], []⟩) := by
  unfold reqmgrConfigs findReqMgrIds
  simp only [hkey, GoVal.asString, hbad, bind, Except.bind, pure, Except.pure]
  rfl

/-- C18 (witness): the dataset key `no-slashes`. -/
theorem reqmgrConfigs_invalid_key_witness :
    reqmgrConfigs goJSON (fun _ => "") [("dataset", .str "no-slashes")] [] [] =
      .ok (some ⟨[emptySummary "no-slashes"], [], []⟩) :=
  reqmgrConfigs_invalid_key goJSON (fun _ => "") [("dataset", .str "no-slashes")]
    "no-slashes" [] rfl (by decide)

/-! ## C26: a newline after the last segment -/

/-- The loop of `loadRucioData` over a payload cut in two. -/
theorem rucioLoop_append (J : JSONLib) (K : ErrorKinds) (api : String)
    (a b : List Char) (out : List DASRecord) (row : List Char) :
    rucioLoop J K api (a ++ b) out row =
      rucioLoop J K api b (rucioLoop J K api a out row).1 (rucioLoop J K api a out row).2 := by
  induction a generalizing out row with
  | nil => rfl
  | cons c a ih =>
    show rucioLoop J K api (c :: (a ++ b)) out row = _
    rw [rucioLoop, rucioLoop]
    split
    · exact ih _ _
    · exact ih _ _

/-- After a payload whose last byte is not a newline, the row being read is
not empty. -/
theorem rucioLoop_row_ne_nil (J : JSONLib) (K : ErrorKinds) (api : String)
    (x : List Char) (c : Char) (out : List DASRecord) (row : List Char) (hc : c ≠ '\n') :
    (rucioLoop J K api (x ++ [c]) out row).2 ≠ [] := by
  rw [rucioLoop_append]
  simp [rucioLoop, hc]

/-- C26: for every payload `x` that is not empty and does not end with a
newline byte, `loadRucioData` returns on `x` followed by a newline the same
records as on `x`. -/
theorem loadRucioData_trailing_newline (J : JSONLib) (K : ErrorKinds) (api : String)
    (x : List Char) (hne : x ≠ []) (hlast : x.getLast hne ≠ '\n') :
    loadRucioData J K api (x ++ ['\n']) = loadRucioData J K api x := by
  have hrow : (rucioLoop J K api x [] []).2 ≠ [] := by
    have hx := List.dropLast_append_getLast hne
    rw [← hx]
    exact rucioLoop_row_ne_nil J K api _ _ _ _ hlast
  have hlen : (rucioLoop J K api x [] []).2.length > 0 := List.length_pos.mpr hrow
  unfold loadRucioData
  rw [rucioLoop_append]
  simp [rucioLoop, hlen]

/-- C26 (witness): the payload of two segments of the spec. -/
theorem loadRucioData_trailing_newline_witness :
    loadRucioData goJSON sampleKinds "rses"
        ("\x7b\"a\":1\x7d\n\x7b\"b\":2\x7d".toList ++ ['\n']) =
      loadRucioData goJSON sampleKinds "rses" "\x7b\"a\":1\x7d\n\x7b\"b\":2\x7d".toList :=
  loadRucioData_trailing_newline goJSON sampleKinds "rses"
    "\x7b\"a\":1\x7d\n\x7b\"b\":2\x7d".toList (by decide) (by decide)

/-! ## C28: `List2Set` -/

/-- The loop of `List2Set` from any list built so far. -/
theorem List2Set_foldl (l out : List String) :
    l.foldl (fun out key => if !InList key out then out ++ [key] else out) out =
      out ++ (firstOccurrences l).filter (fun x => !InList x out) := by
  induction l generalizing out with
  | nil => simp [firstOccurrences]
  | cons a l ih =>
    rw [List.foldl_cons, ih, firstOccurrences]
    by_cases ha : a ∈ out
    · have hin : InList a out = true := (InList_iff a out).mpr ha
      simp only [hin, Bool.not_true, Bool.false_eq_true, if_false, List.filter_cons,
        List.filter_filter]
      congr 1
      apply List.filter_congr
      intro x _
      by_cases hx : InList x out = true
      · simp [hx]
      · have hxa : x ≠ a := by
          intro h
          exact hx (h ▸ hin)
        simp [hx, hxa]
    · have hin : InList a out = false := by
        cases h : InList a out
        · rfl
        · exact absurd ((InList_iff a out).mp h) ha
      simp only [hin, Bool.not_false, if_true, List.filter_cons, List.filter_filter,
        List.append_assoc, List.singleton_append]
      congr 2
      apply List.filter_congr
      intro x _
      have h1 : InList x (out ++ [a]) = true ↔ (InList x out = true ∨ x = a) := by
        rw [InList_iff, InList_iff]
        simp
      by_cases hx : InList x out = true
      · have := h1.mpr (Or.inl hx)
        simp [hx, this]
      · by_cases hxa : x = a
        · subst hxa
          have := h1.mpr (Or.inr rfl)
          simp [this]
        · have : ¬ InList x (out ++ [a]) = true := by
            intro h
            cases h1.mp h with
            | inl h => exact hx h
            | inr h => exact hxa h
          simp [hx, hxa, this]

/-- The function `List2Set` lists the first occurrences. -/
theorem List2Set_eq_firstOccurrences (l : List String) : List2Set l = firstOccurrences l := by
  unfold List2Set
  rw [List2Set_foldl]
  simp [InList]

theorem mem_firstOccurrences (l : List String) (x : String) :
    x ∈ firstOccurrences l ↔ x ∈ l := by
  induction l with
  | nil => simp [firstOccurrences]
  | cons a l ih =>
    simp only [firstOccurrences, List.mem_cons, List.mem_filter, ih]
    by_cases h : x = a
    · simp [h]
    · simp [h]

/-- A list without duplicates is the list of its first occurrences. -/
theorem firstOccurrences_of_nodup (l : List String) (h : l.Nodup) : firstOccurrences l = l := by
  induction l with
  | nil => rfl
  | cons a l ih =>
    rw [List.nodup_cons] at h
    rw [firstOccurrences, ih h.2]
    congr 1
    rw [List.filter_eq_self]
    intro x hx
    have : x ≠ a := fun e => h.1 (e ▸ hx)
    simp [this]

/-- Filtering keeps the order of the first occurrences of the elements it
keeps. -/
theorem indexOf_filter_lt (p : String → Bool) (L : List String) (x y : String)
    (hx : p x = true) (hy : p y = true) (hxL : x ∈ L) (hyL : y ∈ L) :
    ((L.filter p).indexOf x < (L.filter p).indexOf y ↔ L.indexOf x < L.indexOf y) := by
  induction L with
  | nil => simp at hxL
  | cons b L ih =>
    by_cases hb : p b = true
    · rw [List.filter_cons_of_pos hb]
      by_cases hxb : b = x
      · subst hxb
        by_cases hyb : b = y
        · subst hyb; simp
        · simp [List.indexOf_cons_ne _ hyb]
      · by_cases hyb : b = y
        · subst hyb
          simp [List.indexOf_cons_ne _ hxb]
        · have hx1 : x ∈ L := by
            cases List.mem_cons.mp hxL with
            | inl h => exact absurd h.symm hxb
            | inr h => exact h
          have hy1 : y ∈ L := by
            cases List.mem_cons.mp hyL with
            | inl h => exact absurd h.symm hyb
            | inr h => exact h
          rw [List.indexOf_cons_ne _ hxb, List.indexOf_cons_ne _ hyb,
            List.indexOf_cons_ne _ hxb, List.indexOf_cons_ne _ hyb]
          have := ih hx1 hy1
          omega
    · rw [List.filter_cons_of_neg hb]
      have hxb : b ≠ x := fun e => hb (e ▸ hx)
      have hyb : b ≠ y := fun e => hb (e ▸ hy)
      have hx1 : x ∈ L := by
        cases List.mem_cons.mp hxL with
        | inl h => exact absurd h.symm hxb
        | inr h => exact h
      have hy1 : y ∈ L := by
        cases List.mem_cons.mp hyL with
        | inl h => exact absurd h.symm hyb
        | inr h => exact h
      rw [List.indexOf_cons_ne _ hxb, List.indexOf_cons_ne _ hyb]
      have := ih hx1 hy1
      omega

/-- The first occurrences stand in the order in which the elements first
occur in the list. -/
theorem indexOf_firstOccurrences (l : List String) (x y : String) (hx : x ∈ l) (hy : y ∈ l) :
    ((firstOccurrences l).indexOf x < (firstOccurrences l).indexOf y ↔
      l.indexOf x < l.indexOf y) := by
  induction l with
  | nil => simp at hx
  | cons a l ih =>
    rw [firstOccurrences]
    by_cases hxa : a = x
    · subst hxa
      by_cases hya : a = y
      · subst hya; simp
      · simp [List.indexOf_cons_ne _ hya]
    · by_cases hya : a = y
      · subst hya
        simp [List.indexOf_cons_ne _ hxa]
      · have hx1 : x ∈ l := by
          cases List.mem_cons.mp hx with
          | inl h => exact absurd h.symm hxa
          | inr h => exact h
        have hy1 : y ∈ l := by
          cases List.mem_cons.mp hy with
          | inl h => exact absurd h.symm hya
          | inr h => exact h
        rw [List.indexOf_cons_ne _ hxa, List.indexOf_cons_ne _ hya,
          List.indexOf_cons_ne _ hxa, List.indexOf_cons_ne _ hya]
        have h1 := indexOf_filter_lt (fun z => z != a) (firstOccurrences l) x y
          (by simpa using Ne.symm hxa) (by simpa using Ne.symm hya)
          ((mem_firstOccurrences l x).mpr hx1) ((mem_firstOccurrences l y).mpr hy1)
        have h2 := ih hx1 hy1
        omega

/-- C28: for every list, `List2Set` returns a list without duplicates, with
exactly the elements of the input, in the order of their first occurrence
(it is the list of the first occurrences, and one element stands before
another in the result exactly when it first occurs before the other in the
input), and applying `List2Set` to its own result changes nothing. -/
theorem List2Set_set_of_first_occurrences (l : List String) :
    (List2Set l).Nodup ∧
    (∀ x, x ∈ List2Set l ↔ x ∈ l) ∧
    List2Set l = firstOccurrences l ∧
    (∀ x y, x ∈ l → y ∈ l →
      ((List2Set l).indexOf x < (List2Set l).indexOf y ↔ l.indexOf x < l.indexOf y)) ∧
    List2Set (List2Set l) = List2Set l := by
  refine ⟨List2Set_nodup l, ?_, List2Set_eq_firstOccurrences l, ?_, ?_⟩
  · intro x
    rw [List2Set_eq_firstOccurrences]
    exact mem_firstOccurrences l x
  · intro x y hx hy
    rw [List2Set_eq_firstOccurrences]
    exact indexOf_firstOccurrences l x y hx hy
  · rw [List2Set_eq_firstOccurrences (List2Set l)]
    exact firstOccurrences_of_nodup _ (List2Set_nodup l)

/-! ## C29: `EqualLists` -/

theorem equalListsCount_spec (list2 : List String) (l : List String) (n : Nat) :
    equalListsCount list2 l n =
      if ∀ x ∈ l, x ∈ list2 then some (n + l.length) else none := by
  induction l generalizing n with
  | nil => simp [equalListsCount]
  | cons k l ih =>
    rw [equalListsCount]
    by_cases hk : k ∈ list2
    · rw [if_pos ((InList_iff k list2).mpr hk), ih]
      by_cases hall : ∀ x ∈ l, x ∈ list2
      · have : ∀ x ∈ k :: l, x ∈ list2 := by
          intro x hx
          cases List.mem_cons.mp hx with
          | inl h => exact h ▸ hk
          | inr h => exact hall x h
        rw [if_pos hall, if_pos this, List.length_cons]
        congr 1
        omega
      · have : ¬ ∀ x ∈ k :: l, x ∈ list2 := fun h =>
          hall (fun x hx => h x (List.mem_cons_of_mem k hx))
        rw [if_neg hall, if_neg this]
    · have h1 : ¬ InList k list2 = true := fun h => hk ((InList_iff k list2).mp h)
      have : ¬ ∀ x ∈ k :: l, x ∈ list2 := fun h => hk (h k (List.mem_cons_self k l))
      rw [if_neg h1, if_neg this]

/-- What `EqualLists` computes: every element of the first list occurs in the
second, and the two lists have the same length. -/
theorem EqualLists_iff (list1 list2 : List String) :
    EqualLists list1 list2 = true ↔
      (∀ x ∈ list1, x ∈ list2) ∧ list2.length = list1.length := by
  unfold EqualLists
  rw [equalListsCount_spec]
  by_cases hall : ∀ x ∈ list1, x ∈ list2
  · rw [if_pos hall]
    simp only [Nat.zero_add]
    constructor
    · intro h
      split at h
      · rename_i hl
        exact ⟨hall, hl⟩
      · cases h
    · intro h
      rw [if_pos h.2]
  · rw [if_neg hall]
    simp [hall]

/-- On lists without duplicates `EqualLists` is the comparison of the sets of
elements. -/
theorem EqualLists_of_nodup (list1 list2 : List String) (h1 : list1.Nodup) (h2 : list2.Nodup) :
    EqualLists list1 list2 = true ↔ ∀ x, x ∈ list1 ↔ x ∈ list2 := by
  rw [EqualLists_iff]
  constructor
  · intro ⟨hsub, hlen⟩ x
    refine ⟨hsub x, ?_⟩
    have hs : list1 ⊆ list2 := hsub
    have hperm := (List.subperm_of_subset h1 hs).perm_of_length_le (Nat.le_of_eq hlen)
    exact fun hx => hperm.mem_iff.mpr hx
  · intro h
    refine ⟨fun x hx => (h x).mp hx, ?_⟩
    have hperm : list1.Perm list2 := (List.perm_ext_iff_of_nodup h1 h2).mpr h
    exact hperm.length_eq.symm

/-- C29: `EqualLists` answers `true` on the lists `[a, a]` and `[a, b]`, of
which the second holds an element the first has not, and `false` on the same
two lists in the other order; it answers `false` on `[a]` and `[a, a]`, which
hold the same elements. -/
theorem EqualLists_duplicates :
    EqualLists ["a", "a"] ["a", "b"] = true ∧ "b" ∈ ["a", "b"] ∧ "b" ∉ ["a", "a"] ∧
    EqualLists ["a", "b"] ["a", "a"] = false ∧
    EqualLists ["a"] ["a", "a"] = false ∧ (∀ x, x ∈ ["a"] ↔ x ∈ ["a", "a"]) := by
  refine ⟨by decide, by decide, by decide, by decide, by decide, ?_⟩
  intro x
  simp

/-! ## C22: the fetches of the first round -/

theorem String.append_left_cancel_data (a b c : String) (h : a ++ b = a ++ c) : b = c := by
  have := congrArg String.data h
  simp only [String.data_append, List.append_cancel_left_eq] at this
  exact String.ext this

theorem String.append_right_cancel_data (a b c : String) (h : a ++ c = b ++ c) : a = b := by
  have := congrArg String.data h
  simp only [String.data_append, List.append_cancel_right_eq] at this
  exact String.ext this

/-- The two urls of the first round differ. -/
theorem outputUrl_ne_inputUrl (base dataset : String) :
    outputUrl base dataset ≠ inputUrl base dataset := by
  intro h
  unfold outputUrl inputUrl at h
  have h1 := String.append_right_cancel_data _ _ _ h
  have h2 := String.append_left_cancel_data _ _ _ h1
  revert h2
  decide

/-- C22: for every dataset key `K` that passes the check, `findReqMgrIds`
calls the fetcher exactly twice, for the url with `outputdataset=K` and the
url with `inputdataset=K`, which differ; its loop starts with a map of
pending urls that holds exactly these two; and the urls it reports as
dispatched when it returns are these two. -/
theorem findReqMgrIds_round_one (J : JSONLib) (base K : String)
    (arrivals : List ResponseType) (hvalid : validDataset K = true) :
    findDispatched base K =
        [base ++ "/reqmgr2/data/request?outputdataset=" ++ K,
          base ++ "/reqmgr2/data/request?inputdataset=" ++ K] ∧
      base ++ "/reqmgr2/data/request?outputdataset=" ++ K ≠
        base ++ "/reqmgr2/data/request?inputdataset=" ++ K ∧
      findReqMgrIds J base K arrivals =
        (match fanIn (findRecv J) (fun s => s.umap.length) arrivals
            ⟨⟨[], [], []⟩, [],
              [(base ++ "/reqmgr2/data/request?outputdataset=" ++ K, 1),
                (base ++ "/reqmgr2/data/request?inputdataset=" ++ K, 1)]⟩ with
          | .error p => .error p
          | .ok none => .ok none
          | .ok (some s) => .ok (some ⟨List2Set s.lists.ids, s.idict, findDispatched base K⟩)) := by
  have hne := outputUrl_ne_inputUrl base K
  have hd : findDispatched base K = [outputUrl base K, inputUrl base K] := by
    simp [findDispatched, hvalid]
  refine ⟨hd, hne, ?_⟩
  have hmap : [outputUrl base K, inputUrl base K].foldl
      (fun m u => assocSet m u (1 : Int)) [] =
      [(outputUrl base K, 1), (inputUrl base K, 1)] := by
    simp [assocSet, hne]
  unfold findReqMgrIds
  simp only [hvalid, Bool.not_true, Bool.false_eq_true, if_false, hmap, hd]
  rfl

/-- C22 (witness): the dataset key `/a/b/RAW`, with the two responses of the
sample. -/
theorem findReqMgrIds_round_one_witness :
    findDispatched sampleBase "/a/b/RAW" =
        [sampleBase ++ "/reqmgr2/data/request?outputdataset=" ++ "/a/b/RAW",
          sampleBase ++ "/reqmgr2/data/request?inputdataset=" ++ "/a/b/RAW"] ∧
      sampleBase ++ "/reqmgr2/data/request?outputdataset=" ++ "/a/b/RAW" ≠
        sampleBase ++ "/reqmgr2/data/request?inputdataset=" ++ "/a/b/RAW" ∧
      findReqMgrIds goJSON sampleBase "/a/b/RAW" [] =
        (match fanIn (findRecv goJSON) (fun s => s.umap.length) []
            ⟨⟨[], [], []⟩, [],
              [(sampleBase ++ "/reqmgr2/data/request?outputdataset=" ++ "/a/b/RAW", 1),
                (sampleBase ++ "/reqmgr2/data/request?inputdataset=" ++ "/a/b/RAW", 1)]⟩ with
          | .error p => .error p
          | .ok none => .ok none
          | .ok (some s) =>
            .ok (some ⟨List2Set s.lists.ids, s.idict, findDispatched sampleBase "/a/b/RAW"⟩)) :=
  findReqMgrIds_round_one goJSON sampleBase "/a/b/RAW" [] (by decide)

/-! ## C23: the partition of the identifiers -/

/-- The loop of `partitionIds` from any pair of lists built so far. -/
theorem partitionIds_foldl (base : String) (ids : List String) (st : List String × List String) :
    ids.foldl (fun (st : List String × List String) (v : String) =>
        if v.utf8ByteSize = 32 then (st.1 ++ [configFileUrl base v], st.2)
        else (st.1, st.2 ++ [lookupUrl base v])) st =
      (st.1 ++ (ids.filter (fun v => v.utf8ByteSize = 32)).map (configFileUrl base),
        st.2 ++ (ids.filter (fun v => v.utf8ByteSize ≠ 32)).map (lookupUrl base)) := by
  induction ids generalizing st with
  | nil => simp
  | cons v ids ih =>
    rw [List.foldl_cons, ih]
    by_cases h : v.utf8ByteSize = 32
    · simp [h]
    · simp [h]

/-- The lists `urls` and `rurls` of `reqmgrConfigs`: the configuration urls of
the identifiers of length 32 and the lookup urls of the others, both in the
order of the identifiers. -/
theorem partitionIds_eq (base : String) (ids : List String) :
    partitionIds base ids =
      ((ids.filter (fun v => v.utf8ByteSize = 32)).map (configFileUrl base),
        (ids.filter (fun v => v.utf8ByteSize ≠ 32)).map (lookupUrl base)) := by
  unfold partitionIds
  rw [partitionIds_foldl]
  simp

theorem lookupUrl_injective (base a b : String) (h : lookupUrl base a = lookupUrl base b) :
    a = b :=
  String.append_left_cancel_data _ _ _ h

/-- What `reqmgrConfigs` reports as dispatched in its second round are the
lookup urls of the partition of the identifiers of the first round. -/
theorem reqmgrConfigs_round2 (J : JSONLib) (fmtOther : GoVal → String) (spec : Fields)
    (dataset : String) (arrivals1 arrivals2 : List ResponseType) (found : FindResult)
    (res : ConfigsResult) (hkey : spec.get "dataset" = .str dataset)
    (hfound : findReqMgrIds J "https://cmsweb.cern.ch:8443" dataset arrivals1 =
      .ok (some found))
    (hres : reqmgrConfigs J fmtOther spec arrivals1 arrivals2 = .ok (some res)) :
    res.round2 = (partitionIds "https://cmsweb.cern.ch:8443" found.ids).2 := by
  unfold reqmgrConfigs at hres
  simp only [hkey, GoVal.asString, hfound, bind, Except.bind, pure, Except.pure] at hres
  split at hres
  · cases hres
  · split at hres
    · cases hres
    · cases hres
      rfl

/-- C23: in the partition `reqmgrConfigs` makes of a list of identifiers,
every identifier of length 32 is resolved directly to its url
`base/couchdb/reqmgr_config_cache/<id>/configFile` and its lookup url is not
among the urls of the second round; the urls of the second round are the
lookup urls of the identifiers of another length, each of which is among
them; and the urls `reqmgrConfigs` dispatches in its second round are those
of this partition of the identifiers of the first round. -/
theorem reqmgrConfigs_partition (base : String) (ids : List String) :
    (∀ id ∈ ids, id.utf8ByteSize = 32 →
      base ++ "/couchdb/reqmgr_config_cache/" ++ id ++ "/configFile" ∈
          (partitionIds base ids).1 ∧
        base ++ "/couchdb/reqmgr_config_cache/" ++ id ∉ (partitionIds base ids).2) ∧
    (∀ id ∈ ids, id.utf8ByteSize ≠ 32 →
      base ++ "/couchdb/reqmgr_config_cache/" ++ id ∈ (partitionIds base ids).2) ∧
    (∀ u ∈ (partitionIds base ids).2, ∃ id ∈ ids, id.utf8ByteSize ≠ 32 ∧
      u = base ++ "/couchdb/reqmgr_config_cache/" ++ id) ∧
    (∀ (J : JSONLib) (fmtOther : GoVal → String) (spec : Fields) (dataset : String)
      (arrivals1 arrivals2 : List ResponseType) (found : FindResult) (res : ConfigsResult),
      spec.get "dataset" = .str dataset →
      findReqMgrIds J "https://cmsweb.cern.ch:8443" dataset arrivals1 = .ok (some found) →
      reqmgrConfigs J fmtOther spec arrivals1 arrivals2 = .ok (some res) →
      res.round2 = (partitionIds "https://cmsweb.cern.ch:8443" found.ids).2) := by
  rw [partitionIds_eq]
  refine ⟨?_, ?_, ?_, ?_⟩
  · intro id hid h32
    refine ⟨?_, ?_⟩
    · exact List.mem_map.mpr ⟨id, List.mem_filter.mpr ⟨hid, by simpa using h32⟩, rfl⟩
    · intro hmem
      obtain ⟨id', hid', he⟩ := List.mem_map.mp hmem
      have := lookupUrl_injective base id' id he
      subst this
      have := (List.mem_filter.mp hid').2
      simp at this
      exact this h32
  · intro id hid h32
    exact List.mem_map.mpr ⟨id, List.mem_filter.mpr ⟨hid, by simpa using h32⟩, rfl⟩
  · intro u hu
    obtain ⟨id, hid, he⟩ := List.mem_map.mp hu
    have hf := List.mem_filter.mp hid
    exact ⟨id, hf.1, by simpa using hf.2, he.symm⟩
  · intro J fmtOther spec dataset arrivals1 arrivals2 found res hkey hfound hres
    exact reqmgrConfigs_round2 J fmtOther spec dataset arrivals1 arrivals2 found res hkey
      hfound hres

/-! ## C21: the summary record -/

theorem addId_sized (view : String) (st : IdLists) (val : String) (h : st.Sized) :
    (addId view st val).Sized := by
  obtain ⟨hi, ho, hd⟩ := h
  unfold addId
  split
  · rename_i h32
    have hin : ∀ l : List String, ¬ (!InList val l) = true → val ∈ l := by
      intro l hl
      apply (InList_iff val l).mp
      simpa using hl
    dsimp only
    repeat' split
    all_goals
      refine ⟨?_, ?_, ?_⟩ <;> intro x hx <;> try dsimp only at hx ⊢
    all_goals try simp only [List.mem_append, List.mem_singleton] at hx ⊢
    all_goals
      first
        | exact hi x hx
        | exact ho x hx
        | exact hd x hx
        | exact Or.inl (hi x hx)
        | exact Or.inl (ho x hx)
        | (rcases hx with hx | hx
           · first | exact hi x hx | exact ho x hx | exact hd x hx
                   | exact Or.inl (hi x hx) | exact Or.inl (ho x hx)
           · first | exact Or.inr hx | (subst hx; exact h32)
                   | (subst hx; apply hin; assumption))
  · exact ⟨hi, ho, hd⟩

/-- A property of the three lists that `addId` keeps is kept by whatever
`findReqMgrIds` does with a response. -/
theorem collectIds_invariant (P : IdLists → Prop)
    (hP : ∀ view st val, P st → P (addId view st val))
    (J : JSONLib) (st st' : IdLists) (r : ResponseType)
    (h : collectIds J st r = .ok st') (hs : P st) : P st' := by
  have hdata : ∀ view (data : Fields) (st : IdLists), P st → P (scanData view st data) := by
    intro view data
    unfold scanData
    induction data with
    | nil => intro st h; exact h
    | cons kv data ih =>
      intro st h
      rw [List.foldl_cons]
      apply ih
      split
      · split
        · exact hP view st _ h
        · exact h
      · exact h
  have hrow : ∀ view (row : Fields) (st st' : IdLists),
      scanRow view st row = .ok st' → P st → P st' := by
    intro view row st st' h hs
    unfold scanRow at h
    refine foldlM_invariant P _ ?_ row st st' h hs
    intro s kd s' hstep hPs
    rcases hm : kd.2.asMap with p | data
    · simp [hm, bind, Except.bind] at hstep
    · simp only [hm, bind, Except.bind, pure, Except.pure, Except.ok.injEq] at hstep
      subst hstep
      exact hdata view data s hPs
  have hrows : ∀ view (rows : List GoVal) (st st' : IdLists),
      scanRows view st rows = .ok st' → P st → P st' := by
    intro view rows st st' h hs
    unfold scanRows at h
    refine foldlM_invariant P _ ?_ rows st st' h hs
    intro s rec s' hstep hPs
    rcases hm : rec.asMap with p | row
    · simp [hm, bind, Except.bind] at hstep
    · simp only [hm, bind, Except.bind] at hstep
      exact hrow view row s s' hstep hPs
  unfold collectIds at h
  rcases hj : J.unmarshalRecord r.Data with ⟨data, _ | e⟩
  · rw [hj] at h
    simp only at h
    split at h
    · rcases hl : (data.get "result").asList with p | rows
      · simp [hl, bind, Except.bind] at h
      · simp only [hl, bind, Except.bind] at h
        exact hrows _ rows st st' h hs
    · cases h
      exact hs
  · rw [hj] at h
    cases h
    exact hs

theorem findRecv_sized (J : JSONLib) (s s' : FindState) (r : ResponseType)
    (h : findRecv J s r = .ok s') (hs : s.Sized) : s'.Sized := by
  unfold findRecv at h
  rcases hc : collectIds J s.lists r with p | lists
  · simp [hc, bind, Except.bind] at h
  · simp only [hc, bind, Except.bind, pure, Except.pure, Except.ok.injEq] at h
    subst h
    have hl := collectIds_invariant IdLists.Sized addId_sized J s.lists lists r hc hs.1
    refine ⟨hl, ?_, ?_⟩
    · simp only
      rw [strsGet_assocSet_other _ _ _ _ (by decide), strsGet_assocSet_same]
      exact hl.1
    · simp only
      rw [strsGet_assocSet_same]
      exact hl.2.1

theorem fanIn_findRecv_sized (J : JSONLib) (arrivals : List ResponseType)
    (s s' : FindState)
    (h : fanIn (findRecv J) (fun s => s.umap.length) arrivals s = .ok (some s'))
    (hs : s.Sized) : s'.Sized := by
  induction arrivals generalizing s with
  | nil =>
    simp only [fanIn, pure, Except.pure, Except.ok.injEq] at h
    split at h
    · cases h
      exact hs
    · cases h
  | cons r arrivals ih =>
    rw [fanIn] at h
    rcases hr : findRecv J s r with p | s₁
    · simp [hr, bind, Except.bind] at h
    · simp only [hr, bind, Except.bind] at h
      exact ih s₁ h (findRecv_sized J s s₁ r hr hs)

/-- Whatever arrives, in whatever order: every identifier that `findReqMgrIds`
returns has 32 bytes, and the identifiers listed in `idict` are among the
identifiers returned. -/
theorem findReqMgrIds_sized_of_returned (J : JSONLib) (base dataset : String)
    (arrivals : List ResponseType) (res : FindResult)
    (h : findReqMgrIds J base dataset arrivals = .ok (some res)) :
    (∀ x ∈ res.ids, x.utf8ByteSize = 32) ∧
      (∀ x ∈ strsGet res.idict "byinputdataset", x ∈ res.ids) ∧
      (∀ x ∈ strsGet res.idict "byoutputdataset", x ∈ res.ids) := by
  unfold findReqMgrIds at h
  split at h
  · simp only [pure, Except.pure, Except.ok.injEq, Option.some.injEq] at h
    subst h
    simp [strsGet]
  · dsimp only at h
    split at h
    · cases h
    · cases h
    · rename_i s hs
      simp only [pure, Except.pure, Except.ok.injEq, Option.some.injEq] at h
      subst h
      have hinit : FindState.Sized ⟨⟨[], [], []⟩, [],
          [outputUrl base dataset, inputUrl base dataset].foldl
            (fun m u => assocSet m u (1 : Int)) []⟩ := by
        refine ⟨⟨?_, ?_, ?_⟩, ?_, ?_⟩ <;> intro x hx <;> simp [strsGet] at hx
      have := fanIn_findRecv_sized J arrivals _ s hs hinit
      have hmem : ∀ x, x ∈ List2Set s.lists.ids ↔ x ∈ s.lists.ids := by
        intro x
        rw [List2Set_eq_firstOccurrences]
        exact mem_firstOccurrences _ x
      refine ⟨?_, ?_, ?_⟩
      · intro x hx
        exact this.1.2.2 x ((hmem x).mp hx)
      · intro x hx
        exact (hmem x).mpr (this.2.1 x hx)
      · intro x hx
        exact (hmem x).mpr (this.2.2 x hx)

theorem isPrefixOf_iff_append (a l : List Char) : a.isPrefixOf l = true ↔ ∃ t, l = a ++ t := by
  induction a generalizing l with
  | nil => simp
  | cons x a ih =>
    cases l with
    | nil => simp [List.isPrefixOf]
    | cons y l =>
      simp only [List.isPrefixOf, Bool.and_eq_true, beq_iff_eq, ih, List.cons_append,
        List.cons.injEq]
      constructor
      · rintro ⟨rfl, t, rfl⟩
        exact ⟨t, rfl, rfl⟩
      · rintro ⟨t, rfl, rfl⟩
        exact ⟨rfl, t, rfl⟩

/-- The test `strings.Contains`: the text holds the piece somewhere. -/
theorem hasSubstring_iff (a l : List Char) :
    hasSubstring a l = true ↔ ∃ pre post, l = pre ++ a ++ post := by
  induction l with
  | nil =>
    simp only [hasSubstring, List.isEmpty_iff]
    constructor
    · rintro rfl
      exact ⟨[], [], rfl⟩
    · rintro ⟨pre, post, h⟩
      have := congrArg List.length h
      simp only [List.length_nil, List.length_append] at this
      exact List.length_eq_zero.mp (by omega)
  | cons c cs ih =>
    simp only [hasSubstring, Bool.or_eq_true, isPrefixOf_iff_append, ih]
    constructor
    · rintro (⟨t, h⟩ | ⟨pre, post, h⟩)
      · exact ⟨[], t, by simpa using h⟩
      · exact ⟨c :: pre, post, by simp [h]⟩
    · rintro ⟨pre, post, h⟩
      cases pre with
      | nil => exact Or.inl ⟨post, by simpa using h⟩
      | cons x pre =>
        simp only [List.cons_append, List.cons.injEq] at h
        exact Or.inr ⟨pre, post, h.2⟩

/-- A piece without the character `c` that lies in a text lies before or
after any `c` of the text. -/
theorem piece_of_separated (a X Y pre post : List Char) (c : Char) (hc : c ∉ a)
    (h : X ++ c :: Y = pre ++ a ++ post) :
    (∃ p q, X = p ++ a ++ q) ∨ (∃ p q, Y = p ++ a ++ q) := by
  rcases List.append_eq_append_iff.mp h with ⟨a', h1, h2⟩ | ⟨c', h1, h2⟩
  · -- pre ++ a = X ++ a', c :: Y = a' ++ post
    cases a' with
    | nil =>
      left
      exact ⟨pre, [], by simp at h1; simp [h1]⟩
    | cons x a'' =>
      simp only [List.cons_append, List.cons.injEq] at h2
      obtain ⟨rfl, hY⟩ := h2
      rcases List.append_eq_append_iff.mp h1 with ⟨d, h3, h4⟩ | ⟨d, h3, h4⟩
      · -- X = pre ++ d, a = d ++ c :: a''
        exfalso
        apply hc
        rw [h4]
        simp
      · -- pre = X ++ d, c :: a'' = d ++ a
        cases d with
        | nil =>
          exfalso
          apply hc
          simp only [List.nil_append] at h4
          rw [← h4]
          simp
        | cons y d' =>
          simp only [List.cons_append, List.cons.injEq] at h4
          right
          exact ⟨d', post, by rw [hY, h4.2]⟩
  · left
    exact ⟨pre, c', by rw [h1]⟩

theorem utf8Len_eq_zero (l : List Char) (h : String.utf8Len l = 0) : l = [] := by
  cases l with
  | nil => rfl
  | cons c l =>
    rw [String.utf8Len_cons] at h
    have := Char.utf8Size_pos c
    omega

theorem utf8Len_piece_le (a l pre post : List Char) (h : l = pre ++ a ++ post) :
    String.utf8Len a ≤ String.utf8Len l := by
  rw [h, String.utf8Len_append, String.utf8Len_append]
  omega

theorem utf8ByteSize_eq_utf8Len (s : String) : s.utf8ByteSize = String.utf8Len s.data := by
  cases s
  exact String.utf8ByteSize_mk _

/-- An identifier of 32 bytes without a slash lies in the url of the
configuration file of another identifier of 32 bytes only when the two are
the same. -/
theorem configFileUrl_contains (a b : String) (ha : a.utf8ByteSize = 32)
    (hb : b.utf8ByteSize = 32) (hslash : '/' ∉ a.toList)
    (h : stringsContains (configFileUrl "https://cmsweb.cern.ch:8443" b) a = true) : a = b := by
  rw [utf8ByteSize_eq_utf8Len] at ha hb
  unfold stringsContains at h
  obtain ⟨pre, post, h⟩ := (hasSubstring_iff _ _).mp h
  have hurl : (configFileUrl "https://cmsweb.cern.ch:8443" b).toList =
      "https:".toList ++ '/' :: ([] ++ '/' :: ("cmsweb.cern.ch:8443".toList ++ '/' ::
        ("couchdb".toList ++ '/' :: ("reqmgr_config_cache".toList ++ '/' ::
          (b.toList ++ '/' :: "configFile".toList))))) := by
    simp [configFileUrl, String.toList]
  rw [hurl] at h
  have small : ∀ (seg p q : List Char), String.utf8Len seg < 32 → seg = p ++ a.toList ++ q →
      False := by
    intro seg p q hlt he
    have := utf8Len_piece_le a.toList seg p q he
    simp only [String.toList] at this
    omega
  rcases piece_of_separated _ _ _ _ _ _ hslash h with ⟨p, q, h1⟩ | ⟨p, q, h1⟩
  · exact (small _ p q (by decide) h1).elim
  rcases piece_of_separated _ _ _ _ _ _ hslash h1 with ⟨p, q, h2⟩ | ⟨p, q, h2⟩
  · exact (small _ p q (by decide) h2).elim
  rcases piece_of_separated _ _ _ _ _ _ hslash h2 with ⟨p, q, h3⟩ | ⟨p, q, h3⟩
  · exact (small _ p q (by decide) h3).elim
  rcases piece_of_separated _ _ _ _ _ _ hslash h3 with ⟨p, q, h4⟩ | ⟨p, q, h4⟩
  · exact (small _ p q (by decide) h4).elim
  rcases piece_of_separated _ _ _ _ _ _ hslash h4 with ⟨p, q, h5⟩ | ⟨p, q, h5⟩
  · exact (small _ p q (by decide) h5).elim
  rcases piece_of_separated _ _ _ _ _ _ hslash h5 with ⟨p, q, h6⟩ | ⟨p, q, h6⟩
  · have hlen := congrArg String.utf8Len h6
    simp only [String.utf8Len_append, String.toList] at hlen
    have hp : p = [] := utf8Len_eq_zero p (by omega)
    have hq : q = [] := utf8Len_eq_zero q (by omega)
    subst hp hq
    simp only [List.nil_append, List.append_nil, String.toList] at h6
    exact (String.ext h6).symm
  · exact (small _ p q (by decide) h6).elim

/-- The url of the configuration file of an identifier holds the identifier. -/
theorem configFileUrl_contains_self (base a : String) :
    stringsContains (configFileUrl base a) a = true := by
  unfold stringsContains
  apply (hasSubstring_iff _ _).mpr
  refine ⟨(base ++ "/couchdb/reqmgr_config_cache/").toList, "/configFile".toList, ?_⟩
  simp [configFileUrl, String.toList]

theorem filter_map_unique {α β : Type} (f : α → β) (p : β → Bool) (l : List α) (a : α)
    (hl : l.Nodup) (ha : a ∈ l) (hp : ∀ b ∈ l, (p (f b) = true ↔ b = a)) :
    (l.map f).filter p = [f a] := by
  induction l with
  | nil => simp at ha
  | cons b l ih =>
    rw [List.nodup_cons] at hl
    rw [List.map_cons]
    by_cases hba : b = a
    · subst hba
      rw [List.filter_cons_of_pos ((hp b (List.mem_cons_self b l)).mpr rfl)]
      congr 1
      rw [List.filter_eq_nil_iff]
      intro y hy
      obtain ⟨c, hc, rfl⟩ := List.mem_map.mp hy
      intro hpc
      have := (hp c (List.mem_cons_of_mem b hc)).mp hpc
      subst this
      exact hl.1 hc
    · have hnp : ¬ p (f b) = true := fun h => hba ((hp b (List.mem_cons_self b l)).mp h)
      rw [List.filter_cons_of_neg hnp]
      have ha' : a ∈ l := by
        cases List.mem_cons.mp ha with
        | inl h => exact absurd h.symm hba
        | inr h => exact h
      exact ih hl.2 ha' (fun c hc => hp c (List.mem_cons_of_mem b hc))

/-- The urls matched to a list of identifiers, when every identifier lies in
its own url only: one url for each identifier, in the order of the
identifiers. -/
theorem urlsOf_map (f : String → String) (ids uids : List String) (hl : ids.Nodup)
    (hsub : ∀ x ∈ uids, x ∈ ids)
    (hp : ∀ a ∈ uids, ∀ b ∈ ids, (stringsContains (f b) a = true ↔ b = a)) :
    urlsOf uids (ids.map f) = uids.map f := by
  unfold urlsOf
  induction uids with
  | nil => rfl
  | cons u uids ih =>
    rw [List.flatMap_cons, List.map_cons,
      ih (fun x hx => hsub x (List.mem_cons_of_mem u hx))
        (fun a ha => hp a (List.mem_cons_of_mem u ha)),
      filter_map_unique f (fun rurl => stringsContains rurl u) ids u hl
        (hsub u (List.mem_cons_self u uids)) (hp u (List.mem_cons_self u uids))]
    rfl

/-- When the first round has returned, and no identifier it returned holds a
slash, `reqmgrConfigs` dispatches nothing in its second round and returns the
summary record with one url for each identifier of the two lists of `idict`. -/
theorem reqmgrConfigs_summary_of_found (J : JSONLib) (fmtOther : GoVal → String) (spec : Fields)
    (dataset : String) (arrivals1 : List ResponseType) (found : FindResult)
    (hkey : spec.get "dataset" = .str dataset)
    (hfound : findReqMgrIds J "https://cmsweb.cern.ch:8443" dataset arrivals1 =
      .ok (some found))
    (hslash : ∀ id ∈ found.ids, '/' ∉ id.toList) :
    reqmgrConfigs J fmtOther spec arrivals1 [] =
      .ok (some ⟨[some [("dataset", .str dataset), ("name", .str "ReqMgr2"),
          ("ids", .strs found.ids), ("idict", .strsMap found.idict),
          ("urls", .record
            [("output", .strs ((strsGet found.idict "byoutputdataset").map
                (fun id => "https://cmsweb.cern.ch:8443" ++ "/couchdb/reqmgr_config_cache/" ++
                  id ++ "/configFile"))),
              ("input", .strs ((strsGet found.idict "byinputdataset").map
                (fun id => "https://cmsweb.cern.ch:8443" ++ "/couchdb/reqmgr_config_cache/" ++
                  id ++ "/configFile")))])]],
        found.dispatched, []⟩) := by
  obtain ⟨h32, hin, hout⟩ := findReqMgrIds_sized_of_returned J _ dataset arrivals1 found hfound
  obtain ⟨hnd, _, _⟩ := findReqMgrIds_nodup_of_returned J _ dataset arrivals1 found hfound
  have hf1 : found.ids.filter (fun v => v.utf8ByteSize = 32) = found.ids := by
    rw [List.filter_eq_self]
    intro x hx
    simpa using h32 x hx
  have hf2 : found.ids.filter (fun v => v.utf8ByteSize ≠ 32) = [] := by
    rw [List.filter_eq_nil_iff]
    intro x hx
    simpa using h32 x hx
  have hpart : partitionIds "https://cmsweb.cern.ch:8443" found.ids =
      (found.ids.map (configFileUrl "https://cmsweb.cern.ch:8443"), []) := by
    rw [partitionIds_eq, hf1, hf2]
    rfl
  have hsep : ∀ uids : List String, (∀ x ∈ uids, x ∈ found.ids) →
      ∀ a ∈ uids, ∀ b ∈ found.ids,
        (stringsContains (configFileUrl "https://cmsweb.cern.ch:8443" b) a = true ↔ b = a) := by
    intro uids hsub a ha b hb
    constructor
    · intro h
      exact (configFileUrl_contains a b (h32 a (hsub a ha)) (h32 b hb)
        (hslash a (hsub a ha)) h).symm
    · rintro rfl
      exact configFileUrl_contains_self _ b
  have huin := urlsOf_map (configFileUrl "https://cmsweb.cern.ch:8443") found.ids
    (strsGet found.idict "byinputdataset") hnd hin (hsep _ hin)
  have huout := urlsOf_map (configFileUrl "https://cmsweb.cern.ch:8443") found.ids
    (strsGet found.idict "byoutputdataset") hnd hout (hsep _ hout)
  unfold reqmgrConfigs
  simp only [hkey, GoVal.asString, hfound, hpart, bind, Except.bind, pure, Except.pure, fanIn,
    List.foldl_nil, List.length_nil, if_true, huin, huout]
  rfl

/-- Two responses of the expected shape, one for each url of the first round,
received in either order: `findReqMgrIds` returns. -/
theorem findReqMgrIds_returns (J : JSONLib) (base dataset : String)
    (rOut rIn : ResponseType) (arrivals : List ResponseType)
    (hvalid : validDataset dataset = true)
    (hOut : rOut.Url = outputUrl base dataset) (hIn : rIn.Url = inputUrl base dataset)
    (hsOut : responseShaped J rOut = true) (hsIn : responseShaped J rIn = true)
    (horder : arrivals = [rOut, rIn] ∨ arrivals = [rIn, rOut]) :
    ∃ res, findReqMgrIds J base dataset arrivals = .ok (some res) := by
  obtain ⟨s', hs'⟩ : ∃ s', fanIn (findRecv J) (fun s => s.umap.length) arrivals
      ⟨⟨[], [], []⟩, [], [outputUrl base dataset, inputUrl base dataset].foldl
        (fun m u => assocSet m u (1 : Int)) []⟩ = .ok (some s') := by
    rcases horder with rfl | rfl
    · exact fanIn_two_responses J _ _ rOut rIn _ _ hsOut hsIn (Or.inl ⟨hOut, hIn⟩)
    · exact fanIn_two_responses J _ _ rIn rOut _ _ hsIn hsOut (Or.inr ⟨hIn, hOut⟩)
  refine ⟨⟨List2Set s'.lists.ids, s'.idict,
    [outputUrl base dataset, inputUrl base dataset]⟩, ?_⟩
  unfold findReqMgrIds
  simp only [hvalid, Bool.not_true, Bool.false_eq_true, if_false, hs']
  rfl

/-- C21 (evaluation at the failing input): for the dataset key `/a/b/RAW`,
with a response to the output-side url that holds the identifiers
`overlapIdA` and `overlapIdB`, the list `urls.output` of the record of
`reqmgrConfigs` holds three urls for the two identifiers of
`idict["byoutputdataset"]`: the url of `overlapIdB` stands for `overlapIdA`
too, which lies in it. -/
theorem reqmgrConfigs_url_of_another_identifier :
    validDataset "/a/b/RAW" = true ∧
      reqmgrConfigs goJSON (fun _ => "") [("dataset", .str "/a/b/RAW")]
          [⟨outputUrl sampleBase "/a/b/RAW", overlapBody, none⟩,
            ⟨inputUrl sampleBase "/a/b/RAW", emptyBody, none⟩] [] =
        .ok (some ⟨[some [("dataset", .str "/a/b/RAW"), ("name", .str "ReqMgr2"),
            ("ids", .strs [overlapIdA, overlapIdB]),
            ("idict", .strsMap [("byinputdataset", []),
              ("byoutputdataset", [overlapIdA, overlapIdB])]),
            ("urls", .record
              [("output", .strs [configFileUrl sampleBase overlapIdA,
                  configFileUrl sampleBase overlapIdB, configFileUrl sampleBase overlapIdB]),
                ("input", .strs [])])]],
          [outputUrl sampleBase "/a/b/RAW", inputUrl sampleBase "/a/b/RAW"], []⟩) :=
  ⟨by decide, rfl⟩

/-- The record of C21 for identifiers without a slash: for a dataset key that
passes the check and two responses of the expected shape, one for each url of the first round, received in
either order, when no identifier the first round returns holds a slash:
`reqmgrConfigs` dispatches nothing in its second round and returns exactly
one record; its `dataset` field is the key, its `ids` and `idict` fields are
the identifier list and the classification index of the first round, and its
`urls.input` and `urls.output` lists hold, for each identifier of
`idict["byinputdataset"]` and `idict["byoutputdataset"]` in order, the one url
`base/couchdb/reqmgr_config_cache/<id>/configFile`. -/
theorem reqmgrConfigs_summary (J : JSONLib) (fmtOther : GoVal → String) (spec : Fields)
    (dataset : String) (rOut rIn : ResponseType) (arrivals : List ResponseType)
    (hkey : spec.get "dataset" = .str dataset) (hvalid : validDataset dataset = true)
    (hOut : rOut.Url = outputUrl "https://cmsweb.cern.ch:8443" dataset)
    (hIn : rIn.Url = inputUrl "https://cmsweb.cern.ch:8443" dataset)
    (hsOut : responseShaped J rOut = true) (hsIn : responseShaped J rIn = true)
    (horder : arrivals = [rOut, rIn] ∨ arrivals = [rIn, rOut])
    (hslash : ∀ found, findReqMgrIds J "https://cmsweb.cern.ch:8443" dataset arrivals =
      .ok (some found) → ∀ id ∈ found.ids, '/' ∉ id.toList) :
    ∃ found, findReqMgrIds J "https://cmsweb.cern.ch:8443" dataset arrivals =
        .ok (some found) ∧
      reqmgrConfigs J fmtOther spec arrivals [] =
        .ok (some ⟨[some [("dataset", .str dataset), ("name", .str "ReqMgr2"),
            ("ids", .strs found.ids), ("idict", .strsMap found.idict),
            ("urls", .record
              [("output", .strs ((strsGet found.idict "byoutputdataset").map
                  (fun id => "https://cmsweb.cern.ch:8443" ++
                    "/couchdb/reqmgr_config_cache/" ++ id ++ "/configFile"))),
                ("input", .strs ((strsGet found.idict "byinputdataset").map
                  (fun id => "https://cmsweb.cern.ch:8443" ++
                    "/couchdb/reqmgr_config_cache/" ++ id ++ "/configFile")))])]],
          found.dispatched, []⟩) := by
  obtain ⟨found, hfound⟩ := findReqMgrIds_returns J _ dataset rOut rIn arrivals hvalid hOut hIn
    hsOut hsIn horder
  exact ⟨found, hfound, reqmgrConfigs_summary_of_found J fmtOther spec dataset arrivals found
    hkey hfound (hslash found hfound)⟩

/-- The record of C21 for the dataset key `/a/b/RAW`, with the input-side
response received first; the two responses hold one identifier each. -/
theorem reqmgrConfigs_summary_witness :
    ∃ found, findReqMgrIds goJSON "https://cmsweb.cern.ch:8443" "/a/b/RAW"
          [⟨inputUrl sampleBase "/a/b/RAW", lookupBody sampleIdB, none⟩,
            ⟨outputUrl sampleBase "/a/b/RAW", lookupBody sampleIdA, none⟩] =
        .ok (some found) ∧
      reqmgrConfigs goJSON (fun _ => "") [("dataset", .str "/a/b/RAW")]
          [⟨inputUrl sampleBase "/a/b/RAW", lookupBody sampleIdB, none⟩,
            ⟨outputUrl sampleBase "/a/b/RAW", lookupBody sampleIdA, none⟩] [] =
        .ok (some ⟨[some [("dataset", .str "/a/b/RAW"), ("name", .str "ReqMgr2"),
            ("ids", .strs found.ids), ("idict", .strsMap found.idict),
            ("urls", .record
              [("output", .strs ((strsGet found.idict "byoutputdataset").map
                  (fun id => "https://cmsweb.cern.ch:8443" ++
                    "/couchdb/reqmgr_config_cache/" ++ id ++ "/configFile"))),
                ("input", .strs ((strsGet found.idict "byinputdataset").map
                  (fun id => "https://cmsweb.cern.ch:8443" ++
                    "/couchdb/reqmgr_config_cache/" ++ id ++ "/configFile")))])]],
          found.dispatched, []⟩) :=
  reqmgrConfigs_summary goJSON (fun _ => "") [("dataset", .str "/a/b/RAW")] "/a/b/RAW"
    ⟨outputUrl sampleBase "/a/b/RAW", lookupBody sampleIdA, none⟩
    ⟨inputUrl sampleBase "/a/b/RAW", lookupBody sampleIdB, none⟩ _
    rfl (by decide) rfl rfl rfl rfl (Or.inr rfl)
    (by
      intro found h
      have he : findReqMgrIds goJSON "https://cmsweb.cern.ch:8443" "/a/b/RAW"
          [⟨inputUrl sampleBase "/a/b/RAW", lookupBody sampleIdB, none⟩,
            ⟨outputUrl sampleBase "/a/b/RAW", lookupBody sampleIdA, none⟩] =
          .ok (some ⟨[sampleIdB, sampleIdA],
            [("byinputdataset", [sampleIdB]), ("byoutputdataset", [sampleIdA])],
            [outputUrl sampleBase "/a/b/RAW", inputUrl sampleBase "/a/b/RAW"]⟩) := rfl
      rw [he] at h
      cases h
      decide)

/-- C23 (witness): the identifier `sampleIdA`, of 32 characters, in a list
with an identifier of 3 characters. -/
theorem reqmgrConfigs_partition_witness :
    sampleBase ++ "/couchdb/reqmgr_config_cache/" ++ sampleIdA ++ "/configFile" ∈
        (partitionIds sampleBase [sampleIdA, "abc"]).1 ∧
      sampleBase ++ "/couchdb/reqmgr_config_cache/" ++ sampleIdA ∉
        (partitionIds sampleBase [sampleIdA, "abc"]).2 :=
  (reqmgrConfigs_partition sampleBase [sampleIdA, "abc"]).1 sampleIdA (by simp) (by decide)

/-! ## C24: verification of the peer -/

/-- C24 (counterexample): with none of the variables `X509_USER_PROXY`,
`X509_USER_KEY`, `X509_USER_CERT` in the environment, and with a proxy file
that fails to load, `HttpClient` returns the client without a transport,
which verifies the peer. -/
theorem HttpClient_default_verifies :
    HttpClient noCertWorld = { Transport := none } ∧
      (HttpClient noCertWorld).verifiesPeer = true ∧
      HttpClient badProxyWorld = { Transport := none } ∧
      (HttpClient badProxyWorld).verifiesPeer = true := by
  decide

/-- The cases in which `Certs` returns a certificate: the proxy file is named
and loads, or no proxy file is named, a key file is named and the pair
loads. -/
theorem Certs_ne_nil_iff (W : CertWorld) :
    Certs W ≠ [] ↔
      ((osGetenv W.environ "X509_USER_PROXY").utf8ByteSize > 0 ∧
        ∃ c, W.LoadX509Proxy (osGetenv W.environ "X509_USER_PROXY") = .ok c) ∨
      (¬ (osGetenv W.environ "X509_USER_PROXY").utf8ByteSize > 0 ∧
        (osGetenv W.environ "X509_USER_KEY").utf8ByteSize > 0 ∧
        ∃ c, W.LoadX509KeyPair (osGetenv W.environ "X509_USER_CERT")
          (osGetenv W.environ "X509_USER_KEY") = .ok c) := by
  unfold Certs
  dsimp only
  by_cases hp : (osGetenv W.environ "X509_USER_PROXY").utf8ByteSize > 0
  · rw [if_pos hp]
    rcases hl : W.LoadX509Proxy (osGetenv W.environ "X509_USER_PROXY") with e | c
    · simp [hp]
    · simp [hp]
  · rw [if_neg hp]
    by_cases hk : (osGetenv W.environ "X509_USER_KEY").utf8ByteSize > 0
    · rw [if_pos hk]
      rcases hl : W.LoadX509KeyPair (osGetenv W.environ "X509_USER_CERT")
          (osGetenv W.environ "X509_USER_KEY") with e | c
      · simp [hp, hk]
      · simp [hp, hk]
    · rw [if_neg hk]
      simp [hp, hk]

/-- C24 (amended): the client built by `HttpClient` has the verification of
the peer disabled exactly when `Certs` has loaded a certificate, from the
proxy file or else from the certificate and key pair; its transport then
carries the certificates with `InsecureSkipVerify` set.  When `Certs` returns
no certificate (none is configured, or the load failed) the client is the
one without a transport, which verifies the peer. -/
theorem HttpClient_verification (W : CertWorld) :
    ((HttpClient W).verifiesPeer = false ↔ Certs W ≠ []) ∧
    (Certs W ≠ [] → HttpClient W =
      { Transport := some
          { TLSClientConfig := some { Certificates := Certs W, InsecureSkipVerify := true } } }) ∧
    (Certs W = [] → HttpClient W = { Transport := none } ∧
      (HttpClient W).verifiesPeer = true) := by
  unfold HttpClient
  dsimp only
  by_cases h : Certs W = []
  · simp [h, Client.verifiesPeer]
  · have hlen : ¬ (Certs W).length = 0 := fun e => h (List.length_eq_zero.mp e)
    simp [h, hlen, Client.verifiesPeer]

/-- C24 (witness): a proxy file that loads. -/
theorem HttpClient_verification_witness :
    (HttpClient proxyWorld).verifiesPeer = false :=
  (HttpClient_verification proxyWorld).1.mpr (by decide)

/-! ## C25: integers of the payload -/

/-- C25 (evaluation at the failing input): of the payload
`{"id":9007199254740993}`, `loadRucioData` makes a record whose `id` is the
binary64 number `2^53 = 9007199254740992`, and so does `loadReqMgrData` for an
api that holds a list of records; `loadMcMData`, `loadSiteDBData` and
`loadReqMgrData` for the api `configIDs` keep the literal. -/
theorem loadRucioData_rounds_integer :
    loadRucioData goJSON sampleKinds "rses" bigIntPayload =
        [some [("id", .float64 ⟨false, 1, 53⟩)]] ∧
      F64.toInt? ⟨false, 1, 53⟩ = some 9007199254740992 ∧
      loadReqMgrData goJSON sampleKinds "requests" ('[' :: bigIntPayload ++ [']']) =
        [some [("id", .float64 ⟨false, 1, 53⟩)]] ∧
      loadMcMData goJSON sampleKinds "dataset4mcm" bigIntPayload =
        [some [("id", .number "9007199254740993")]] ∧
      loadReqMgrData goJSON sampleKinds "configIDs" bigIntPayload =
        [some [("id", .number "9007199254740993")]] ∧
      loadSiteDBData goJSON sampleKinds "people"
          ("\x7b\"desc\":\x7b\"columns\":[\"id\"]\x7d," ++
            "\"result\":[[9007199254740993]]\x7d").toList =
        .ok [some [("id", .number "9007199254740993")]] :=
  ⟨rfl, by decide, rfl, rfl, rfl, rfl⟩

/-! ## C27: the token in the output of the helper -/

/-- C27 (evaluation at the failing input): for the output
`HTTP/2 200 \r\nx-rucio-auth-token: tok-2\r\n` of the helper, whose header name
equals `X-Rucio-Auth-Token` but for the case of its letters,
`FetchRucioTokenViaCurl` returns as token the text
`x-rucio-auth-token: tok-2`, header name included, where the value of the
header is `tok-2`; for the same line with the name written
`X-Rucio-Auth-Token` it returns `tok-2`. -/
theorem FetchRucioTokenViaCurl_lower_case_header :
    (FetchRucioTokenViaCurl lowerCaseCurlWorld 1000 freshModule
        "https://auth.example/auth/x509").map Prod.fst =
        .ok ⟨"x-rucio-auth-token: tok-2", 1300, none⟩ ∧
      curlToken (stringsSplit "HTTP/2 200 \r\nx-rucio-auth-token: tok-2\r\n" "\n") =
        .ok "x-rucio-auth-token: tok-2" ∧
      curlToken (stringsSplit "HTTP/2 200 \r\nX-Rucio-Auth-Token: tok-2\r\n" "\n") =
        .ok "tok-2" :=
  ⟨rfl, rfl, rfl⟩

/-! ## C30: `Median` -/

/-- Whatever the two numbers, `Median` panics on a list of two numeric values:
it reads the sorted list of length 2 at the index 2. -/
theorem Median_two_values (data : List GoVal) (h : (medianInput data).length = 2) :
    Median data = .error (.indexOutOfRange 2 2) := by
  have hl : (sortFloat64s (medianInput data)).length = 2 := by
    unfold sortFloat64s
    rw [List.length_insertionSort, h]
  unfold Median
  simp only [hl, bind, Except.bind, pure, Except.pure]
  match hs : sortFloat64s (medianInput data), hl with
  | [a, b], _ => rfl

/-- C30 (evaluation at the failing inputs): on the two values `1, 2` the
function `Median` panics with an index out of range (it reads the sorted list
of length 2 at the index 2); on the four values `4, 2, 3, 1` it returns
`(2 + 4) / 2 = 3`, where the median is `(2 + 3) / 2 = 2.5`; on the three
values `1, 2, 3` it returns `2`. -/
theorem Median_even_length :
    Median [.float64 ⟨false, 1, 0⟩, .float64 ⟨false, 1, 1⟩] =
        .error (.indexOutOfRange 2 2) ∧
      Median [.float64 ⟨false, 1, 2⟩, .float64 ⟨false, 1, 1⟩, .float64 ⟨false, 3, 0⟩,
          .float64 ⟨false, 1, 0⟩] = .ok (.finite ⟨false, 3, 0⟩) ∧
      (F64.add ⟨false, 1, 1⟩ ⟨false, 3, 0⟩).half = .finite ⟨false, 5, -1⟩ ∧
      Median [.float64 ⟨false, 1, 0⟩, .float64 ⟨false, 1, 1⟩, .float64 ⟨false, 3, 0⟩] =
        .ok (.finite ⟨false, 1, 1⟩) :=
  ⟨rfl, rfl, rfl, rfl⟩

/-! ## C32: the attempts of `Fetch` -/

/-- What `Fetch` does for a url that `validate_url` accepts and of which
`http.NewRequest` makes a request, by the first attempt that succeeds. -/
theorem Fetch_by_first_success (N : Net) (url : String) (trace : List Event)
    (hvalid : validate_url url = true) (hreq : N.newRequestOk url = true) :
    Fetch N url trace = .ok (trace ++
      (if (N.outcome (requestCount trace) url).error = none then
        [.request url,
          .send { Url := url, Data := (N.outcome (requestCount trace) url).data,
                  Error := (N.outcome (requestCount trace) url).error }]
      else if (N.outcome (requestCount trace + 1) url).error = none then
        [.request url, .sleep 1, .request url,
          .send { Url := url, Data := (N.outcome (requestCount trace + 1) url).data,
                  Error := (N.outcome (requestCount trace + 1) url).error }]
      else if (N.outcome (requestCount trace + 2) url).error = none then
        [.request url, .sleep 1, .request url, .sleep 2, .request url,
          .send { Url := url, Data := (N.outcome (requestCount trace + 2) url).data,
                  Error := (N.outcome (requestCount trace + 2) url).error }]
      else
        [.request url, .sleep 1, .request url, .sleep 2, .request url, .sleep 3,
          .request url,
          .send { Url := url, Data := (N.outcome (requestCount trace + 3) url).data,
                  Error := (N.outcome (requestCount trace + 3) url).error }])) := by
  unfold Fetch
  rw [FetchResponse_of_valid N url trace hvalid hreq]
  by_cases h0 : (N.outcome (requestCount trace) url).error = none
  · simp [bind, Except.bind, pure, Except.pure, h0]
  · simp only [bind, Except.bind, h0, ne_eq, not_false_eq_true, if_true, if_false]
    rw [fetchRetry_step N url hvalid hreq, requestCount_append_request]
    by_cases h1 : (N.outcome (requestCount trace + 1) url).error = none
    · simp [pure, Except.pure, h1]
    · rw [if_neg h1, fetchRetry_step N url hvalid hreq, requestCount_append_sleep_request,
        requestCount_append_request]
      by_cases h2 : (N.outcome (requestCount trace + 2) url).error = none
      · simp [pure, Except.pure, h1, h2]
      · have h2' : ¬ (N.outcome (requestCount trace + 1 + 1) url).error = none := h2
        rw [if_neg h2', fetchRetry_step N url hvalid hreq, requestCount_append_sleep_request,
          requestCount_append_sleep_request, requestCount_append_request]
        have e3 : requestCount trace + 1 + 1 + 1 = requestCount trace + 3 := rfl
        rw [e3]
        by_cases h3 : (N.outcome (requestCount trace + 3) url).error = none
        · simp [pure, Except.pure, h1, h2, h3]
        · rw [if_neg h3, fetchRetry]
          simp [pure, Except.pure, h1, h2]

/-- C32 (evaluation at the failing input): the url `http://a b` passes
`validate_url`; `http.NewRequest` makes no request of it, so `FetchResponse`
panics in the call through the nil request, and `Fetch`, in an environment
that would answer every request, sends no response on the channel. -/
theorem Fetch_rejected_request_no_response :
    validate_url "http://a b" = true ∧
      strictNet.newRequestOk "http://a b" = false ∧
      FetchResponse strictNet "http://a b" [] = .error .nilDereference ∧
      Fetch strictNet "http://a b" [] = .error .nilDereference :=
  ⟨by decide, rfl, Fetch_of_rejected_request strictNet "http://a b" [] (by decide) rfl⟩

/-- The part of C32 that holds: for a url that `validate_url` accepts and of
which `http.NewRequest` makes a request, and whatever the outcomes of the
attempts, `Fetch` sends
exactly one response on the channel, after all its requests, and the `Url`
field of that response is the url; it makes between one and four attempts;
and if the attempt `k` (from 1 to 4) is the first that succeeds, `Fetch` makes
exactly `k` attempts and the response it sends is the one of attempt `k`,
with the body read and a nil error. -/
theorem Fetch_one_response (N : Net) (url : String) (trace : List Event)
    (hvalid : validate_url url = true) (hreq : N.newRequestOk url = true) :
    ∃ (pre : List Event) (resp : ResponseType),
      Fetch N url trace = .ok (trace ++ pre ++ [.send resp]) ∧
      (∀ e ∈ pre, ∀ r, e ≠ .send r) ∧ resp.Url = url ∧
      1 ≤ requestCount pre ∧ requestCount pre ≤ 4 ∧
      ∀ k, 1 ≤ k → k ≤ 4 →
        (∀ j, j + 1 < k → (N.outcome (requestCount trace + j) url).error ≠ none) →
        (N.outcome (requestCount trace + (k - 1)) url).error = none →
        requestCount pre = k ∧
          resp = { Url := url, Data := (N.outcome (requestCount trace + (k - 1)) url).data,
                   Error := none } := by
  have hF := Fetch_by_first_success N url trace hvalid hreq
  by_cases h0 : (N.outcome (requestCount trace) url).error = none
  · rw [if_pos h0] at hF
    refine ⟨[.request url],
        ⟨url, (N.outcome (requestCount trace) url).data, (N.outcome (requestCount trace) url).error⟩,
        by rw [hF]; simp, ?_, rfl, by simp [requestCount], by simp [requestCount], ?_⟩
    · intro e he r
      simp only [List.mem_singleton] at he
      subst he
      exact Event.noConfusion
    · intro k hk1 hk4 hfail hok
      have hk : k = 1 := by
        by_contra hne
        exact hfail 0 (by omega) h0
      subst hk
      exact ⟨rfl, by simp [h0]⟩
  · rw [if_neg h0] at hF
    by_cases h1 : (N.outcome (requestCount trace + 1) url).error = none
    · rw [if_pos h1] at hF
      refine ⟨[.request url, .sleep 1, .request url],
        ⟨url, (N.outcome (requestCount trace + 1) url).data, (N.outcome (requestCount trace + 1) url).error⟩,
        by rw [hF]; simp, ?_, rfl,
        by simp [requestCount], by simp [requestCount], ?_⟩
      · intro e he r
        simp only [List.mem_cons, List.mem_singleton, List.not_mem_nil, or_false] at he
        rcases he with rfl | rfl | rfl <;> exact Event.noConfusion
      · intro k hk1 hk4 hfail hok
        have hk : k = 2 := by
          by_contra hne
          have : k = 1 ∨ k = 3 ∨ k = 4 := by omega
          rcases this with rfl | rfl | rfl
          · exact h0 hok
          · exact hfail 1 (by omega) h1
          · exact hfail 1 (by omega) h1
        subst hk
        exact ⟨rfl, by simp [h1]⟩
    · rw [if_neg h1] at hF
      by_cases h2 : (N.outcome (requestCount trace + 2) url).error = none
      · rw [if_pos h2] at hF
        refine ⟨[.request url, .sleep 1, .request url, .sleep 2, .request url],
        ⟨url, (N.outcome (requestCount trace + 2) url).data, (N.outcome (requestCount trace + 2) url).error⟩,
        by rw [hF]; simp, ?_, rfl, by simp [requestCount], by simp [requestCount], ?_⟩
        · intro e he r
          simp only [List.mem_cons, List.mem_singleton, List.not_mem_nil, or_false] at he
          rcases he with rfl | rfl | rfl | rfl | rfl <;> exact Event.noConfusion
        · intro k hk1 hk4 hfail hok
          have hk : k = 3 := by
            by_contra hne
            have : k = 1 ∨ k = 2 ∨ k = 4 := by omega
            rcases this with rfl | rfl | rfl
            · exact h0 hok
            · exact h1 hok
            · exact hfail 2 (by omega) h2
          subst hk
          exact ⟨rfl, by simp [h2]⟩
      · rw [if_neg h2] at hF
        refine ⟨[.request url, .sleep 1, .request url, .sleep 2, .request url, .sleep 3,
          .request url],
        ⟨url, (N.outcome (requestCount trace + 3) url).data, (N.outcome (requestCount trace + 3) url).error⟩,
        by rw [hF]; simp, ?_, rfl, by simp [requestCount], by simp [requestCount], ?_⟩
        · intro e he r
          simp only [List.mem_cons, List.mem_singleton, List.not_mem_nil, or_false] at he
          rcases he with rfl | rfl | rfl | rfl | rfl | rfl | rfl <;> exact Event.noConfusion
        · intro k hk1 hk4 hfail hok
          have hk : k = 4 := by
            by_contra hne
            have : k = 1 ∨ k = 2 ∨ k = 3 := by omega
            rcases this with rfl | rfl | rfl
            · exact h0 hok
            · exact h1 hok
            · exact h2 hok
          subst hk
          have hok' : (N.outcome (requestCount trace + 3) url).error = none := hok
          exact ⟨rfl, by simp [hok']⟩

/-- The one response of C32 for the url `http://a` in an environment that
refuses the first two requests. -/
theorem Fetch_one_response_witness :
    ∃ (pre : List Event) (resp : ResponseType),
      Fetch flakyNet "http://a" [] = .ok ([] ++ pre ++ [.send resp]) ∧
      (∀ e ∈ pre, ∀ r, e ≠ .send r) ∧ resp.Url = "http://a" ∧
      1 ≤ requestCount pre ∧ requestCount pre ≤ 4 ∧
      ∀ k, 1 ≤ k → k ≤ 4 →
        (∀ j, j + 1 < k → (flakyNet.outcome (requestCount [] + j) "http://a").error ≠ none) →
        (flakyNet.outcome (requestCount [] + (k - 1)) "http://a").error = none →
        requestCount pre = k ∧
          resp = { Url := "http://a",
                   Data := (flakyNet.outcome (requestCount [] + (k - 1)) "http://a").data,
                   Error := none } :=
  Fetch_one_response flakyNet "http://a" [] (by decide) rfl

/-! ## C33: a refresh that fails -/

theorem Account_keeps_cache (environ : List String) (r : RucioAuthModule)
    (p : String × RucioAuthModule) (h : r.Account environ = .ok p) :
    p.2.token = r.token ∧ p.2.ts = r.ts := by
  unfold RucioAuthModule.Account at h
  simp only [bind, Except.bind, pure, Except.pure] at h
  repeat' split at h
  all_goals first
    | (cases h; done)
    | (cases h; exact ⟨rfl, rfl⟩)

theorem Agent_keeps_cache (r : RucioAuthModule) :
    r.Agent.2.token = r.token ∧ r.Agent.2.ts = r.ts := by
  unfold RucioAuthModule.Agent
  dsimp only
  split <;> exact ⟨rfl, rfl⟩

theorem Url_keeps_cache (environ : List String) (r : RucioAuthModule)
    (p : String × RucioAuthModule) (h : r.Url environ = .ok p) :
    p.2.token = r.token ∧ p.2.ts = r.ts := by
  unfold RucioAuthModule.Url at h
  simp only [bind, Except.bind, pure, Except.pure] at h
  repeat' split at h
  all_goals first
    | (cases h; done)
    | (cases h; exact ⟨rfl, rfl⟩)

/-- The strategy `FetchRucioToken` leaves the cached token and expiry of the
module as they are. -/
theorem FetchRucioToken_keeps_cache (W : AuthWorld) (t0 : Int) (g : RucioAuthModule)
    (rurl : String) (p : TokenFetch × RucioAuthModule)
    (h : FetchRucioToken W t0 g rurl = .ok p) :
    p.2.token = g.token ∧ p.2.ts = g.ts := by
  unfold FetchRucioToken at h
  simp only [bind, Except.bind, pure, Except.pure] at h
  repeat' split at h
  all_goals first
    | (cases h; done)
    | (cases h; exact ⟨rfl, rfl⟩)
    | (cases h; exact Agent_keeps_cache _)
    | (cases h
       have h1 := Account_keeps_cache W.environ g _ (by assumption)
       exact ⟨(Agent_keeps_cache _).1.trans h1.1, (Agent_keeps_cache _).2.trans h1.2⟩)

/-- The strategy `FetchRucioTokenViaCurl` leaves the cached token and expiry
of the module as they are. -/
theorem FetchRucioTokenViaCurl_keeps_cache (W : AuthWorld) (t0 : Int) (g : RucioAuthModule)
    (rurl : String) (p : TokenFetch × RucioAuthModule)
    (h : FetchRucioTokenViaCurl W t0 g rurl = .ok p) :
    p.2.token = g.token ∧ p.2.ts = g.ts := by
  unfold FetchRucioTokenViaCurl at h
  simp only [bind, Except.bind, pure, Except.pure] at h
  repeat' split at h
  all_goals first
    | (cases h; done)
    | (cases h; exact Agent_keeps_cache _)
    | (cases h
       have h1 := Account_keeps_cache W.environ g _ (by assumption)
       exact ⟨(Agent_keeps_cache _).1.trans h1.1, (Agent_keeps_cache _).2.trans h1.2⟩)

/-- The refresh of `Token` leaves the cached token and expiry as they are. -/
theorem tokenFetch_keeps_cache (W : AuthWorld) (t0 : Int) (r : RucioAuthModule)
    (p : TokenFetch × RucioAuthModule) (h : (tokenFetch W t0 r).2 = .ok p) :
    p.2.token = r.token ∧ p.2.ts = r.ts := by
  unfold tokenFetch at h
  rcases hu : r.Url W.environ with e | ⟨u, r'⟩
  · rw [hu] at h
    cases h
  · rw [hu] at h
    have h0 := Url_keeps_cache W.environ r _ hu
    simp only at h h0
    cases hc : W.RucioTokenCurl
    · rw [hc] at h
      simp only [Bool.false_eq_true, if_false] at h
      have h1 := FetchRucioToken_keeps_cache W t0 r' u p h
      exact ⟨h1.1.trans h0.1, h1.2.trans h0.2⟩
    · rw [hc] at h
      simp only [if_true] at h
      have h1 := FetchRucioTokenViaCurl_keeps_cache W t0 r' u p h
      exact ⟨h1.1.trans h0.1, h1.2.trans h0.2⟩

/-- C33: when `Token`, called with an empty or expired cache, gets an error
from the refresh strategy it selects, it returns the empty string with that
error, and the cached token and the cached expiry of the module are the ones
of before the call. -/
theorem Token_refresh_error (W : AuthWorld) (t t0 : Int) (r r₁ : RucioAuthModule)
    (f : TokenFetch) (e : GoError) (hexp : r.token = "" ∨ r.ts ≤ t)
    (hfetch : (tokenFetch W t0 r).2 = .ok (f, r₁)) (herr : f.err = some e) :
    ∃ r', (r.Token W t t0).result = .ok (("", some e), r') ∧
      r'.token = r.token ∧ r'.ts = r.ts := by
  have hc : tokenCached t r = false := by
    unfold tokenCached
    rcases hexp with h | h
    · simp [h]
    · simp [Int.not_lt.mpr h]
  have hk := tokenFetch_keeps_cache W t0 r _ hfetch
  refine ⟨r₁, ?_, hk.1, hk.2⟩
  unfold RucioAuthModule.Token
  simp only [hc, Bool.false_eq_true, if_false, hfetch, tokenStore, herr]

/-- C33 (witness): a module whose token `tok-1` has expired, in an environment
whose auth endpoint refuses the request. -/
theorem Token_refresh_error_witness :
    ∃ r', ((refreshedModule "tok-1" 50).Token refusedAuthWorld 100 100).result =
        .ok (("", some "connection refused"), r') ∧
      r'.token = (refreshedModule "tok-1" 50).token ∧ r'.ts = (refreshedModule "tok-1" 50).ts :=
  Token_refresh_error refusedAuthWorld 100 100 (refreshedModule "tok-1" 50)
    (refreshedModule "tok-1" 50) ⟨"", 0, some "connection refused"⟩ "connection refused"
    (Or.inr (by decide)) rfl rfl

/-! ## C34: no request in the second round -/

/-- C34: whatever the dataset key and whatever arrives in the first round, in
whatever order, every identifier that `findReqMgrIds` returns has exactly 32
bytes; hence the list `rurls` of lookup urls that `reqmgrConfigs` makes of
them is empty, `reqmgrConfigs` returns without any response of a second
round, and the urls it reports as dispatched in the second round are
none. -/
theorem findReqMgrIds_ids_of_32_bytes (J : JSONLib) (fmtOther : GoVal → String)
    (spec : Fields) (dataset : String) (arrivals1 : List ResponseType) (found : FindResult)
    (hkey : spec.get "dataset" = .str dataset)
    (hfound : findReqMgrIds J "https://cmsweb.cern.ch:8443" dataset arrivals1 =
      .ok (some found)) :
    (∀ id ∈ found.ids, id.utf8ByteSize = 32) ∧
    (partitionIds "https://cmsweb.cern.ch:8443" found.ids).2 = [] ∧
    (∃ out, reqmgrConfigs J fmtOther spec arrivals1 [] = .ok (some out) ∧ out.round2 = []) ∧
    (∀ arrivals2 out, reqmgrConfigs J fmtOther spec arrivals1 arrivals2 = .ok (some out) →
      out.round2 = []) := by
  obtain ⟨h32, -, -⟩ := findReqMgrIds_sized_of_returned J _ dataset arrivals1 found hfound
  have hf2 : found.ids.filter (fun v => v.utf8ByteSize ≠ 32) = [] := by
    rw [List.filter_eq_nil_iff]
    intro x hx
    simpa using h32 x hx
  have hpart : (partitionIds "https://cmsweb.cern.ch:8443" found.ids).2 = [] := by
    rw [partitionIds_eq, hf2]
    rfl
  refine ⟨h32, hpart, ?_, ?_⟩
  · unfold reqmgrConfigs
    simp only [hkey, GoVal.asString, hfound, hpart, bind, Except.bind, pure, Except.pure, fanIn,
      List.foldl_nil, List.length_nil, if_true]
    exact ⟨_, rfl, rfl⟩
  · intro arrivals2 out hout
    rw [reqmgrConfigs_round2 J fmtOther spec dataset arrivals1 arrivals2 found out hkey hfound
      hout, hpart]

/-- C34 (witness): the dataset key `/a/b/RAW`, with the input-side response
received first. -/
theorem findReqMgrIds_ids_of_32_bytes_witness :
    (∀ id ∈ [sampleIdB, sampleIdA], id.utf8ByteSize = 32) ∧
    (partitionIds "https://cmsweb.cern.ch:8443" [sampleIdB, sampleIdA]).2 = [] ∧
    (∃ out, reqmgrConfigs goJSON (fun _ => "") [("dataset", .str "/a/b/RAW")]
        [⟨inputUrl sampleBase "/a/b/RAW", lookupBody sampleIdB, none⟩,
          ⟨outputUrl sampleBase "/a/b/RAW", lookupBody sampleIdA, none⟩] [] =
        .ok (some out) ∧ out.round2 = []) ∧
    (∀ arrivals2 out, reqmgrConfigs goJSON (fun _ => "") [("dataset", .str "/a/b/RAW")]
        [⟨inputUrl sampleBase "/a/b/RAW", lookupBody sampleIdB, none⟩,
          ⟨outputUrl sampleBase "/a/b/RAW", lookupBody sampleIdA, none⟩] arrivals2 =
        .ok (some out) → out.round2 = []) :=
  findReqMgrIds_ids_of_32_bytes goJSON (fun _ => "") [("dataset", .str "/a/b/RAW")] "/a/b/RAW"
    [⟨inputUrl sampleBase "/a/b/RAW", lookupBody sampleIdB, none⟩,
      ⟨outputUrl sampleBase "/a/b/RAW", lookupBody sampleIdA, none⟩]
    ⟨[sampleIdB, sampleIdA],
      [("byinputdataset", [sampleIdB]), ("byoutputdataset", [sampleIdA])],
      [outputUrl sampleBase "/a/b/RAW", inputUrl sampleBase "/a/b/RAW"]⟩ rfl rfl

/-! ## C31: values that hold `=` -/

/-- C31 (evaluation at the failing input): for the environment with the one
entry `RUCIO_AUTH_URL=https://auth.example/x?a=b`, `GetEnv` returns the value
cut at its first `=`, `https://auth.example/x?a`, where the value of the entry
(and what `os.Getenv` returns) is `https://auth.example/x?a=b`; the method
`Url` builds the url of the auth endpoint from the cut value.  For a key
without an entry `GetEnv` returns the empty string. -/
theorem GetEnv_cuts_value :
    GetEnv ["RUCIO_AUTH_URL=https://auth.example/x?a=b"] "RUCIO_AUTH_URL" =
        .ok "https://auth.example/x?a" ∧
      osGetenv ["RUCIO_AUTH_URL=https://auth.example/x?a=b"] "RUCIO_AUTH_URL" =
        "https://auth.example/x?a=b" ∧
      (freshModule.Url ["RUCIO_AUTH_URL=https://auth.example/x?a=b"]).map Prod.fst =
        .ok "https://auth.example/x?a/auth/x509" ∧
      GetEnv ["RUCIO_AUTH_URL=https://auth.example/x?a=b"] "RUCIO_ACCOUNT" = .ok "" :=
  ⟨rfl, by decide, rfl, rfl⟩

theorem splitAux_plain (v cur : List Char) (h : '=' ∉ v) :
    splitAux ['='] v cur 0 = [cur ++ v] := by
  induction v generalizing cur with
  | nil => simp [splitAux]
  | cons c v ih =>
    have hc : c ≠ '=' := fun e => h (by simp [e])
    have hv : '=' ∉ v := fun e => h (by simp [e])
    rw [splitAux]
    have hpre : ¬ (['='].isPrefixOf (c :: v)) = true := by
      simp [List.isPrefixOf, Ne.symm hc]
    rw [if_neg hpre, ih _ hv]
    simp

theorem splitAux_entry (k v cur : List Char) (hk : '=' ∉ k) (hv : '=' ∉ v) :
    splitAux ['='] (k ++ '=' :: v) cur 0 = [cur ++ k, v] := by
  induction k generalizing cur with
  | nil =>
    rw [List.nil_append, splitAux]
    have hpre : (['='].isPrefixOf ('=' :: v)) = true := by simp [List.isPrefixOf]
    rw [if_pos hpre]
    show cur :: splitAux ['='] v [] 0 = _
    rw [splitAux_plain v [] hv]
    simp
  | cons c k ih =>
    have hc : c ≠ '=' := fun e => hk (by simp [e])
    have hk' : '=' ∉ k := fun e => hk (by simp [e])
    rw [List.cons_append, splitAux]
    have hpre : ¬ (['='].isPrefixOf (c :: (k ++ '=' :: v))) = true := by
      simp [List.isPrefixOf, Ne.symm hc]
    rw [if_neg hpre, ih _ hk']
    simp

/-- On an environment whose entries are `k=v` for keys and values without a
`=`, `GetEnv` returns the value of the first entry for the key, and the empty
string when there is none. -/
theorem GetEnv_of_plain_values (kvs : List (String × String)) (key : String)
    (h : ∀ kv ∈ kvs, '=' ∉ kv.1.toList ∧ '=' ∉ kv.2.toList) :
    GetEnv (kvs.map (fun kv => kv.1 ++ "=" ++ kv.2)) key =
      .ok (match kvs.find? (fun kv => kv.1 == key) with
        | some kv => kv.2
        | none => "") := by
  induction kvs with
  | nil => rfl
  | cons kv kvs ih =>
    obtain ⟨hk, hv⟩ := h kv (by simp)
    have hsplit : stringsSplit (kv.1 ++ "=" ++ kv.2) "=" = [kv.1, kv.2] := by
      unfold stringsSplit
      have e : (kv.1 ++ "=" ++ kv.2).toList = kv.1.toList ++ '=' :: kv.2.toList := by
        simp [String.toList]
      have e' : ("=" : String).toList = ['='] := rfl
      rw [e, e', splitAux_entry _ _ _ hk hv]
      simp [String.toList]
    rw [List.map_cons, GetEnv]
    simp only [hsplit, index, bind, Except.bind]
    by_cases hkey : kv.1 = key
    · simp [hkey, List.find?, pure, Except.pure]
    · have := ih (fun kv' hkv' => h kv' (by simp [hkv']))
      have hb : ¬ ((fun (kv : String × String) => kv.1 == key) kv) = true := by
        simpa using hkey
      have hfind : List.find? (fun (kv : String × String) => kv.1 == key) (kv :: kvs) =
          List.find? (fun (kv : String × String) => kv.1 == key) kvs :=
        List.find?_cons_of_neg kvs hb
      rw [hfind]
      simp [hkey, this]

/-! ## C35: `SizeFormat` -/

/-- C35 (evaluation at the failing inputs): for the `int64` values `1000^6`,
`1000^6 - 1` (which `float64` rounds to `1000^6`) and `2^63 - 1`, whatever the
texts of the verb `%v`, `SizeFormat` panics with an index out of range: after
its loop over the six units it reads `xlist[len(xlist)]`, the index 6 of a
list of length 6.  For `1500` it returns `1500 (1.5KB)`, and for
`999999999999999935`, which `float64` rounds to a number below `1000^6`,
`999999999999999935 (1000.0PB)`. -/
theorem SizeFormat_index_out_of_range (fmtV : GoVal → String)
    (ParseFloat : String → Float64 × Option GoError) :
    SizeFormat fmtV ParseFloat (.int64 1000000000000000000) =
        .error (.indexOutOfRange 6 6) ∧
      SizeFormat fmtV ParseFloat (.int64 999999999999999999) =
        .error (.indexOutOfRange 6 6) ∧
      SizeFormat fmtV ParseFloat (.int64 9223372036854775807) =
        .error (.indexOutOfRange 6 6) ∧
      SizeFormat sampleFmtV refusingParseFloat (.int64 1500) = .ok "1500 (1.5KB)" ∧
      SizeFormat sampleFmtV refusingParseFloat (.int64 999999999999999935) =
        .ok "999999999999999935 (1000.0PB)" :=
  ⟨rfl, rfl, rfl, rfl, rfl⟩

/-! ## C2: a number beyond the range of `float64` -/

/-- C2 (evaluation at the failing input): the payload of the one segment
`{"a":1e400}` is a well-formed JSON object text, which the scanner accepts and
`loadMcMData` decodes to one record with the number kept; `json.Unmarshal`
reports the number as out of the range of `float64`, and `loadRucioData`
returns two records for it, an error Record and then the record in which the
failed decoding left `a` nil. -/
theorem loadRucioData_number_out_of_range (K : ErrorKinds) (api : String) :
    scanDocument hugeNumberPayload = .ok (.object [("a", .number "1e400".toList)]) ∧
      loadMcMData goJSON K api hugeNumberPayload = [some [("a", .number "1e400")]] ∧
      loadRucioData goJSON K api hugeNumberPayload =
        [DASErrorRecord
            (unmarshalMsg "Rucio" api hugeNumberPayload
              "json: cannot unmarshal number 1e400 into Go value of type float64")
            K.RucioErrorName K.RucioError,
          some [("a", .nil)]] :=
  ⟨rfl, rfl, rfl⟩

end Das2go
